import Mathlib

/-! # gpupgrade: tablespace model and agent per-segment worker

A shallow embedding of `greenplum/tablespace.go` and `agent/upgrade_primary.go`
together with the parts of the Go standard library they call
(`strconv.Itoa`, `path/filepath.Join` and `Dir`, `bufio.Writer`, the writer of
`encoding/csv`) and the reader of `encoding/csv`, with which the mapping file
is parsed again.  The definitions come first, then the theorems.

Conventions.
* A Go `string` is the list of its bytes (`GoString`), a byte being written
  as the character with that code, below 256; ASCII text reads as itself, so
  string literals are written `"...".toList`, and a character outside ASCII
  is the several bytes of its UTF-8 encoding.  Lengths, indices and slices
  are those of the bytes, as in Go.
* A Go `int` is an `Int`; no arithmetic is performed on the integers of this
  program, so no wrap-around is involved.
* A Go `error` is a value of `Error`; the nil error is `none : Option Error`.
* A Go `map[int]V` is a `GoMap V`.
* Code with effects takes the state of its environment and returns the new
  state with its result: the world state `σ` of the agent (filesystem and
  upgrade primitive), the state `ω` of an `io.Writer`.
-/

set_option autoImplicit false

namespace Gpupgrade

/-! ## Strings and integers -/

/-- A Go `string`: its bytes in order.  A byte is written as the character
with that code (below 256), so an ASCII character stands for itself; a
character outside ASCII occupies the bytes of its UTF-8 encoding, e.g. the
two bytes `'\xc3', '\xa9'`. -/
abbrev GoString := List Char

/-- The digit loop of `strconv.formatBits` for base 10: the decimal digits of `n`,
most significant first, pushed in front of `acc`.  At least one digit is produced. -/
def formatBits : Nat → Nat → GoString → GoString
  | 0, _, acc => acc
  | fuel + 1, n, acc =>
    if n / 10 = 0 then Nat.digitChar (n % 10) :: acc
    else formatBits fuel (n / 10) (Nat.digitChar (n % 10) :: acc)

/-- The decimal rendering of a natural number. -/
def formatNat (n : Nat) : GoString := formatBits (n + 1) n []

/-- `strconv.Itoa`: base-10 rendering, with a leading `-` for negative numbers. -/
def Itoa (i : Int) : GoString :=
  match i with
  | Int.ofNat n => formatNat n
  | Int.negSucc n => '-' :: formatNat (n + 1)

/-- The value of a decimal digit character, if it is one. -/
def digitValue (c : Char) : Option Nat :=
  if '0' ≤ c ∧ c ≤ '9' then some (c.toNat - '0'.toNat) else none

/-- Accumulating digit parser of `strconv.ParseUint` for base 10. -/
def parseDigits : GoString → Nat → Option Nat
  | [], acc => some acc
  | c :: cs, acc =>
    match digitValue c with
    | some d => parseDigits cs (acc * 10 + d)
    | none => none

/-- `strconv.Atoi` on the decimal syntax: an optional sign followed by at least
one digit.  (The 64-bit range check is not modelled: every value of a Go `int`
is in range.) -/
def Atoi (s : GoString) : Option Int :=
  match s with
  | [] => none
  | '-' :: ds => if ds = [] then none else (parseDigits ds 0).map (fun n => -(n : Int))
  | '+' :: ds => if ds = [] then none else (parseDigits ds 0).map (fun n => (n : Int))
  | ds => (parseDigits ds 0).map (fun n => (n : Int))

/-! ## Go maps -/

/-- A Go `map[int]V`: a finite list of bindings with pairwise distinct keys,
kept in order of first insertion. -/
structure GoMap (V : Type) where
  entries : List (Int × V)
  deriving DecidableEq, Repr

namespace GoMap

variable {V : Type}

/-- The map created by `make`. -/
def empty : GoMap V := ⟨[]⟩

/-- Lookup in a list of bindings. -/
def lookupEntries : List (Int × V) → Int → Option V
  | [], _ => none
  | (k', v') :: es, k => if k' = k then some v' else lookupEntries es k

/-- Assignment in a list of bindings. -/
def setEntries : List (Int × V) → Int → V → List (Int × V)
  | [], k, v => [(k, v)]
  | (k', v') :: es, k, v => if k' = k then (k, v) :: es else (k', v') :: setEntries es k v

/-- The two-valued lookup `v, ok := m[k]`. -/
def get? (m : GoMap V) (k : Int) : Option V := lookupEntries m.entries k

/-- The assignment `m[k] = v`. -/
def set (m : GoMap V) (k : Int) (v : V) : GoMap V := ⟨setEntries m.entries k v⟩

end GoMap

/-! ## Errors -/

/-- An argument of a format string. -/
inductive Arg (ε : Type) where
  | str (s : GoString)
  | int (i : Int)
  | strs (l : List GoString)
  | err (e : ε)

/-- A Go `error`.  `New` is an error created by `errors.New` or handed back by
the environment; `Wrap`, `Wrapf` are the wrappers of `github.com/pkg/errors`,
which keep the cause.  The message of `Wrapf` is kept as the format string
with its arguments. -/
inductive Error where
  | New (text : GoString)
  | Wrap (cause : Error) (message : String)
  | Wrapf (cause : Error) (format : String) (args : List (Arg Error))

/-- The cause kept by a wrapper (`errors.Unwrap`); `none` for an error that wraps nothing. -/
def Error.Unwrap : Error → Option Error
  | Error.New _ => none
  | Error.Wrap cause _ => some cause
  | Error.Wrapf cause _ _ => some cause

/-! ## `path/filepath` (Unix) -/

/-- The backtracking of `filepath.Clean` on a `..` element: starting from
write index `w`, step back while `w > dotdot` and the byte at `w` is not a
separator. -/
def Clean.backtrack (out : GoString) (dotdot : Nat) : Nat → Nat
  | 0 => 0
  | w + 1 => if dotdot < w + 1 ∧ out.get? (w + 1) ≠ some '/' then Clean.backtrack out dotdot w else w + 1

/-- The main loop of `filepath.Clean`.  `path` is the unread input `path[r:]`,
`out` the bytes written so far (`out.w` is its length), `dotdot` the index
where `..` must stop.  Every iteration consumes at least one byte, so `fuel`
equal to the length of the input suffices. -/
def Clean.loop (rooted : Bool) : Nat → GoString → GoString → Nat → GoString
  | 0, _, out, _ => out
  | fuel + 1, path, out, dotdot =>
    match path with
    | [] => out
    | c :: rest =>
      if c = '/' then
        -- empty path element
        Clean.loop rooted fuel rest out dotdot
      else if c = '.' ∧ (rest = [] ∨ rest.head? = some '/') then
        -- . element
        Clean.loop rooted fuel rest out dotdot
      else if c = '.' ∧ rest.head? = some '.' ∧ (rest.tail = [] ∨ rest.tail.head? = some '/') then
        -- .. element: remove to last separator
        if dotdot < out.length then
          -- can backtrack
          Clean.loop rooted fuel rest.tail (out.take (Clean.backtrack out dotdot (out.length - 1))) dotdot
        else if rooted = false then
          -- cannot backtrack, but not rooted, so append .. element
          let out1 := (if 0 < out.length then out ++ ['/'] else out) ++ ['.', '.']
          Clean.loop rooted fuel rest.tail out1 out1.length
        else
          Clean.loop rooted fuel rest.tail out dotdot
      else
        -- real path element: add slash if needed, then copy the element
        let out1 :=
          if (rooted = true ∧ out.length ≠ 1) ∨ (rooted = false ∧ out.length ≠ 0) then out ++ ['/']
          else out
        Clean.loop rooted fuel (path.dropWhile (fun x => x != '/'))
          (out1 ++ path.takeWhile (fun x => x != '/')) dotdot

/-- `filepath.Clean`: the shortest path name equivalent to `path` by purely
lexical processing. -/
def Clean (path : GoString) : GoString :=
  match path with
  | [] => ['.']
  | c :: rest =>
    let out :=
      if c = '/' then Clean.loop true rest.length rest ['/'] 1
      else Clean.loop false path.length path [] 0
    -- Turn empty string into "."
    if out.length = 0 then ['.'] else out

/-- `strings.Join`. -/
def stringsJoin (elems : List GoString) (sep : GoString) : GoString :=
  match elems with
  | [] => []
  | [e] => e
  | e :: es => e ++ sep ++ stringsJoin es sep

/-- `filepath.Join`: join the elements from the first non-empty one on with
separators and clean the result; the empty string if all are empty. -/
def Join : List GoString → GoString
  | [] => []
  | e :: es => if e ≠ [] then Clean (stringsJoin (e :: es) ['/']) else Join es

/-- The index scan of `filepath.Dir`: the prefix of `path` up to and including
its last separator (empty when there is none). -/
def Dir.throughLastSep (path : GoString) : GoString :=
  (path.reverse.dropWhile (fun x => x != '/')).reverse

/-- `filepath.Dir`: all but the last element of `path`, cleaned. -/
def Dir (path : GoString) : GoString := Clean (Dir.throughLastSep path)

/-! ## `io.Writer` and `bufio.Writer` -/

/-- An `io.Writer` over a state `ω`: `Write p` reports how many bytes of `p` it
accepted and an error or nil. -/
structure IoWriter (ω : Type) where
  Write : GoString → ω → (Nat × Option Error) × ω

/-- The error `io.ErrShortWrite`. -/
def ErrShortWrite : Error := Error.New "short write".toList

/-- The size of the buffer of `bufio.NewWriter`. -/
def defaultBufSize : Nat := 4096

/-- A `bufio.Writer`: the buffered bytes `buf[0:n]` and the sticky error.
The length of `buf` is the number `n` of buffered bytes. -/
structure BufioWriter where
  buf : GoString
  err : Option Error

/-- The method `Available`. -/
def BufioWriter.Available (b : BufioWriter) : Nat := defaultBufSize - b.buf.length

/-- The method `Flush` of `bufio.Writer`. -/
def BufioWriter.Flush {ω : Type} (w : IoWriter ω) (b : BufioWriter) (s : ω) :
    Option Error × BufioWriter × ω :=
  match b.err with
  | some e => (some e, b, s)
  | none =>
    if b.buf.length = 0 then (none, b, s)
    else
      match w.Write b.buf s with
      | ((n, err), s1) =>
        let err1 := if n < b.buf.length ∧ err.isNone = true then some ErrShortWrite else err
        match err1 with
        | some e => (some e, { buf := b.buf.drop n, err := some e }, s1)
        | none => (none, { buf := [], err := none }, s1)

/-- The loop of `WriteString` of `bufio.Writer`: while the string does not fit,
fill the buffer and flush. -/
def BufioWriter.WriteString.loop {ω : Type} (w : IoWriter ω) :
    Nat → GoString → BufioWriter → ω → GoString × BufioWriter × ω
  | 0, str, b, s => (str, b, s)
  | fuel + 1, str, b, s =>
    if b.Available < str.length ∧ b.err.isNone = true then
      match BufioWriter.Flush w { b with buf := b.buf ++ str.take b.Available } s with
      | (_, b1, s1) => BufioWriter.WriteString.loop w fuel (str.drop b.Available) b1 s1
    else (str, b, s)

/-- The method `WriteString` of `bufio.Writer`. -/
def BufioWriter.WriteString {ω : Type} (w : IoWriter ω) (str : GoString) (b : BufioWriter)
    (s : ω) : Option Error × BufioWriter × ω :=
  match BufioWriter.WriteString.loop w (str.length + 2) str b s with
  | (str1, b1, s1) =>
    match b1.err with
    | some e => (some e, b1, s1)
    | none => (none, { b1 with buf := b1.buf ++ str1 }, s1)

/-- The method `WriteByte` of `bufio.Writer` (also `WriteRune` for a rune below
`utf8.RuneSelf`). -/
def BufioWriter.WriteByte {ω : Type} (w : IoWriter ω) (c : Char) (b : BufioWriter) (s : ω) :
    Option Error × BufioWriter × ω :=
  match b.err with
  | some e => (some e, b, s)
  | none =>
    if b.Available ≤ 0 then
      match BufioWriter.Flush w b s with
      | (some _, b1, s1) => (b1.err, b1, s1)
      | (none, b1, s1) => (none, { b1 with buf := b1.buf ++ [c] }, s1)
    else (none, { b with buf := b.buf ++ [c] }, s)

/-! ## `encoding/csv`: the writer -/

/-- The rune `utf8.RuneError`. -/
def RuneError : Nat := 0xFFFD

/-- The rune returned by `utf8.DecodeRuneInString`: the first UTF-8 encoded
rune of the string, or `RuneError` when the string is empty or does not
begin with a valid encoding.  The first byte gives the size of the encoding
and the range accepted for the second byte (the table `first` and
`acceptRanges`); the further bytes are continuation bytes, 0x80 to 0xBF. -/
def DecodeRuneInString (s : GoString) : Nat :=
  match s with
  | [] => RuneError
  | c0 :: rest =>
    let s0 := c0.toNat
    if s0 < 0x80 then s0
    else if s0 < 0xC2 ∨ 0xF4 < s0 then RuneError
    else
      let sz := if s0 < 0xE0 then 2 else if s0 < 0xF0 then 3 else 4
      let lo := if s0 = 0xE0 then 0xA0 else if s0 = 0xF0 then 0x90 else 0x80
      let hi := if s0 = 0xED then 0x9F else if s0 = 0xF4 then 0x8F else 0xBF
      if rest.length + 1 < sz then RuneError
      else
        match rest with
        | [] => RuneError
        | c1 :: rest1 =>
          let s1 := c1.toNat
          if s1 < lo ∨ hi < s1 then RuneError
          else if sz ≤ 2 then (s0 % 0x20) * 0x40 + s1 % 0x40
          else
            match rest1 with
            | [] => RuneError
            | c2 :: rest2 =>
              let s2 := c2.toNat
              if s2 < 0x80 ∨ 0xBF < s2 then RuneError
              else if sz ≤ 3 then (s0 % 0x10) * 0x1000 + (s1 % 0x40) * 0x40 + s2 % 0x40
              else
                match rest2 with
                | [] => RuneError
                | c3 :: _ =>
                  let s3 := c3.toNat
                  if s3 < 0x80 ∨ 0xBF < s3 then RuneError
                  else (s0 % 0x08) * 0x40000 + (s1 % 0x40) * 0x1000 + (s2 % 0x40) * 0x40 +
                    s3 % 0x40

/-- The function `unicode.IsSpace`, on a rune. -/
def unicodeIsSpace (r : Nat) : Bool :=
  r = 0x09 ∨ r = 0x0A ∨ r = 0x0B ∨ r = 0x0C ∨ r = 0x0D ∨ r = 0x20 ∨
  r = 0x85 ∨ r = 0xA0 ∨ r = 0x1680 ∨
  (0x2000 ≤ r ∧ r ≤ 0x200A) ∨ r = 0x2028 ∨ r = 0x2029 ∨
  r = 0x202F ∨ r = 0x205F ∨ r = 0x3000

/-- The method `fieldNeedsQuotes` of `csv.Writer` (with `Comma` the comma):
false for the empty field; true for the field `\.` and for a field that
contains the comma, a quote, a carriage return or a line feed; otherwise
`unicode.IsSpace` of the first rune `r1` of the field. -/
def fieldNeedsQuotes (field : GoString) : Bool :=
  match field with
  | [] => false
  | _ :: _ =>
    if field = ['\\', '.'] ∨ ',' ∈ field ∨ '"' ∈ field ∨ '\r' ∈ field ∨ '\n' ∈ field then true
    else unicodeIsSpace (DecodeRuneInString field)

/-- The byte is one of the three that `csv.Writer` treats specially inside quotes. -/
def isQuoteSpecial (c : Char) : Bool := c = '"' ∨ c = '\r' ∨ c = '\n'

/-- The loop of `csv.Writer.Write` over a field written in quotes
(`UseCRLF` is false). -/
def csvWriteQuoted {ω : Type} (w : IoWriter ω) :
    Nat → GoString → BufioWriter → ω → Option Error × BufioWriter × ω
  | 0, _, b, s => (none, b, s)
  | fuel + 1, field, b, s =>
    if 0 < field.length then
      match BufioWriter.WriteString w (field.takeWhile (fun c => !isQuoteSpecial c)) b s with
      | (some err, b1, s1) => (some err, b1, s1)
      | (none, b1, s1) =>
        match field.dropWhile (fun c => !isQuoteSpecial c) with
        | [] => csvWriteQuoted w fuel [] b1 s1
        | c :: rest =>
          let r :=
            if c = '"' then BufioWriter.WriteString w ['"', '"'] b1 s1
            else if c = '\r' then BufioWriter.WriteByte w '\r' b1 s1
            else if c = '\n' then BufioWriter.WriteByte w '\n' b1 s1
            else (none, b1, s1)
          match r with
          | (some err, b2, s2) => (some err, b2, s2)
          | (none, b2, s2) => csvWriteQuoted w fuel rest b2 s2
    else (none, b, s)

/-- The loop of `csv.Writer.Write` over the fields of a record; `n` is the
index of the first field of `record`. -/
def csvWriteFields {ω : Type} (w : IoWriter ω) :
    Nat → List GoString → BufioWriter → ω → Option Error × BufioWriter × ω
  | _, [], b, s => (none, b, s)
  | n, field :: rest, b, s =>
    match (if 0 < n then BufioWriter.WriteByte w ',' b s else (none, b, s)) with
    | (some err, b1, s1) => (some err, b1, s1)
    | (none, b1, s1) =>
      if fieldNeedsQuotes field = false then
        match BufioWriter.WriteString w field b1 s1 with
        | (some err, b2, s2) => (some err, b2, s2)
        | (none, b2, s2) => csvWriteFields w (n + 1) rest b2 s2
      else
        match BufioWriter.WriteByte w '"' b1 s1 with
        | (some err, b2, s2) => (some err, b2, s2)
        | (none, b2, s2) =>
          match csvWriteQuoted w (field.length + 1) field b2 s2 with
          | (some err, b3, s3) => (some err, b3, s3)
          | (none, b3, s3) =>
            match BufioWriter.WriteByte w '"' b3 s3 with
            | (some err, b4, s4) => (some err, b4, s4)
            | (none, b4, s4) => csvWriteFields w (n + 1) rest b4 s4

/-- The method `Write` of `csv.Writer`: one record, terminated by a newline. -/
def csvWrite {ω : Type} (w : IoWriter ω) (record : List GoString) (b : BufioWriter) (s : ω) :
    Option Error × BufioWriter × ω :=
  match csvWriteFields w 0 record b s with
  | (some err, b1, s1) => (some err, b1, s1)
  | (none, b1, s1) => BufioWriter.WriteByte w '\n' b1 s1

/-! ## `encoding/csv`: the reader

The reader is modelled on the whole input rather than line by line: `readLine`
is the pass `csvNormalize`, and `readRecord` works on the normalized text, in
which every line ends at its newline. -/

/-- The errors of `csv.Reader`. -/
inductive CsvError where
  | ErrBareQuote
  | ErrQuote
  | ErrFieldCount
  deriving DecidableEq, Repr

/-- The effect of `readLine` of `csv.Reader` on the whole input: on every
line a carriage return before the newline is removed (`\r\n` becomes `\n`),
and a carriage return that ends the input is dropped. -/
def csvNormalize : GoString → GoString
  | [] => []
  | c :: rest =>
    if c = '\r' then
      if rest = [] then []
      else if rest.head? = some '\n' then csvNormalize rest
      else '\r' :: csvNormalize rest
    else c :: csvNormalize rest

/-- A non-quoted field of `readRecord`: the input up to the next comma or the
end of the line; a quote in it is `ErrBareQuote`.  The result is the field,
whether a comma ended it (another field follows), and the rest of the input. -/
def csvUnquotedField : GoString → GoString → Except CsvError (GoString × Bool × GoString)
  | [], acc => Except.ok (acc, false, [])
  | c :: rest, acc =>
    if c = ',' then Except.ok (acc, true, rest)
    else if c = '\n' then Except.ok (acc, false, rest)
    else if c = '"' then Except.error CsvError.ErrBareQuote
    else csvUnquotedField rest (acc ++ [c])

/-- A quoted field of `readRecord`, after its opening quote: a doubled quote
is a quote, a quote before a comma ends the field, a quote before the end of
the line ends the record, any other quote is `ErrQuote`, and so is the end of
the input inside the quotes; every other byte, newlines included, is data. -/
def csvQuotedField : GoString → GoString → Except CsvError (GoString × Bool × GoString)
  | [], _ => Except.error CsvError.ErrQuote
  | c :: rest, acc =>
    if c = '"' then
      match rest with
      | [] => Except.ok (acc, false, [])
      | c2 :: rest2 =>
        if c2 = '"' then csvQuotedField rest2 (acc ++ ['"'])
        else if c2 = ',' then Except.ok (acc, true, rest2)
        else if c2 = '\n' then Except.ok (acc, false, rest2)
        else Except.error CsvError.ErrQuote
    else csvQuotedField rest (acc ++ [c])

/-- The loop `parseField` of `readRecord`: the fields of one record and the
rest of the input.  Every field but the last consumes its comma, so `fuel`
above the length of the input suffices. -/
def csvParseFields : Nat → GoString → Except CsvError (List GoString × GoString)
  | 0, input => Except.ok ([], input)
  | fuel + 1, input =>
    let field :=
      match input with
      | [] => csvUnquotedField input []
      | c :: rest => if c = '"' then csvQuotedField rest [] else csvUnquotedField input []
    match field with
    | Except.error e => Except.error e
    | Except.ok (f, true, rest) =>
      match csvParseFields fuel rest with
      | Except.error e => Except.error e
      | Except.ok (fs, rest1) => Except.ok (f :: fs, rest1)
    | Except.ok (f, false, rest) => Except.ok ([f], rest)

/-- The loop of `ReadAll` over `readRecord`, with `FieldsPerRecord` (zero at
first, then the number of fields of the first record): empty lines are
skipped, the end of the input ends the loop, a record with another number of
fields than the first is `ErrFieldCount`. -/
def csvReadRecords : Nat → Option Nat → GoString → Except CsvError (List (List GoString))
  | 0, _, _ => Except.ok []
  | fuel + 1, fieldsPerRecord, input =>
    match input with
    | [] => Except.ok []
    | c :: rest =>
      if c = '\n' then csvReadRecords fuel fieldsPerRecord rest
      else
        match csvParseFields (input.length + 1) input with
        | Except.error e => Except.error e
        | Except.ok (record, rest1) =>
          if fieldsPerRecord.isSome = true ∧ fieldsPerRecord ≠ some record.length then
            Except.error CsvError.ErrFieldCount
          else
            match csvReadRecords fuel (some record.length) rest1 with
            | Except.error e => Except.error e
            | Except.ok records => Except.ok (record :: records)

/-- The method `ReadAll` of a `csv.Reader` with default settings on the given input. -/
def csvReadAll (input : GoString) : Except CsvError (List (List GoString)) :=
  csvReadRecords (input.length + 1) none (csvNormalize input)

/-! ## `greenplum/tablespace.go` -/

/-- The struct `TablespaceInfo`. -/
structure TablespaceInfo where
  Location : GoString
  UserDefined : Int
  deriving DecidableEq, Repr

/-- The struct `Tablespace`, one row of the tablespace query.  The embedded
`*TablespaceInfo` is taken to be non-nil, as it is for every row scanned from
the database, and its two fields are flattened into the row. -/
structure Tablespace where
  DbId : Int
  Oid : Int
  Name : GoString
  Location : GoString
  UserDefined : Int
  deriving DecidableEq, Repr

/-- The type `SegmentTablespaces`: `map<tablespaceOid, tablespaceInfo>`. -/
abbrev SegmentTablespaces := GoMap TablespaceInfo

/-- The type `Tablespaces`: `map<dbid, map<tablespaceOid, tablespaceInfo>>`. -/
abbrev Tablespaces := GoMap SegmentTablespaces

/-- The type `TablespaceTuples`. -/
abbrev TablespaceTuples := List Tablespace

/-- Modelled from the spec: the message `idl.TablespaceInfo` (package `idl`,
not among the listed sources), the tablespace info record of the spec: a
location and the user-defined flag.  As the argument of the path helper it is
a non-nil pointer. -/
structure IdlTablespaceInfo where
  Location : GoString
  UserDefined : Bool
  deriving DecidableEq, Repr

/-- The function `GetTablespaceLocationForDbId`. -/
def GetTablespaceLocationForDbId (t : IdlTablespaceInfo) (dbId : Int) : GoString :=
  Join [t.Location, Itoa dbId]

/-- The function `GetMasterTablespaceLocation`.  The constant `MasterDbid` is
declared outside the listed sources and is taken as a parameter. -/
def GetMasterTablespaceLocation (MasterDbid : Int) (basePath : GoString) (oid : Int) : GoString :=
  Join [basePath, Itoa oid, Itoa MasterDbid]

/-- One iteration of the loop of `NewTablespaces`. -/
def NewTablespaces.step (clusterTablespaceMap : Tablespaces) (t : Tablespace) : Tablespaces :=
  let tablespaceInfo : TablespaceInfo := { Location := t.Location, UserDefined := t.UserDefined }
  match clusterTablespaceMap.get? t.DbId with
  | some segTablespaceMap =>
    clusterTablespaceMap.set t.DbId (segTablespaceMap.set t.Oid tablespaceInfo)
  | none =>
    clusterTablespaceMap.set t.DbId ((GoMap.empty).set t.Oid tablespaceInfo)

/-- The function `NewTablespaces`: convert the query result to the internal structure. -/
def NewTablespaces (tuples : TablespaceTuples) : Tablespaces :=
  tuples.foldl NewTablespaces.step GoMap.empty

/-- The line that `TablespaceTuples.Write` builds for a tuple. -/
def Tablespace.line (tablespace : Tablespace) : List GoString :=
  [Itoa tablespace.DbId, Itoa tablespace.Oid, tablespace.Name, tablespace.Location,
   Itoa tablespace.UserDefined]

/-- The loop of `TablespaceTuples.Write`. -/
def TablespaceTuples.Write.loop {ω : Type} (w : IoWriter ω) :
    TablespaceTuples → BufioWriter → ω → Option Error × BufioWriter × ω
  | [], b, s => (none, b, s)
  | tablespace :: rest, b, s =>
    match csvWrite w tablespace.line b s with
    | (some err, b1, s1) =>
      (some (Error.Wrapf err "write record %q" [Arg.strs tablespace.line]), b1, s1)
    | (none, b1, s1) => TablespaceTuples.Write.loop w rest b1 s1

/-- The method `TablespaceTuples.Write`, returning with its result the final
state of the buffered writer that `csv.NewWriter` created.  A return from
inside the loop happens before the `defer` statement is reached; otherwise
the deferred `Flush` runs (the method `Flush` of `csv.Writer` returns nothing)
and nil is returned. -/
def TablespaceTuples.Write.run {ω : Type} (w : IoWriter ω) (t : TablespaceTuples) (s : ω) :
    Option Error × BufioWriter × ω :=
  match TablespaceTuples.Write.loop w t { buf := [], err := none } s with
  | (some err, b1, s1) => (some err, b1, s1)
  | (none, b1, s1) =>
    match BufioWriter.Flush w b1 s1 with
    | (_, b2, s2) => (none, b2, s2)

/-- The method `TablespaceTuples.Write`: its result and the state in which it
leaves the underlying writer. -/
def TablespaceTuples.Write {ω : Type} (w : IoWriter ω) (t : TablespaceTuples) (s : ω) :
    Option Error × ω :=
  ((TablespaceTuples.Write.run w t s).1, (TablespaceTuples.Write.run w t s).2.2)

/-! ## The environment of the agent -/

/-- Modelled from the spec: the struct `upgrade.Segment` (package `upgrade`,
not among the listed sources): each segment of the pair carries bin dir, data
dir, dbid and port. -/
structure UpgradeSegment where
  BinDir : GoString
  DataDir : GoString
  DBID : Int
  Port : Int
  deriving DecidableEq, Repr

/-- Modelled from the spec: the struct `upgrade.SegmentPair`, a source and a
target segment. -/
structure SegmentPair where
  Source : UpgradeSegment
  Target : UpgradeSegment
  deriving DecidableEq, Repr

/-- Modelled from the spec: the options of the segment upgrade primitive
(package `upgrade`, not among the listed sources).  The spec enumerates the
recognized set: exec-command, work-dir, segment-mode, check-only, link-mode,
tablespace-file.  `WithExecCommand` carries the package-level runner
`execCommand`, of which there is one. -/
inductive UpgradeOption where
  | WithExecCommand
  | WithWorkDir (wd : GoString)
  | WithSegmentMode
  | WithCheckOnly
  | WithLinkMode
  | WithTablespaceFile (file : GoString)
  deriving DecidableEq, Repr

/-- The calls that the worker makes into code that is not among the listed
sources: the copy primitive `Rsync`, the filesystem primitives `Lstat`,
`Remove` and `Symlink` of `utils.System`, and the segment upgrade primitive
`upgrade.Run`.  Each returns an error or nil (the file info that `Lstat` also
returns is discarded by its caller).  What they do is a parameter of the
model, the environment `System`; in particular what `Rsync` does with its
third argument, a list of file names, is not decided here. -/
inductive Call where
  | Rsync (sourceDir targetDir : GoString) (files : List GoString)
  | Lstat (name : GoString)
  | Remove (name : GoString)
  | Symlink (oldname newname : GoString)
  | Run (pair : SegmentPair) (options : List UpgradeOption)
  deriving DecidableEq, Repr

/-- The environment of the worker over a world state `σ`: every call takes
the world to a new world and returns an error or nil.  `IsNotExist` is
`os.IsNotExist`. -/
structure System (σ : Type) where
  call : Call → σ → Option Error × σ
  IsNotExist : Error → Bool

/-! ## `agent/upgrade_primary.go` -/

/-- Modelled from the spec: the request `idl.UpgradePrimariesRequest` (package
`idl`, not among the listed sources), the upgrade request bundle: source and
target bin dir, coordinator backup dir, tablespace-mapping file path,
check-only flag, link-mode flag.  Its list of segments is handed to the
worker one segment at a time. -/
structure UpgradePrimariesRequest where
  SourceBinDir : GoString
  TargetBinDir : GoString
  MasterBackupDir : GoString
  TablespacesMappingFilePath : GoString
  CheckOnly : Bool
  UseLinkMode : Bool
  deriving DecidableEq, Repr

/-- Modelled from the spec: the agent's `Segment` (declared outside the listed
sources), a segment descriptor `idl.DataDirPair` enriched with its
per-tablespace info map and a working directory; the fields are those that
`upgrade_primary.go` reads.  `Tablespaces` is a Go map; the order of its
`entries` stands for the order in which `range` visits it, which Go leaves
unspecified. -/
structure Segment where
  SourceDataDir : GoString
  TargetDataDir : GoString
  SourcePort : Int
  TargetPort : Int
  Content : Int
  DBID : Int
  Tablespaces : GoMap IdlTablespaceInfo
  WorkDir : GoString
  deriving DecidableEq, Repr

/-- The list of file names that `restoreBackup` passes to `Rsync` (the
whitelist of the spec). -/
def backupWhitelist : List GoString :=
  [ "internal.auto.conf".toList, "postgresql.conf".toList, "pg_hba.conf".toList,
    "postmaster.opts".toList, "gp_dbid".toList, "gpssh.conf".toList, "gpperfmon".toList ]

/-- The function `reCreateSymLink`. -/
def reCreateSymLink {σ : Type} (sys : System σ) (sourceDir symLinkName : GoString) (s : σ) :
    Option Error × σ :=
  let removed : Option Error × σ :=
    match sys.call (Call.Lstat symLinkName) s with
    | (none, s1) =>
      match sys.call (Call.Remove symLinkName) s1 with
      | (some err, s2) => (some (Error.Wrapf err "failed to unlink %q" [Arg.str symLinkName]), s2)
      | (none, s2) => (none, s2)
    | (some err, s1) =>
      if sys.IsNotExist err = false then
        (some (Error.Wrapf err "stat symbolic link %q" [Arg.str symLinkName]), s1)
      else (none, s1)
  match removed with
  | (some err, s2) => (some err, s2)
  | (none, s2) =>
    match sys.call (Call.Symlink sourceDir symLinkName) s2 with
    | (some err, s3) =>
      (some (Error.Wrapf err "create symbolic link %q to directory %q"
        [Arg.str symLinkName, Arg.str sourceDir]), s3)
    | (none, s3) => (none, s3)

/-- The variable `ReCreateSymLink`, at its initial value. -/
def ReCreateSymLink {σ : Type} (sys : System σ) (sourceDir symLinkName : GoString) (s : σ) :
    Option Error × σ :=
  reCreateSymLink sys sourceDir symLinkName s

/-- The function `restoreBackup`. -/
def restoreBackup {σ : Type} (sys : System σ) (request : UpgradePrimariesRequest)
    (segment : Segment) (s : σ) : Option Error × σ :=
  if request.CheckOnly then (none, s)
  else sys.call (Call.Rsync request.MasterBackupDir segment.TargetDataDir backupWhitelist) s

/-- The loop of `RestoreTablespaces` over the entries still to be visited. -/
def RestoreTablespaces.loop {σ : Type} (sys : System σ) (MasterDbid : Int)
    (request : UpgradePrimariesRequest) (segment : Segment) :
    List (Int × IdlTablespaceInfo) → σ → Option Error × σ
  | [], s => (none, s)
  | (oid, tablespace) :: rest, s =>
    if tablespace.UserDefined = false then
      RestoreTablespaces.loop sys MasterDbid request segment rest s
    else
      let targetDir := GetTablespaceLocationForDbId tablespace segment.DBID
      let sourceDir :=
        GetMasterTablespaceLocation MasterDbid (Dir request.TablespacesMappingFilePath) oid
      match sys.call (Call.Rsync sourceDir targetDir []) s with
      | (some err, s1) =>
        (some (Error.Wrap err "rsync master tablespace directory to segment tablespace directory"), s1)
      | (none, s1) =>
        let symLinkName := segment.TargetDataDir ++ "/pg_tblspc/".toList ++ Itoa oid
        match ReCreateSymLink sys targetDir symLinkName s1 with
        | (some err, s2) => (some (Error.Wrap err "failed to recreate symbolic link"), s2)
        | (none, s2) => RestoreTablespaces.loop sys MasterDbid request segment rest s2

/-- The function `RestoreTablespaces`. -/
def RestoreTablespaces {σ : Type} (sys : System σ) (MasterDbid : Int)
    (request : UpgradePrimariesRequest) (segment : Segment) (s : σ) : Option Error × σ :=
  if request.CheckOnly then (none, s)
  else RestoreTablespaces.loop sys MasterDbid request segment segment.Tablespaces.entries s

/-- The segment pair built by `performUpgrade`. -/
def performUpgrade.segmentPair (segment : Segment) (request : UpgradePrimariesRequest) :
    SegmentPair :=
  { Source := { BinDir := request.SourceBinDir, DataDir := segment.SourceDataDir,
                DBID := segment.DBID, Port := segment.SourcePort },
    Target := { BinDir := request.TargetBinDir, DataDir := segment.TargetDataDir,
                DBID := segment.DBID, Port := segment.TargetPort } }

/-- The option list built by `performUpgrade`. -/
def performUpgrade.options (segment : Segment) (request : UpgradePrimariesRequest) :
    List UpgradeOption :=
  let options := [UpgradeOption.WithExecCommand, UpgradeOption.WithWorkDir segment.WorkDir,
    UpgradeOption.WithSegmentMode]
  let options :=
    if request.CheckOnly then options ++ [UpgradeOption.WithCheckOnly]
    else options ++ [UpgradeOption.WithTablespaceFile request.TablespacesMappingFilePath]
  let options :=
    if request.UseLinkMode then options ++ [UpgradeOption.WithLinkMode] else options
  options

/-- The function `performUpgrade`. -/
def performUpgrade {σ : Type} (sys : System σ) (segment : Segment)
    (request : UpgradePrimariesRequest) (s : σ) : Option Error × σ :=
  sys.call (Call.Run (performUpgrade.segmentPair segment request)
    (performUpgrade.options segment request)) s

/-- The function `upgradeSegment`. -/
def upgradeSegment {σ : Type} (sys : System σ) (MasterDbid : Int) (segment : Segment)
    (request : UpgradePrimariesRequest) (host : GoString) (s : σ) : Option Error × σ :=
  match restoreBackup sys request segment s with
  | (some err, s1) =>
    (some (Error.Wrapf err
      "failed to restore master data directory backup on host %s for content id %d: %s"
      [Arg.str host, Arg.int segment.Content, Arg.err err]), s1)
  | (none, s1) =>
    match RestoreTablespaces sys MasterDbid request segment s1 with
    | (some err, s2) =>
      (some (Error.Wrapf err "restore tablespace on host %s for content id %d: %s"
        [Arg.str host, Arg.int segment.Content, Arg.err err]), s2)
    | (none, s2) =>
      match performUpgrade sys segment request s2 with
      | (some err, s3) =>
        let failedAction := if request.CheckOnly then "check".toList else "upgrade".toList
        (some (Error.Wrapf err "failed to %s primary on host %s with content %d"
          [Arg.str failedAction, Arg.str host, Arg.int segment.Content]), s3)
      | (none, s3) => (none, s3)

/-! ## Vocabulary of the statements: tablespace map -/

/-- The nested lookup `m[dbid][oid]`, present when both levels have an entry. -/
def Tablespaces.find (m : Tablespaces) (dbid oid : Int) : Option TablespaceInfo :=
  (m.get? dbid).bind (fun seg => seg.get? oid)

/-- The info record that `NewTablespaces` stores for a tuple. -/
def Tablespace.info (t : Tablespace) : TablespaceInfo :=
  { Location := t.Location, UserDefined := t.UserDefined }

/-- A tuple is the last one of `T` with dbid `d` and oid `o`. -/
def IsLastFor (T : TablespaceTuples) (d o : Int) (t : Tablespace) : Prop :=
  ∃ pre post, T = pre ++ t :: post ∧ t.DbId = d ∧ t.Oid = o ∧
    ∀ u ∈ post, ¬ (u.DbId = d ∧ u.Oid = o)

/-- The three tuples of the CSV round-trip scenario. -/
def scenarioTuples : TablespaceTuples :=
  [ ⟨1, 16385, "ts_a".toList, "/tsa".toList, 1⟩,
    ⟨2, 16385, "ts_a".toList, "/tsa".toList, 1⟩,
    ⟨1, 1663, "pg_default".toList, "/d".toList, 0⟩ ]

/-- The map `{1:{16385:(/tsa,1),1663:(/d,0)}, 2:{16385:(/tsa,1)}}`. -/
def scenarioTablespaces : Tablespaces :=
  ⟨[ (1, ⟨[(16385, ⟨"/tsa".toList, 1⟩), (1663, ⟨"/d".toList, 0⟩)]⟩),
     (2, ⟨[(16385, ⟨"/tsa".toList, 1⟩)]⟩) ]⟩

/-! ## Vocabulary of the statements: paths and integers -/

/-- The loop of `filepath.Clean` run to the end of the input. -/
def Clean.run (rooted : Bool) (path out : GoString) (dotdot : Nat) : GoString :=
  Clean.loop rooted path.length path out dotdot

/-- A path element that `Clean` copies unchanged: non-empty, without a
separator, and not starting with a dot. -/
def PlainElem (d : GoString) : Prop :=
  d ≠ [] ∧ (∀ c ∈ d, c ≠ '/') ∧ d.head? ≠ some '.'

/-- A decimal digit. -/
def IsDigit (c : Char) : Prop := '0' ≤ c ∧ c ≤ '9'

instance (c : Char) : Decidable (IsDigit c) := by unfold IsDigit; infer_instance

/-- A base-10 integer without leading zeros: an optional minus sign and at
least one digit, the first of which is zero only when it is the only one. -/
def IsDecimal (s : GoString) : Prop :=
  ∃ ds, (s = ds ∨ s = '-' :: ds) ∧ ds ≠ [] ∧ (∀ c ∈ ds, IsDigit c) ∧
    (ds.head? = some '0' → ds = ['0'])

/-! ## Vocabulary of the statements: the mapping file -/

/-- The writer that also keeps the bytes it accepted, in order. -/
def IoWriter.recorded {ω : Type} (w : IoWriter ω) : IoWriter (ω × GoString) where
  Write := fun p st =>
    ((w.Write p st.1).1, ((w.Write p st.1).2, st.2 ++ p.take (w.Write p st.1).1.1))

/-- The writer accepts every write in full. -/
def IoWriter.Reliable {ω : Type} (w : IoWriter ω) : Prop :=
  ∀ p s, (w.Write p s).1 = (p.length, none)

/-- An in-memory writer (`bytes.Buffer`): accepts everything. -/
def memWriter : IoWriter GoString where
  Write := fun p st => ((p.length, none), st ++ p)

/-- A writer on which every write fails, accepting nothing. -/
def brokenWriter : IoWriter Unit where
  Write := fun _ st => ((0, some (Error.New "no space left on device".toList)), st)

/-- The CSV stream handed to the buffered writer so far: the bytes the
underlying writer accepted followed by the bytes still buffered. -/
def csvStream {ω : Type} (b : BufioWriter) (st : ω × GoString) : GoString := st.2 ++ b.buf

/-- The operation, started without a sticky error, either fails or appends
`piece` to the CSV stream and leaves no sticky error; on a reliable writer it
does not fail. -/
def Appends {ω : Type} (w : IoWriter ω)
    (op : BufioWriter → ω × GoString → Option Error × BufioWriter × (ω × GoString))
    (piece : GoString) : Prop :=
  ∀ b st, b.err = none →
    ((op b st).1 = none →
      (op b st).2.1.err = none ∧ csvStream (op b st).2.1 (op b st).2.2 = csvStream b st ++ piece) ∧
    (w.Reliable → (op b st).1 = none)

/-- The content of a field written in quotes: every quote doubled. -/
def csvQuote : GoString → GoString
  | [] => []
  | c :: cs => if c = '"' then '"' :: '"' :: csvQuote cs else c :: csvQuote cs

/-- The text of a field in the output of `csv.Writer`. -/
def csvField (field : GoString) : GoString :=
  if fieldNeedsQuotes field = true then '"' :: csvQuote field ++ ['"'] else field

/-- The text of the fields of a record, separated by commas. -/
def csvFields : List GoString → GoString
  | [] => []
  | [field] => csvField field
  | field :: rest => csvField field ++ ',' :: csvFields rest

/-- The text that `csv.Writer` produces for the fields of a record of which
the first has index `n`: a comma before every field but the one of index 0. -/
def csvFieldsFrom : Nat → List GoString → GoString
  | _, [] => []
  | n, field :: rest => (if 0 < n then [','] else []) ++ csvField field ++ csvFieldsFrom (n + 1) rest

/-- The text of a record: its fields and a newline. -/
def csvRecord (record : List GoString) : GoString := csvFields record ++ ['\n']

/-- The CSV text of a tuple sequence: one record per tuple, in order. -/
def csvText (t : TablespaceTuples) : GoString :=
  (t.map (fun tablespace => csvRecord tablespace.line)).flatten

/-- The field that `parseField` reads at the start of the input. -/
def csvNextField (input : GoString) : Except CsvError (GoString × Bool × GoString) :=
  match input with
  | [] => csvUnquotedField input []
  | c :: rest => if c = '"' then csvQuotedField rest [] else csvUnquotedField input []

/-- The conversion of a record back to a tuple: five fields, the integer
ones read by `Atoi`. -/
def Tablespace.ofRecord (record : List GoString) : Option Tablespace :=
  match record with
  | [dbid, oid, name, location, userDefined] =>
    match Atoi dbid, Atoi oid, Atoi userDefined with
    | some d, some o, some u => some ⟨d, o, name, location, u⟩
    | _, _, _ => none
  | _ => none

/-- Re-parsing a CSV text: read all records and convert each back to a tuple. -/
def parseTablespaceTuples (text : GoString) : Option TablespaceTuples :=
  match csvReadAll text with
  | Except.error _ => none
  | Except.ok records => records.mapM Tablespace.ofRecord

/-- The string has a carriage return immediately followed by a newline. -/
def hasCRLF : GoString → Bool
  | [] => false
  | c :: rest => (c = '\r' ∧ rest.head? = some '\n') || hasCRLF rest

/-- The string has no carriage return before a newline and does not end in a
carriage return, so that `readLine` leaves it unchanged whatever follows. -/
def CrlfSafe (s : GoString) : Prop := hasCRLF s = false ∧ s.getLast? ≠ some '\r'

/-- Every name and location of the sequence is free of a carriage return
immediately followed by a newline. -/
def CrlfFree (T : TablespaceTuples) : Prop :=
  ∀ t ∈ T, hasCRLF t.Name = false ∧ hasCRLF t.Location = false

/-- A tuple whose name holds a carriage return followed by a newline. -/
def crlfTuples : TablespaceTuples := [⟨1, 16385, "ts\r\na".toList, "/tsa".toList, 1⟩]

/-! ## Vocabulary of the statements: the worker -/

/-- The environment that also records every call it receives, in order. -/
def System.traced {σ : Type} (sys : System σ) : System (σ × List Call) where
  call := fun c st => ((sys.call c st.1).1, ((sys.call c st.1).2, st.2 ++ [c]))
  IsNotExist := sys.IsNotExist

/-- The call is an invocation of the upgrade primitive. -/
def Call.isRun : Call → Bool
  | Call.Run _ _ => true
  | _ => false

/-- The trace `tr2` extends `tr1` by calls none of which invokes the upgrade primitive. -/
def ExtendsWithoutRun (tr1 tr2 : List Call) : Prop :=
  ∃ new, tr2 = tr1 ++ new ∧ ∀ c ∈ new, c.isRun = false

/-- The option is check-only or tablespace-file. -/
def UpgradeOption.isCheckOnlyOrTablespaceFile : UpgradeOption → Bool
  | UpgradeOption.WithCheckOnly => true
  | UpgradeOption.WithTablespaceFile _ => true
  | _ => false

/-- An environment over the trivial world in which the given calls fail with
"permission denied" and all others succeed. -/
def failingOn (bad : Call → Bool) : System Unit where
  call := fun c s => (if bad c then some (Error.New "permission denied".toList) else none, s)
  IsNotExist := fun _ => false

/-- A segment with one user-defined tablespace. -/
def sampleSegment : Segment :=
  { SourceDataDir := "/data/old/seg1".toList, TargetDataDir := "/data/new/seg1".toList,
    SourcePort := 25432, TargetPort := 50432, Content := 0, DBID := 2,
    Tablespaces := ⟨[(16385, ⟨"/tsa".toList, true⟩)]⟩, WorkDir := "/work/seg1".toList }

/-- A request with the given mode flags. -/
def sampleRequest (checkOnly useLinkMode : Bool) : UpgradePrimariesRequest :=
  { SourceBinDir := "/old/bin".toList, TargetBinDir := "/new/bin".toList,
    MasterBackupDir := "/backup".toList,
    TablespacesMappingFilePath := "/state/tablespaces.txt".toList,
    CheckOnly := checkOnly, UseLinkMode := useLinkMode }

/-! ## Vocabulary of the statements: the calls of the worker -/

/-- The calls of one iteration of `RestoreTablespaces` for a user-defined
tablespace when every operation succeeds: the copy of the coordinator's
tablespace directory to the segment's, then the recreation of the symlink
(status lookup, removal if the link name exists, creation). -/
def restoreTablespaceCalls (MasterDbid : Int) (request : UpgradePrimariesRequest)
    (segment : Segment) (entry : Int × IdlTablespaceInfo) (removed : Bool) : List Call :=
  [Call.Rsync
      (GetMasterTablespaceLocation MasterDbid (Dir request.TablespacesMappingFilePath) entry.1)
      (GetTablespaceLocationForDbId entry.2 segment.DBID) [],
    Call.Lstat (segment.TargetDataDir ++ "/pg_tblspc/".toList ++ Itoa entry.1)] ++
  (if removed = true then
    [Call.Remove (segment.TargetDataDir ++ "/pg_tblspc/".toList ++ Itoa entry.1)] else []) ++
  [Call.Symlink (GetTablespaceLocationForDbId entry.2 segment.DBID)
    (segment.TargetDataDir ++ "/pg_tblspc/".toList ++ Itoa entry.1)]

/-- A segment with a user-defined tablespace and the default tablespace. -/
def twoTablespaceSegment : Segment :=
  { SourceDataDir := "/data/old/seg1".toList, TargetDataDir := "/data/new/seg1".toList,
    SourcePort := 25432, TargetPort := 50432, Content := 0, DBID := 2,
    Tablespaces := ⟨[(1663, ⟨"/d".toList, false⟩), (16385, ⟨"/tsa".toList, true⟩)]⟩,
    WorkDir := "/work/seg1".toList }

/-- An environment over the trivial world in which the status lookup fails
with "permission denied", which is not a not-exists error. -/
def statDenied : System Unit where
  call := fun c s =>
    (match c with
      | Call.Lstat _ => some (Error.New "permission denied".toList)
      | _ => none, s)
  IsNotExist := fun _ => false

/-! ## Vocabulary of the statements: failures of the writer -/

/-- A tuple whose name does not fit into the buffer of the buffered writer. -/
def longNameTuple : Tablespace :=
  ⟨1, 16385, List.replicate 4097 'x', "/tsa".toList, 1⟩

/-- A tuple whose name is 2100 times the letter e with an acute accent: 4200
bytes, two for each letter, more than the buffer of the buffered writer
holds. -/
def accentedNameTuple : Tablespace :=
  ⟨7, 16385, (List.replicate 2100 ['\xc3', '\xa9']).flatten, "/tsa".toList, 1⟩

/-- The error of a write to a full disk. -/
def ErrNoSpace : Error := Error.New "no space left on device".toList

/-- A file on a disk with room for the number of bytes given by the state:
a write that fits is accepted in full; of a write that does not fit, the
bytes for which there is room are accepted and the write fails with "no
space left on device". -/
def smallDisk : IoWriter Nat where
  Write := fun p room =>
    if p.length ≤ room then ((p.length, none), room - p.length)
    else ((room, some ErrNoSpace), 0)

/-! ## The filesystem model -/

/-- An entry of the filesystem model. -/
inductive FileNode where
  | file
  | dir
  | symlink (target : GoString)
  deriving DecidableEq, Repr

/-- The state of the filesystem model: the entry, if any, at each path. -/
abbrev FileSystem := GoString → Option FileNode

/-- The error `os.ErrNotExist`. -/
def ErrNotExist : Error := Error.New "file does not exist".toList

/-- The error `os.ErrExist`. -/
def ErrExist : Error := Error.New "file already exists".toList

/-- Modelled from the spec: the filesystem primitives `Lstat`, `Remove` and
`Symlink` of `utils.System` (not among the listed sources), as the filesystem
model of the idempotence property, in which remove and symlink succeed: the
status lookup of a path succeeds when the path has an entry and reports
not-exists otherwise, changing nothing; the removal of a path that has an
entry removes it; the creation of a symlink at a path without an entry puts
a symlink to the target there.  (A removal of a missing path reports
not-exists and a symlink over an entry reports exists.)  The copy and the
upgrade primitive play no part and change nothing. -/
def fileSystem : System FileSystem where
  call := fun c fs =>
    match c with
    | Call.Lstat name =>
      if (fs name).isSome = true then (none, fs) else (some ErrNotExist, fs)
    | Call.Remove name =>
      if (fs name).isSome = true then (none, fun p => if p = name then none else fs p)
      else (some ErrNotExist, fs)
    | Call.Symlink oldname newname =>
      if (fs newname).isSome = true then (some ErrExist, fs)
      else (none, fun p => if p = newname then some (FileNode.symlink oldname) else fs p)
    | Call.Rsync _ _ _ => (none, fs)
    | Call.Run _ _ => (none, fs)
  IsNotExist := fun e =>
    match e with
    | Error.New text => decide (text = "file does not exist".toList)
    | _ => false

/-- The filesystem in which the given path is a symlink to the target and
every other path is as in `fs`. -/
def FileSystem.withSymlink (fs : FileSystem) (name target : GoString) : FileSystem :=
  fun p => if p = name then some (FileNode.symlink target) else fs p

/-! ## Vocabulary of the statements: the rendering of the fields -/

/-- A tuple whose name holds a double quote and whose location begins with a
space; neither holds a comma. -/
def quotedTuple : Tablespace := ⟨1, 2, "a\"b".toList, " /x".toList, 1⟩

/-- A tuple whose name holds a comma. -/
def commaTuple : Tablespace := ⟨1, 16385, "ts,a".toList, "/tsa".toList, 1⟩

/-- The field is one that `csv.Writer` writes in quotes, said without the
code: it is not empty and it is the two bytes of a backslash and a dot, or
contains a comma, a double quote, a carriage return or a line feed, or begins
with a white-space character (its first rune is one). -/
def QuotedField (field : GoString) : Prop :=
  field ≠ [] ∧ (field = ['\\', '.'] ∨ ',' ∈ field ∨ '"' ∈ field ∨ '\r' ∈ field ∨ '\n' ∈ field ∨
    unicodeIsSpace (DecodeRuneInString field) = true)

/-! ## The cluster model and the fan-out of the hub -/

/-- Modelled from the spec: the role of a segment (`greenplum.PrimaryRole`,
`greenplum.MirrorRole`; package `greenplum`, cluster model, not among the
listed sources). -/
inductive SegmentRole where
  | PrimaryRole
  | MirrorRole
  deriving DecidableEq, Repr

/-- Modelled from the spec: the segment descriptor `greenplum.SegConfig`, with
the fields that the test of the hub fills in. -/
structure SegConfig where
  ContentID : Int
  DbID : Int
  Port : Int
  Hostname : GoString
  DataDir : GoString
  Role : SegmentRole
  deriving DecidableEq, Repr

/-- Modelled from the spec: the cluster model, an ordered list of segment
descriptors. -/
abbrev Cluster := List SegConfig

/-- Modelled from the spec: the selector primaries-excluding-coordinator, all
segments with role primary and content id other than -1. -/
def Cluster.primariesExcludingCoordinator (c : Cluster) : List SegConfig :=
  c.filter (fun seg => decide (seg.Role = SegmentRole.PrimaryRole ∧ seg.ContentID ≠ -1))

/-- Modelled from the spec: the selector mirrors-and-standby, all segments
with role mirror. -/
def Cluster.mirrorsAndStandby (c : Cluster) : List SegConfig :=
  c.filter (fun seg => decide (seg.Role = SegmentRole.MirrorRole))

/-- The hosts of the descriptors, each once, in the order of first
appearance. -/
def hostsOf : List SegConfig → List GoString
  | [] => []
  | seg :: rest => seg.Hostname :: (hostsOf rest).filter (fun host => decide (host ≠ seg.Hostname))

/-- Modelled from the spec: step 1 of the fan-out, the descriptors grouped by
host; a host-local slice keeps the order of the descriptors. -/
def groupByHost (segs : List SegConfig) : List (GoString × List SegConfig) :=
  (hostsOf segs).map (fun host => (host, segs.filter (fun seg => decide (seg.Hostname = host))))

/-- Modelled from the spec: the request `idl.DeleteDataDirectoriesRequest`. -/
structure DeleteDataDirectoriesRequest where
  Datadirs : List GoString
  deriving DecidableEq, Repr

/-- Modelled from the spec: the agent client of a host, by the outcome of its
operation `DeleteDataDirectories` on a request (the reply carries nothing). -/
structure AgentClient where
  DeleteDataDirectories : DeleteDataDirectoriesRequest → Option Error

/-- A request sent to the agent of a host. -/
structure AgentCall where
  Hostname : GoString
  Request : DeleteDataDirectoriesRequest
  deriving DecidableEq, Repr

/-- Modelled from the spec: the composite error (`multierror.Error`), which
carries its constituents. -/
structure MultiError where
  Errors : List Error

/-- Modelled from the spec: the composition of the collected errors, success
for none of them and otherwise the composite that carries them (a single
error stays the one constituent of a composite, as the tests of the hub and
of the agent require of the result). -/
def MultiError.ErrorOrNil (errs : List Error) : Option MultiError :=
  match errs with
  | [] => none
  | err :: rest => some ⟨err :: rest⟩

/-- Modelled from the spec: step 2 of the fan-out for the deletion of data
directories, one request for each host with a non-empty slice, listing the
data directories of the slice. -/
def deleteDataDirectories.calls (segs : List SegConfig) : List AgentCall :=
  ((groupByHost segs).filter (fun group => !group.2.isEmpty)).map
    (fun group => ⟨group.1, ⟨group.2.map (fun seg => seg.DataDir)⟩⟩)

/-- Modelled from the spec: step 3 of the fan-out, the errors of the tasks
collected into a composite error, the results arriving in the order
`arrival`.  The agent connections are the assignment of a client to each
host (the spec describes no outcome for a host without a connection). -/
def deleteDataDirectories.collect (agentConns : GoString → AgentClient)
    (arrival : List AgentCall) : Option MultiError :=
  MultiError.ErrorOrNil
    (arrival.filterMap (fun call => (agentConns call.Hostname).DeleteDataDirectories call.Request))

/-- Modelled from the spec: the fan-out for the deletion of the data
directories of the given segments, with the requests it sends; the results
are taken in the order of the requests. -/
def deleteDataDirectories (agentConns : GoString → AgentClient) (segs : List SegConfig) :
    Option MultiError × List AgentCall :=
  (deleteDataDirectories.collect agentConns (deleteDataDirectories.calls segs),
    deleteDataDirectories.calls segs)

/-- Modelled from the spec: `hub.DeleteMirrorAndStandbyDataDirectories`, the
fan-out over the mirrors-and-standby selector. -/
def DeleteMirrorAndStandbyDataDirectories (agentConns : GoString → AgentClient) (c : Cluster) :
    Option MultiError × List AgentCall :=
  deleteDataDirectories agentConns c.mirrorsAndStandby

/-- Modelled from the spec: `hub.DeletePrimaryDataDirectories`, the fan-out
over the selector primaries-excluding-coordinator. -/
def DeletePrimaryDataDirectories (agentConns : GoString → AgentClient) (c : Cluster) :
    Option MultiError × List AgentCall :=
  deleteDataDirectories agentConns c.primariesExcludingCoordinator

/-- The cluster of `TestDeleteSegmentDataDirs`. -/
def testCluster : Cluster :=
  [⟨-1, 0, 25431, "master".toList, "/data/qddir".toList, SegmentRole.PrimaryRole⟩,
   ⟨-1, 1, 25431, "standby".toList, "/data/standby".toList, SegmentRole.MirrorRole⟩,
   ⟨0, 2, 25432, "sdw1".toList, "/data/dbfast1/seg1".toList, SegmentRole.PrimaryRole⟩,
   ⟨1, 3, 25433, "sdw2".toList, "/data/dbfast2/seg2".toList, SegmentRole.PrimaryRole⟩,
   ⟨2, 4, 25434, "sdw1".toList, "/data/dbfast1/seg3".toList, SegmentRole.PrimaryRole⟩,
   ⟨3, 5, 25435, "sdw2".toList, "/data/dbfast2/seg4".toList, SegmentRole.PrimaryRole⟩,
   ⟨0, 6, 35432, "sdw1".toList, "/data/dbfast_mirror1/seg1".toList, SegmentRole.MirrorRole⟩,
   ⟨1, 7, 35433, "sdw2".toList, "/data/dbfast_mirror2/seg2".toList, SegmentRole.MirrorRole⟩,
   ⟨2, 8, 35434, "sdw1".toList, "/data/dbfast_mirror1/seg3".toList, SegmentRole.MirrorRole⟩,
   ⟨3, 9, 35435, "sdw2".toList, "/data/dbfast_mirror2/seg4".toList, SegmentRole.MirrorRole⟩]

/-- Agent connections on which every request succeeds. -/
def succeedingConns : GoString → AgentClient :=
  fun _ => ⟨fun _ => none⟩

/-- The agent connections of the subtest "returns error on failure": the
client of sdw2 fails with "permission denied", the others succeed. -/
def sdw2FailingConns : GoString → AgentClient :=
  fun host =>
    if host = "sdw2".toList then ⟨fun _ => some (Error.New "permission denied".toList)⟩
    else ⟨fun _ => none⟩

/-! ## The agent operation `RenameDirectories` -/

/-- The relation `xerrors.Is`: the error is the target, or what it wraps is. -/
inductive Error.Is : Error → Error → Prop where
  | refl (err : Error) : Error.Is err err
  | unwrap (err cause target : Error) :
      err.Unwrap = some cause → Error.Is cause target → Error.Is err target

/-- Modelled from the spec: the message `idl.RenameDirectories`, a source, a
target and the rename-target flag. -/
structure IdlRenameDirectories where
  Source : GoString
  Target : GoString
  RenameTarget : Bool
  deriving DecidableEq, Repr

/-- Modelled from the spec: the request `idl.RenameDirectoriesRequest`. -/
structure RenameDirectoriesRequest where
  Dirs : List IdlRenameDirectories
  deriving DecidableEq, Repr

/-- Modelled from the spec: the loop of the agent's `RenameDirectories`, which
calls the variable `ArchiveSource` on each pair in turn and accumulates the
errors. -/
def RenameDirectories.loop {σ : Type}
    (ArchiveSource : GoString → GoString → Bool → σ → Option Error × σ) :
    List IdlRenameDirectories → List Error → σ → List Error × σ
  | [], mErr, s => (mErr, s)
  | dir :: rest, mErr, s =>
    match ArchiveSource dir.Source dir.Target dir.RenameTarget s with
    | (some err, s1) => RenameDirectories.loop ArchiveSource rest (mErr ++ [err]) s1
    | (none, s1) => RenameDirectories.loop ArchiveSource rest mErr s1

/-- Modelled from the spec: the agent's operation `RenameDirectories`, with the
variable `ArchiveSource` as a parameter: the per-pair errors are accumulated
into a composite error. -/
def RenameDirectories {σ : Type}
    (ArchiveSource : GoString → GoString → Bool → σ → Option Error × σ)
    (request : RenameDirectoriesRequest) (s : σ) : Option MultiError × σ :=
  (MultiError.ErrorOrNil (RenameDirectories.loop ArchiveSource request.Dirs [] s).1,
    (RenameDirectories.loop ArchiveSource request.Dirs [] s).2)

/-- The results of the calls of `ArchiveSource` that `RenameDirectories`
makes, pair by pair. -/
def RenameDirectories.results {σ : Type}
    (ArchiveSource : GoString → GoString → Bool → σ → Option Error × σ) :
    List IdlRenameDirectories → σ → List (Option Error)
  | [], _ => []
  | dir :: rest, s =>
    (ArchiveSource dir.Source dir.Target dir.RenameTarget s).1 ::
      RenameDirectories.results ArchiveSource rest
        (ArchiveSource dir.Source dir.Target dir.RenameTarget s).2

/-- The `ArchiveSource` of `TestRenameDirectories`, which returns "permission
denied". -/
def deniedArchiveSource : GoString → GoString → Bool → Unit → Option Error × Unit :=
  fun _ _ _ s => (some (Error.New "permission denied".toList), s)

/-! ## Vocabulary of the statements: the entries of the tablespace map -/

/-- Three tuples of which the first and the last have the same dbid and oid,
with different names, locations and flags. -/
def overwritingTuples : TablespaceTuples :=
  [ ⟨1, 5, "first".toList, "/x".toList, 1⟩,
    ⟨2, 7, "other".toList, "/z".toList, 1⟩,
    ⟨1, 5, "second".toList, "/y".toList, 0⟩ ]

/-- The tuple with its name replaced. -/
def Tablespace.withName (t : Tablespace) (name : GoString) : Tablespace :=
  { t with Name := name }

/-! ## Vocabulary of the statements: the paths of the tablespace calls -/

/-- A segment whose user-defined tablespace has a location with a trailing
separator. -/
def trailingSlashSegment : Segment :=
  { SourceDataDir := "/data/old/seg1".toList, TargetDataDir := "/data/new/seg1".toList,
    SourcePort := 25432, TargetPort := 50432, Content := 0, DBID := 2,
    Tablespaces := ⟨[(16385, ⟨"/tsa/".toList, true⟩)]⟩, WorkDir := "/work/seg1".toList }

/-- A non-check-only request whose mapping file lies in the root directory. -/
def rootMappingRequest : UpgradePrimariesRequest :=
  { SourceBinDir := "/old/bin".toList, TargetBinDir := "/new/bin".toList,
    MasterBackupDir := "/backup".toList,
    TablespacesMappingFilePath := "/tablespaces.txt".toList,
    CheckOnly := false, UseLinkMode := false }

/-- A path that `filepath.Join` keeps as the head of the joined path: it is
clean (`filepath.Clean` leaves it unchanged) and is neither `/` nor `.`. -/
def CleanBase (path : GoString) : Prop :=
  Clean path = path ∧ path ≠ "/".toList ∧ path ≠ ".".toList

instance (path : GoString) : Decidable (CleanBase path) := by
  unfold CleanBase; infer_instance

/-! # Theorems -/

/-! ## Go maps and `NewTablespaces` -/

namespace GoMap

variable {V : Type}

theorem lookupEntries_setEntries (es : List (Int × V)) (k k' : Int) (v : V) :
    lookupEntries (setEntries es k v) k' = if k = k' then some v else lookupEntries es k' := by
  induction es with
  | nil => simp [setEntries, lookupEntries]
  | cons e es ih =>
    obtain ⟨a, b⟩ := e
    by_cases h : a = k
    · subst h
      by_cases h' : a = k' <;> simp [setEntries, lookupEntries, h']
    · by_cases h' : a = k'
      · subst h'
        have : ¬ k = a := fun e => h e.symm
        simp [setEntries, lookupEntries, h, this]
      · simp [setEntries, lookupEntries, h, h', ih]

theorem get?_set (m : GoMap V) (k k' : Int) (v : V) :
    (m.set k v).get? k' = if k = k' then some v else m.get? k' :=
  lookupEntries_setEntries m.entries k k' v

theorem get?_empty (k : Int) : (empty : GoMap V).get? k = none := rfl

end GoMap

theorem Tablespaces.find_step (m : Tablespaces) (t : Tablespace) (d o : Int) :
    (NewTablespaces.step m t).find d o =
      if t.DbId = d ∧ t.Oid = o then some t.info else m.find d o := by
  unfold NewTablespaces.step Tablespaces.find
  cases hm : m.get? t.DbId with
  | none =>
    by_cases hd : t.DbId = d
    · subst hd
      by_cases ho : t.Oid = o
      · simp [GoMap.get?_set, hm, ho, Tablespace.info]
      · simp [GoMap.get?_set, hm, ho, GoMap.get?_empty]
    · simp [GoMap.get?_set, hd]
  | some seg =>
    by_cases hd : t.DbId = d
    · subst hd
      by_cases ho : t.Oid = o
      · simp [GoMap.get?_set, hm, ho, Tablespace.info]
      · simp [GoMap.get?_set, hm, ho]
    · simp [GoMap.get?_set, hd]

theorem NewTablespaces_append (T : TablespaceTuples) (t : Tablespace) :
    NewTablespaces (T ++ [t]) = NewTablespaces.step (NewTablespaces T) t := by
  simp [NewTablespaces, List.foldl_append]

/-- The nested lookup of `NewTablespaces T` is the info of the last tuple of `T`
with the given dbid and oid. -/
theorem NewTablespaces_find (T : TablespaceTuples) (d o : Int) :
    (NewTablespaces T).find d o =
      (T.reverse.find? (fun t => decide (t.DbId = d ∧ t.Oid = o))).map Tablespace.info := by
  induction T using List.reverseRecOn with
  | nil => rfl
  | append_singleton T t ih =>
    rw [NewTablespaces_append, Tablespaces.find_step, ih]
    by_cases h : t.DbId = d ∧ t.Oid = o
    · simp [h]
    · simp [h]

theorem find?_reverse_eq_some_iff (T : TablespaceTuples) (d o : Int) (t : Tablespace) :
    T.reverse.find? (fun t => decide (t.DbId = d ∧ t.Oid = o)) = some t ↔ IsLastFor T d o t := by
  rw [List.find?_eq_some]
  constructor
  · rintro ⟨hp, as, bs, hT, has⟩
    refine ⟨bs.reverse, as.reverse, ?_, ?_, ?_, ?_⟩
    · have := congrArg List.reverse hT
      simpa using this
    · simpa using (of_decide_eq_true hp).1
    · simpa using (of_decide_eq_true hp).2
    · intro u hu
      have := has u (by simpa using hu)
      intro hc
      simp [hc.1, hc.2] at this
  · rintro ⟨pre, post, hT, hd, ho, hpost⟩
    refine ⟨by simp [hd, ho], post.reverse, pre.reverse, by simp [hT], ?_⟩
    intro u hu
    have := hpost u (by simpa using hu)
    simpa using not_and_or.mp this

theorem Tablespaces.find_eq_some_iff (m : Tablespaces) (d o : Int) (i : TablespaceInfo) :
    m.find d o = some i ↔ ∃ seg, m.get? d = some seg ∧ seg.get? o = some i := by
  unfold Tablespaces.find
  cases m.get? d <;> simp

/-- C1, as stated, fails: with two tuples for the same dbid and oid,
`T` contains the tuple `(1, 5, _, /x, 1)` but the result of `NewTablespaces`
does not map dbid 1 and oid 5 to `(/x, 1)`. -/
theorem NewTablespaces_drops_overwritten_tuple :
    (∃ t ∈ ([⟨1, 5, "a".toList, "/x".toList, 1⟩, ⟨1, 5, "a".toList, "/y".toList, 1⟩] :
        TablespaceTuples),
      t.DbId = 1 ∧ t.Oid = 5 ∧ t.Location = "/x".toList ∧ t.UserDefined = 1) ∧
    ¬ ∃ seg, (NewTablespaces [⟨1, 5, "a".toList, "/x".toList, 1⟩,
        ⟨1, 5, "a".toList, "/y".toList, 1⟩]).get? 1 = some seg ∧
      seg.get? 5 = some ⟨"/x".toList, 1⟩ := by
  refine ⟨⟨⟨1, 5, "a".toList, "/x".toList, 1⟩, by simp, rfl, rfl, rfl, rfl⟩, ?_⟩
  rw [← Tablespaces.find_eq_some_iff]
  decide

/-- C1 (amended): for every tuple sequence `T` and all `d`, `o`, location and
flag, the result of `NewTablespaces` maps `d` to a segment map that maps `o`
to (location, flag) if and only if the last tuple of `T` with dbid `d` and oid
`o` carries that location and flag; and the three tuples of the round-trip
scenario give `{1:{16385:(/tsa,1),1663:(/d,0)}, 2:{16385:(/tsa,1)}}`. -/
theorem NewTablespaces_groups_last_tuple :
    (∀ (T : TablespaceTuples) (d o : Int) (location : GoString) (flag : Int),
      (∃ seg, (NewTablespaces T).get? d = some seg ∧ seg.get? o = some ⟨location, flag⟩) ↔
        ∃ t, IsLastFor T d o t ∧ t.Location = location ∧ t.UserDefined = flag) ∧
    NewTablespaces scenarioTuples = scenarioTablespaces := by
  refine ⟨?_, by decide⟩
  intro T d o location flag
  rw [← Tablespaces.find_eq_some_iff, NewTablespaces_find]
  constructor
  · intro h
    cases hf : T.reverse.find? (fun t => decide (t.DbId = d ∧ t.Oid = o)) with
    | none =>
      rw [hf] at h
      exact absurd h (by simp)
    | some t =>
      rw [hf] at h
      simp only [Option.map_some', Option.some.injEq, Tablespace.info,
        TablespaceInfo.mk.injEq] at h
      exact ⟨t, (find?_reverse_eq_some_iff T d o t).mp hf, h.1, h.2⟩
  · rintro ⟨t, hlast, hl, hu⟩
    rw [(find?_reverse_eq_some_iff T d o t).mpr hlast]
    simp [Tablespace.info, hl, hu]

/-! ## The per-segment worker -/

section Worker

variable {σ : Type}

theorem ExtendsWithoutRun.refl (tr : List Call) : ExtendsWithoutRun tr tr :=
  ⟨[], by simp, by simp⟩

theorem ExtendsWithoutRun.trans {a b c : List Call} (h1 : ExtendsWithoutRun a b)
    (h2 : ExtendsWithoutRun b c) : ExtendsWithoutRun a c := by
  obtain ⟨n1, rfl, hn1⟩ := h1
  obtain ⟨n2, rfl, hn2⟩ := h2
  refine ⟨n1 ++ n2, by simp, ?_⟩
  intro x hx
  rcases List.mem_append.mp hx with h | h
  · exact hn1 x h
  · exact hn2 x h

theorem traced_call_extends (sys : System σ) (c : Call) (h : c.isRun = false)
    (st : σ × List Call) : ExtendsWithoutRun st.2 (sys.traced.call c st).2.2 :=
  ⟨[c], rfl, by simpa using h⟩

theorem traced_call_extends_of_eq (sys : System σ) (c : Call) (h : c.isRun = false)
    (st st1 : σ × List Call) (r : Option Error) (heq : sys.traced.call c st = (r, st1)) :
    ExtendsWithoutRun st.2 st1.2 := by
  have := traced_call_extends sys c h st
  rw [heq] at this
  exact this

theorem restoreBackup_extends (sys : System σ) (request : UpgradePrimariesRequest)
    (segment : Segment) (st : σ × List Call) :
    ExtendsWithoutRun st.2 (restoreBackup sys.traced request segment st).2.2 := by
  unfold restoreBackup
  split
  · exact ExtendsWithoutRun.refl _
  · exact traced_call_extends sys _ (by rfl) st

theorem reCreateSymLink_extends (sys : System σ) (sourceDir symLinkName : GoString)
    (st : σ × List Call) :
    ExtendsWithoutRun st.2 (reCreateSymLink sys.traced sourceDir symLinkName st).2.2 := by
  unfold reCreateSymLink
  rcases hl : sys.traced.call (Call.Lstat symLinkName) st with ⟨r1, s1⟩
  have h1 := traced_call_extends_of_eq sys _ (by rfl) st s1 r1 hl
  cases r1 with
  | none =>
    rcases hr : sys.traced.call (Call.Remove symLinkName) s1 with ⟨r2, s2⟩
    have h2 := traced_call_extends_of_eq sys _ (by rfl) s1 s2 r2 hr
    cases r2 with
    | none =>
      rcases hs : sys.traced.call (Call.Symlink sourceDir symLinkName) s2 with ⟨r3, s3⟩
      have h3 := traced_call_extends_of_eq sys _ (by rfl) s2 s3 r3 hs
      cases r3 <;> simp only [hr, hs] <;> exact (h1.trans h2).trans h3
    | some e =>
      simp only [hr]
      exact h1.trans h2
  | some e =>
    by_cases hn : sys.traced.IsNotExist e = false
    · simp only [hn, if_true]
      exact h1
    · simp only []
      rw [if_neg hn]
      rcases hs : sys.traced.call (Call.Symlink sourceDir symLinkName) s1 with ⟨r3, s3⟩
      have h3 := traced_call_extends_of_eq sys _ (by rfl) s1 s3 r3 hs
      cases r3 <;> simp only [hs] <;> exact h1.trans h3

theorem RestoreTablespaces_loop_extends (sys : System σ) (MasterDbid : Int)
    (request : UpgradePrimariesRequest) (segment : Segment)
    (entries : List (Int × IdlTablespaceInfo)) (st : σ × List Call) :
    ExtendsWithoutRun st.2
      (RestoreTablespaces.loop sys.traced MasterDbid request segment entries st).2.2 := by
  induction entries generalizing st with
  | nil => exact ExtendsWithoutRun.refl _
  | cons e rest ih =>
    obtain ⟨oid, tablespace⟩ := e
    unfold RestoreTablespaces.loop
    by_cases hu : tablespace.UserDefined = false
    · simp only [hu, if_true]
      exact ih st
    · simp only [hu, if_false]
      rcases hc : sys.traced.call
        (Call.Rsync (GetMasterTablespaceLocation MasterDbid
          (Dir request.TablespacesMappingFilePath) oid)
          (GetTablespaceLocationForDbId tablespace segment.DBID) []) st with ⟨r1, s1⟩
      have h1 := traced_call_extends_of_eq sys _ (by rfl) st s1 r1 hc
      cases r1 with
      | some err => exact h1
      | none =>
        simp only
        have h2 := reCreateSymLink_extends sys
          (GetTablespaceLocationForDbId tablespace segment.DBID)
          (segment.TargetDataDir ++ "/pg_tblspc/".toList ++ Itoa oid) s1
        unfold ReCreateSymLink
        rcases hr : reCreateSymLink sys.traced
          (GetTablespaceLocationForDbId tablespace segment.DBID)
          (segment.TargetDataDir ++ "/pg_tblspc/".toList ++ Itoa oid) s1 with ⟨r2, s2⟩
        rw [hr] at h2
        cases r2 with
        | some err => exact h1.trans h2
        | none => exact (h1.trans h2).trans (ih s2)

theorem RestoreTablespaces_extends (sys : System σ) (MasterDbid : Int)
    (request : UpgradePrimariesRequest) (segment : Segment) (st : σ × List Call) :
    ExtendsWithoutRun st.2 (RestoreTablespaces sys.traced MasterDbid request segment st).2.2 := by
  unfold RestoreTablespaces
  split
  · exact ExtendsWithoutRun.refl _
  · exact RestoreTablespaces_loop_extends sys MasterDbid request segment _ st

/-- C6: for every request with check-only set and every segment (whatever its
tablespace map), `restoreBackup` and `RestoreTablespaces` return nil leaving
the world and the record of calls unchanged (no copy, no symlink operation),
and the only call `upgradeSegment` makes is the upgrade primitive, invoked on
the unchanged initial world. -/
theorem checkOnly_performs_no_filesystem_operation (sys : System σ) (MasterDbid : Int)
    (segment : Segment) (request : UpgradePrimariesRequest) (host : GoString) (s : σ)
    (tr : List Call) (h : request.CheckOnly = true) :
    restoreBackup sys.traced request segment (s, tr) = (none, (s, tr)) ∧
    RestoreTablespaces sys.traced MasterDbid request segment (s, tr) = (none, (s, tr)) ∧
    (upgradeSegment sys.traced MasterDbid segment request host (s, tr)).2 =
      ((sys.call (Call.Run (performUpgrade.segmentPair segment request)
          (performUpgrade.options segment request)) s).2,
        tr ++ [Call.Run (performUpgrade.segmentPair segment request)
          (performUpgrade.options segment request)]) := by
  have hrb : restoreBackup sys.traced request segment (s, tr) = (none, (s, tr)) := by
    simp [restoreBackup, h]
  have hrt : RestoreTablespaces sys.traced MasterDbid request segment (s, tr)
      = (none, (s, tr)) := by
    simp [RestoreTablespaces, h]
  refine ⟨hrb, hrt, ?_⟩
  unfold upgradeSegment
  rw [hrb]
  simp only [hrt]
  unfold performUpgrade
  rcases hc : sys.traced.call (Call.Run (performUpgrade.segmentPair segment request)
    (performUpgrade.options segment request)) (s, tr) with ⟨r, s3⟩
  have hs3 : s3 = ((sys.call (Call.Run (performUpgrade.segmentPair segment request)
      (performUpgrade.options segment request)) s).2,
      tr ++ [Call.Run (performUpgrade.segmentPair segment request)
        (performUpgrade.options segment request)]) := by
    have := congrArg Prod.snd hc
    simpa [System.traced] using this.symm
  cases r <;> simp [hs3]

/-- Witness for C6: a check-only request, a segment with a user-defined
tablespace, and an environment in which every call fails. -/
theorem checkOnly_performs_no_filesystem_operation_witness :
    (sampleRequest true false).CheckOnly = true ∧
    (restoreBackup (failingOn (fun _ => true)).traced (sampleRequest true false) sampleSegment
        ((), []) = (none, ((), [])) ∧
      RestoreTablespaces (failingOn (fun _ => true)).traced 1 (sampleRequest true false)
        sampleSegment ((), []) = (none, ((), [])) ∧
      (upgradeSegment (failingOn (fun _ => true)).traced 1 sampleSegment
          (sampleRequest true false) "sdw1".toList ((), [])).2 =
        (((failingOn (fun _ => true)).call
            (Call.Run (performUpgrade.segmentPair sampleSegment (sampleRequest true false))
              (performUpgrade.options sampleSegment (sampleRequest true false))) ()).2,
          [] ++ [Call.Run (performUpgrade.segmentPair sampleSegment (sampleRequest true false))
            (performUpgrade.options sampleSegment (sampleRequest true false))])) :=
  ⟨rfl, checkOnly_performs_no_filesystem_operation (failingOn (fun _ => true)) 1 sampleSegment
    (sampleRequest true false) "sdw1".toList () [] rfl⟩

theorem performUpgrade_traced (sys : System σ) (segment : Segment)
    (request : UpgradePrimariesRequest) (st : σ × List Call) :
    (performUpgrade sys.traced segment request st).2.2 =
      st.2 ++ [Call.Run (performUpgrade.segmentPair segment request)
        (performUpgrade.options segment request)] := rfl

/-- C7: within one segment the worker's steps are ordered and it never
continues past a failing step.  With `rb`, `rt`, `pu` the three steps run one
after the other (each from the world its predecessor left): if `rb` fails,
`upgradeSegment` returns that error wrapped, and the only call made is the
backup copy; if `rb` succeeds and `rt` fails, `upgradeSegment` returns that
error wrapped in the world `rt` left, and the upgrade primitive is not among
the calls made; `upgradeSegment` returns nil if and only if all three steps
return nil; and when the first two succeed the calls made are those of `rb`
and `rt` followed by the single invocation of the primitive. -/
theorem upgradeSegment_stops_at_first_failure (sys : System σ) (MasterDbid : Int)
    (segment : Segment) (request : UpgradePrimariesRequest) (host : GoString) (s : σ) :
    (∀ e, (restoreBackup sys.traced request segment (s, [])).1 = some e →
      upgradeSegment sys.traced MasterDbid segment request host (s, []) =
        (some (Error.Wrapf e
          "failed to restore master data directory backup on host %s for content id %d: %s"
          [Arg.str host, Arg.int segment.Content, Arg.err e]),
         (restoreBackup sys.traced request segment (s, [])).2) ∧
      (upgradeSegment sys.traced MasterDbid segment request host (s, [])).2.2 =
        [Call.Rsync request.MasterBackupDir segment.TargetDataDir backupWhitelist]) ∧
    ((restoreBackup sys.traced request segment (s, [])).1 = none →
      ∀ e, (RestoreTablespaces sys.traced MasterDbid request segment
          (restoreBackup sys.traced request segment (s, [])).2).1 = some e →
        upgradeSegment sys.traced MasterDbid segment request host (s, []) =
          (some (Error.Wrapf e "restore tablespace on host %s for content id %d: %s"
            [Arg.str host, Arg.int segment.Content, Arg.err e]),
           (RestoreTablespaces sys.traced MasterDbid request segment
             (restoreBackup sys.traced request segment (s, [])).2).2) ∧
        ∀ c ∈ (upgradeSegment sys.traced MasterDbid segment request host (s, [])).2.2,
          c.isRun = false) ∧
    ((upgradeSegment sys.traced MasterDbid segment request host (s, [])).1 = none ↔
      (restoreBackup sys.traced request segment (s, [])).1 = none ∧
      (RestoreTablespaces sys.traced MasterDbid request segment
        (restoreBackup sys.traced request segment (s, [])).2).1 = none ∧
      (performUpgrade sys.traced segment request
        (RestoreTablespaces sys.traced MasterDbid request segment
          (restoreBackup sys.traced request segment (s, [])).2).2).1 = none) ∧
    ((restoreBackup sys.traced request segment (s, [])).1 = none →
      (RestoreTablespaces sys.traced MasterDbid request segment
        (restoreBackup sys.traced request segment (s, [])).2).1 = none →
      (upgradeSegment sys.traced MasterDbid segment request host (s, [])).2.2 =
        (RestoreTablespaces sys.traced MasterDbid request segment
          (restoreBackup sys.traced request segment (s, [])).2).2.2 ++
        [Call.Run (performUpgrade.segmentPair segment request)
          (performUpgrade.options segment request)]) := by
  have hrbx := restoreBackup_extends sys request segment (s, [])
  have hrtx := RestoreTablespaces_extends sys MasterDbid request segment
    (restoreBackup sys.traced request segment (s, [])).2
  have hpu := performUpgrade_traced sys segment request
    (RestoreTablespaces sys.traced MasterDbid request segment
      (restoreBackup sys.traced request segment (s, [])).2).2
  have hrbtr : ∀ e, (restoreBackup sys.traced request segment (s, [])).1 = some e →
      (restoreBackup sys.traced request segment (s, [])).2.2 =
        [Call.Rsync request.MasterBackupDir segment.TargetDataDir backupWhitelist] := by
    intro e he
    unfold restoreBackup at he ⊢
    by_cases hc : request.CheckOnly = true
    · simp [hc] at he
    · simp [hc, System.traced]
  unfold upgradeSegment
  rcases hrb : restoreBackup sys.traced request segment (s, []) with ⟨r1, s1⟩
  rw [hrb] at hrbx hrtx hpu hrbtr
  cases r1 with
  | some e1 =>
    have := hrbtr e1 rfl
    simp only at this
    simp [this]
  | none =>
    simp only
    rcases hrt : RestoreTablespaces sys.traced MasterDbid request segment s1 with ⟨r2, s2⟩
    rw [hrt] at hrtx hpu
    cases r2 with
    | some e2 =>
      simp only [reduceCtorEq, false_and, and_false, iff_false, not_false_eq_true,
        IsEmpty.forall_iff, implies_true, true_and, and_true, Option.some.injEq, forall_eq']
      obtain ⟨n1, h1, hn1⟩ := hrbx
      obtain ⟨n2, h2, hn2⟩ := hrtx
      simp only at h1 h2
      intro _ c hc
      rw [h2, h1] at hc
      simp only [List.nil_append, List.mem_append] at hc
      rcases hc with hc | hc
      · exact hn1 c hc
      · exact hn2 c hc
    | none =>
      simp only
      rcases hp : performUpgrade sys.traced segment request s2 with ⟨r3, s3⟩
      rw [hp] at hpu
      simp only at hpu
      cases r3 <;> simp [hpu]

/-- Witness for C7: the backup copy fails, so the only call made is that copy. -/
theorem upgradeSegment_stops_at_first_failure_witness :
    (upgradeSegment (failingOn (fun _ => true)).traced 1 sampleSegment
        (sampleRequest false false) "sdw1".toList ((), [])).2.2 =
      [Call.Rsync "/backup".toList "/data/new/seg1".toList backupWhitelist] :=
  ((upgradeSegment_stops_at_first_failure (failingOn (fun _ => true)) 1 sampleSegment
    (sampleRequest false false) "sdw1".toList ()).1
      (Error.New "permission denied".toList) rfl).2

/-- C8: `performUpgrade` makes exactly one call, the upgrade primitive, and
its option list holds exactly one of check-only and tablespace-file: the
check-only option is there exactly when the request is check-only, a
tablespace-file option is there exactly when the request is not check-only
and then carries the request's mapping file path; exec-command, work-dir
(the segment's, and no other) and segment-mode are there in both cases. -/
theorem performUpgrade_passes_one_mode_option (sys : System σ) (segment : Segment)
    (request : UpgradePrimariesRequest) (s : σ) (tr : List Call) :
    ∃ options,
      performUpgrade sys.traced segment request (s, tr) =
        ((sys.call (Call.Run (performUpgrade.segmentPair segment request) options) s).1,
         ((sys.call (Call.Run (performUpgrade.segmentPair segment request) options) s).2,
          tr ++ [Call.Run (performUpgrade.segmentPair segment request) options])) ∧
      (UpgradeOption.WithCheckOnly ∈ options ↔ request.CheckOnly = true) ∧
      (∀ f, UpgradeOption.WithTablespaceFile f ∈ options ↔
        (request.CheckOnly = false ∧ f = request.TablespacesMappingFilePath)) ∧
      options.countP UpgradeOption.isCheckOnlyOrTablespaceFile = 1 ∧
      UpgradeOption.WithExecCommand ∈ options ∧
      (∀ wd, UpgradeOption.WithWorkDir wd ∈ options ↔ wd = segment.WorkDir) ∧
      UpgradeOption.WithSegmentMode ∈ options := by
  refine ⟨performUpgrade.options segment request, rfl, ?_⟩
  unfold performUpgrade.options
  cases hc : request.CheckOnly <;> cases hl : request.UseLinkMode <;>
    simp [List.countP_cons, UpgradeOption.isCheckOnlyOrTablespaceFile, eq_comm]

/-- C9, as stated, fails: for a check-only request that also has link mode
set, the option list handed to the primitive has five options, the fifth
being link-mode. -/
theorem performUpgrade_checkOnly_with_linkMode :
    (sampleRequest true true).CheckOnly = true ∧
    (performUpgrade (failingOn (fun _ => false)).traced sampleSegment (sampleRequest true true)
        ((), [])).2.2 =
      [Call.Run (performUpgrade.segmentPair sampleSegment (sampleRequest true true))
        [UpgradeOption.WithExecCommand, UpgradeOption.WithWorkDir "/work/seg1".toList,
         UpgradeOption.WithSegmentMode, UpgradeOption.WithCheckOnly,
         UpgradeOption.WithLinkMode]] ∧
    performUpgrade.options sampleSegment (sampleRequest true true) ≠
      [UpgradeOption.WithExecCommand, UpgradeOption.WithWorkDir "/work/seg1".toList,
       UpgradeOption.WithSegmentMode, UpgradeOption.WithCheckOnly] := by
  refine ⟨rfl, rfl, by decide⟩

/-- C9 (amended): for every request with check-only set, the option list that
`performUpgrade` hands to the primitive is exactly exec-command, work-dir,
segment-mode, check-only, followed by link-mode when (and only when) the
request has link mode set; no tablespace-file option is added. -/
theorem performUpgrade_checkOnly_options (sys : System σ) (segment : Segment)
    (request : UpgradePrimariesRequest) (s : σ) (tr : List Call)
    (h : request.CheckOnly = true) :
    (performUpgrade sys.traced segment request (s, tr)).2.2 =
      tr ++ [Call.Run (performUpgrade.segmentPair segment request)
        ([UpgradeOption.WithExecCommand, UpgradeOption.WithWorkDir segment.WorkDir,
          UpgradeOption.WithSegmentMode, UpgradeOption.WithCheckOnly] ++
          if request.UseLinkMode = true then [UpgradeOption.WithLinkMode] else [])] := by
  rw [performUpgrade_traced]
  unfold performUpgrade.options
  cases hl : request.UseLinkMode <;> simp [h]

/-- Witness for C9 (amended): a check-only request without link mode gets
exactly the four options. -/
theorem performUpgrade_checkOnly_options_witness :
    (sampleRequest true false).CheckOnly = true ∧
    (performUpgrade (failingOn (fun _ => false)).traced sampleSegment (sampleRequest true false)
        ((), [])).2.2 =
      [] ++ [Call.Run (performUpgrade.segmentPair sampleSegment (sampleRequest true false))
        ([UpgradeOption.WithExecCommand, UpgradeOption.WithWorkDir sampleSegment.WorkDir,
          UpgradeOption.WithSegmentMode, UpgradeOption.WithCheckOnly] ++
          if (sampleRequest true false).UseLinkMode = true then [UpgradeOption.WithLinkMode]
          else [])] :=
  ⟨rfl, performUpgrade_checkOnly_options (failingOn (fun _ => false)) sampleSegment
    (sampleRequest true false) () [] rfl⟩

/-- C10: the option list that `performUpgrade` hands to the primitive holds
the link-mode option if and only if the request has link mode set; and for a
request with check-only false and link mode true the list is exactly
exec-command, work-dir, segment-mode, tablespace-file (the request's mapping
file path), link-mode. -/
theorem performUpgrade_linkMode_iff_requested (sys : System σ) (segment : Segment)
    (request : UpgradePrimariesRequest) (s : σ) (tr : List Call) :
    ∃ options,
      (performUpgrade sys.traced segment request (s, tr)).2.2 =
        tr ++ [Call.Run (performUpgrade.segmentPair segment request) options] ∧
      (UpgradeOption.WithLinkMode ∈ options ↔ request.UseLinkMode = true) ∧
      (request.CheckOnly = false → request.UseLinkMode = true →
        options = [UpgradeOption.WithExecCommand, UpgradeOption.WithWorkDir segment.WorkDir,
          UpgradeOption.WithSegmentMode,
          UpgradeOption.WithTablespaceFile request.TablespacesMappingFilePath,
          UpgradeOption.WithLinkMode]) := by
  refine ⟨performUpgrade.options segment request, rfl, ?_⟩
  unfold performUpgrade.options
  cases hc : request.CheckOnly <;> cases hl : request.UseLinkMode <;> simp

end Worker

/-! ## Path helpers -/

theorem dropWhile_length_le {α : Type} (f : α → Bool) (l : List α) :
    (l.dropWhile f).length ≤ l.length := by
  induction l with
  | nil => simp
  | cons a l ih =>
    simp only [List.dropWhile_cons]
    split
    · simp only [List.length_cons]; omega
    · simp

theorem Clean.loop_fuel (rooted : Bool) :
    ∀ (f1 f2 : Nat) (path out : GoString) (dotdot : Nat),
      path.length ≤ f1 → path.length ≤ f2 →
      Clean.loop rooted f1 path out dotdot = Clean.loop rooted f2 path out dotdot := by
  intro f1
  induction f1 with
  | zero =>
    intro f2 path out dotdot h1 h2
    have : path = [] := List.length_eq_zero.mp (Nat.le_zero.mp h1)
    subst this
    cases f2 <;> simp [Clean.loop]
  | succ a ih =>
    intro f2 path out dotdot h1 h2
    cases path with
    | nil => cases f2 <;> simp [Clean.loop]
    | cons c rest =>
      cases f2 with
      | zero => simp at h2
      | succ b =>
        simp only [List.length_cons, Nat.add_le_add_iff_right] at h1 h2
        have ht1 : rest.tail.length ≤ a := by simp only [List.length_tail]; omega
        have ht2 : rest.tail.length ≤ b := by simp only [List.length_tail]; omega
        have hd := dropWhile_length_le (fun x => x != '/') rest
        simp only [Clean.loop]
        split
        · exact ih b rest out dotdot h1 h2
        · split
          · exact ih b rest out dotdot h1 h2
          · split
            · split
              · exact ih b _ _ _ ht1 ht2
              · split
                · exact ih b _ _ _ ht1 ht2
                · exact ih b _ _ _ ht1 ht2
            · rename_i hc _ _
              have hc' : (c != '/') = true := by simpa using hc
              simp only [List.dropWhile_cons, List.takeWhile_cons, hc', if_true]
              exact ih b _ _ _ (by omega) (by omega)

theorem Clean.run_nil (rooted : Bool) (out : GoString) (dotdot : Nat) :
    Clean.run rooted [] out dotdot = out := rfl

theorem Clean.loop_eq_run (rooted : Bool) (f : Nat) (path out : GoString) (dotdot : Nat)
    (h : path.length ≤ f) : Clean.loop rooted f path out dotdot = Clean.run rooted path out dotdot :=
  Clean.loop_fuel rooted f path.length path out dotdot h (Nat.le_refl _)

theorem Clean.run_cons (rooted : Bool) (c : Char) (rest out : GoString) (dotdot : Nat) :
    Clean.run rooted (c :: rest) out dotdot =
      if c = '/' then Clean.run rooted rest out dotdot
      else if c = '.' ∧ (rest = [] ∨ rest.head? = some '/') then Clean.run rooted rest out dotdot
      else if c = '.' ∧ rest.head? = some '.' ∧ (rest.tail = [] ∨ rest.tail.head? = some '/') then
        if dotdot < out.length then
          Clean.run rooted rest.tail (out.take (Clean.backtrack out dotdot (out.length - 1))) dotdot
        else if rooted = false then
          Clean.run rooted rest.tail ((if 0 < out.length then out ++ ['/'] else out) ++ ['.', '.'])
            ((if 0 < out.length then out ++ ['/'] else out) ++ ['.', '.']).length
        else Clean.run rooted rest.tail out dotdot
      else
        Clean.run rooted (rest.dropWhile (fun x => x != '/'))
          ((if (rooted = true ∧ out.length ≠ 1) ∨ (rooted = false ∧ out.length ≠ 0)
              then out ++ ['/'] else out) ++ c :: rest.takeWhile (fun x => x != '/')) dotdot := by
  have ht : rest.tail.length ≤ rest.length := by simp only [List.length_tail]; omega
  have hd := dropWhile_length_le (fun x => x != '/') rest
  conv_lhs => unfold Clean.run
  simp only [List.length_cons, Clean.loop]
  split
  · exact Clean.loop_eq_run _ _ _ _ _ (Nat.le_refl _)
  · split
    · exact Clean.loop_eq_run _ _ _ _ _ (Nat.le_refl _)
    · split
      · split
        · exact Clean.loop_eq_run _ _ _ _ _ ht
        · split
          · exact Clean.loop_eq_run _ _ _ _ _ ht
          · exact Clean.loop_eq_run _ _ _ _ _ ht
      · rename_i hc _ _
        have hc' : (c != '/') = true := by simpa using hc
        simp only [List.dropWhile_cons, List.takeWhile_cons, hc', if_true]
        exact Clean.loop_eq_run _ _ _ _ _ hd

theorem takeWhile_append_stop {α : Type} (f : α → Bool) (p : List α) (x : α) (q : List α)
    (hx : f x = false) : (p ++ x :: q).takeWhile f = p.takeWhile f := by
  induction p with
  | nil => simp [List.takeWhile_cons, hx]
  | cons a p ih =>
    simp only [List.cons_append, List.takeWhile_cons]
    split
    · rw [ih]
    · rfl

theorem dropWhile_append_stop {α : Type} (f : α → Bool) (p : List α) (x : α) (q : List α)
    (hx : f x = false) : (p ++ x :: q).dropWhile f = p.dropWhile f ++ x :: q := by
  induction p with
  | nil => simp [List.dropWhile_cons, hx]
  | cons a p ih =>
    simp only [List.cons_append, List.dropWhile_cons]
    split
    · rw [ih]
    · rfl

/-- Reading `p` followed by a separator leaves the loop of `Clean` in the state
it reaches at the end of `p` alone. -/
theorem Clean.run_append_sep (rooted : Bool) (q : GoString) :
    ∀ (n : Nat) (p : GoString), p.length ≤ n → ∀ (out : GoString) (dotdot : Nat),
      ∃ dotdot1, Clean.run rooted (p ++ '/' :: q) out dotdot =
        Clean.run rooted ('/' :: q) (Clean.run rooted p out dotdot) dotdot1 := by
  intro n
  induction n with
  | zero =>
    intro p hp out dotdot
    have : p = [] := List.length_eq_zero.mp (Nat.le_zero.mp hp)
    subst this
    exact ⟨dotdot, rfl⟩
  | succ n ih =>
    intro p hp out dotdot
    cases p with
    | nil => exact ⟨dotdot, rfl⟩
    | cons c rest =>
      simp only [List.length_cons, Nat.add_le_add_iff_right] at hp
      have ht : rest.tail.length ≤ n := by simp only [List.length_tail]; omega
      have hd : (rest.dropWhile (fun x => x != '/')).length ≤ n :=
        Nat.le_trans (dropWhile_length_le _ rest) hp
      have hdot : ((rest ++ '/' :: q) = [] ∨ (rest ++ '/' :: q).head? = some '/') ↔
          (rest = [] ∨ rest.head? = some '/') := by
        cases rest <;> simp
      have hdotdot : ((rest ++ '/' :: q).head? = some '.' ∧
            ((rest ++ '/' :: q).tail = [] ∨ (rest ++ '/' :: q).tail.head? = some '/')) ↔
          (rest.head? = some '.' ∧ (rest.tail = [] ∨ rest.tail.head? = some '/')) := by
        cases rest with
        | nil => simp
        | cons c2 r2 => cases r2 <;> simp
      have htail : rest.head? = some '.' → (rest ++ '/' :: q).tail = rest.tail ++ '/' :: q := by
        cases rest <;> simp
      rw [List.cons_append, Clean.run_cons, Clean.run_cons rooted c rest]
      simp only [hdot, hdotdot]
      split
      · exact ih rest hp out dotdot
      · split
        · exact ih rest hp out dotdot
        · split
          · rename_i h3
            rw [htail h3.2.1]
            split
            · exact ih _ ht _ _
            · split
              · exact ih _ ht _ _
              · exact ih _ ht _ _
          · rw [takeWhile_append_stop _ _ _ _ (by decide), dropWhile_append_stop _ _ _ _ (by decide)]
            exact ih _ hd _ _

theorem takeWhile_eq_self_of_forall {α : Type} (f : α → Bool) (l : List α)
    (h : ∀ x ∈ l, f x = true) : l.takeWhile f = l ∧ l.dropWhile f = [] := by
  induction l with
  | nil => simp
  | cons a l ih =>
    have ha := h a (List.mem_cons_self _ _)
    have := ih (fun x hx => h x (List.mem_cons_of_mem _ hx))
    simp [List.takeWhile_cons, List.dropWhile_cons, ha, this.1, this.2]

theorem Clean.run_sep_plain (rooted : Bool) (d out : GoString) (dotdot : Nat)
    (hd : PlainElem d) :
    Clean.run rooted ('/' :: d) out dotdot =
      (if (rooted = true ∧ out.length ≠ 1) ∨ (rooted = false ∧ out.length ≠ 0)
        then out ++ ['/'] else out) ++ d := by
  obtain ⟨hne, hns, hdot⟩ := hd
  cases d with
  | nil => exact absurd rfl hne
  | cons c ds =>
    have hc1 : c ≠ '/' := hns c (List.mem_cons_self _ _)
    have hc2 : c ≠ '.' := by simpa using hdot
    have hds := takeWhile_eq_self_of_forall (fun x => x != '/') ds
      (fun x hx => by simpa using hns x (List.mem_cons_of_mem _ hx))
    rw [Clean.run_cons, if_pos rfl, Clean.run_cons, if_neg hc1, if_neg (by simp [hc2]),
      if_neg (by simp [hc2]), hds.1, hds.2, Clean.run_nil]

/-- Appending a plain element to a clean path other than `/` and `.` gives a clean path. -/
theorem Clean_append_elem (L d : GoString) (hclean : Clean L = L) (h1 : L ≠ ['/'])
    (h2 : L ≠ ['.']) (hd : PlainElem d) :
    Clean (L ++ '/' :: d) = L ++ '/' :: d := by
  cases L with
  | nil => simp [Clean] at hclean
  | cons c rest =>
    by_cases hc : c = '/'
    · subst hc
      obtain ⟨dd, hrun⟩ := Clean.run_append_sep true d rest.length rest (Nat.le_refl _) ['/'] 1
      have hL : Clean.run true rest ['/'] 1 = '/' :: rest := by
        have := hclean
        simp only [Clean, if_true] at this
        unfold Clean.run
        split at this
        · simp at this
        · exact this
      have hlen : ('/' :: rest).length ≠ 1 := by
        intro h
        apply h1
        cases rest with
        | nil => rfl
        | cons a r => simp at h
      simp only [List.cons_append, Clean, if_true]
      rw [Clean.loop_eq_run _ _ _ _ _ (Nat.le_refl _), hrun, hL,
        Clean.run_sep_plain true d _ dd hd, if_pos (Or.inl ⟨rfl, hlen⟩)]
      simp
    · obtain ⟨dd, hrun⟩ := Clean.run_append_sep false d (c :: rest).length (c :: rest)
        (Nat.le_refl _) [] 0
      have hL : Clean.run false (c :: rest) [] 0 = c :: rest := by
        have := hclean
        simp only [Clean, if_neg hc] at this
        unfold Clean.run
        split at this
        · exact absurd this.symm h2
        · exact this
      simp only [List.cons_append, Clean, if_neg hc]
      rw [← List.cons_append, Clean.loop_eq_run _ _ _ _ _ (Nat.le_refl _), hrun, hL,
        Clean.run_sep_plain false d _ dd hd, if_pos (Or.inr ⟨rfl, by simp⟩)]
      simp

theorem digitValue_digitChar (d : Nat) (h : d < 10) : digitValue (Nat.digitChar d) = some d := by
  interval_cases d <;> rfl

theorem isDigit_digitChar (d : Nat) (h : d < 10) : IsDigit (Nat.digitChar d) := by
  interval_cases d <;> decide

theorem digitChar_eq_zero (d : Nat) (h : d < 10) (h0 : Nat.digitChar d = '0') : d = 0 := by
  interval_cases d <;> first | rfl | (exact absurd h0 (by decide))

theorem formatBits_digits : ∀ (f n : Nat) (acc : GoString),
    ∀ c ∈ formatBits f n acc, c ∈ acc ∨ IsDigit c := by
  intro f
  induction f with
  | zero => intro n acc c hc; exact Or.inl hc
  | succ f ih =>
    intro n acc c hc
    have hd := isDigit_digitChar (n % 10) (Nat.mod_lt _ (by decide))
    simp only [formatBits] at hc
    split at hc
    · rcases List.mem_cons.mp hc with h | h
      · exact Or.inr (h ▸ hd)
      · exact Or.inl h
    · rcases ih _ _ c hc with h | h
      · rcases List.mem_cons.mp h with h | h
        · exact Or.inr (h ▸ hd)
        · exact Or.inl h
      · exact Or.inr h

theorem formatBits_parse : ∀ (f n : Nat) (acc : GoString), n < f →
    parseDigits (formatBits f n acc) 0 = parseDigits acc n := by
  intro f
  induction f with
  | zero => intro n acc h; omega
  | succ f ih =>
    intro n acc h
    have hd := digitValue_digitChar (n % 10) (Nat.mod_lt _ (by decide))
    simp only [formatBits]
    split
    · rename_i h0
      simp only [parseDigits, hd]
      congr 1
      omega
    · rename_i h0
      rw [ih (n / 10) _ (by omega)]
      simp only [parseDigits, hd]
      congr 1
      omega

/-- The first digit is not zero unless the number is zero. -/
theorem formatBits_head : ∀ (f n : Nat) (acc : GoString), n < f → n ≠ 0 →
    ∃ c cs, formatBits f n acc = c :: cs ∧ IsDigit c ∧ c ≠ '0' := by
  intro f
  induction f with
  | zero => intro n acc h; omega
  | succ f ih =>
    intro n acc h hn
    simp only [formatBits]
    split
    · rename_i h0
      refine ⟨_, _, rfl, isDigit_digitChar _ (Nat.mod_lt _ (by decide)), ?_⟩
      intro hz
      have := digitChar_eq_zero _ (Nat.mod_lt _ (by decide)) hz
      omega
    · rename_i h0
      exact ih (n / 10) _ (by omega) h0

theorem formatNat_ne_nil (n : Nat) : formatNat n ≠ [] := by
  unfold formatNat
  by_cases hn : n = 0
  · subst hn; decide
  · obtain ⟨c, cs, h, _⟩ := formatBits_head (n + 1) n [] (by omega) hn
    rw [h]; simp

theorem formatNat_digits (n : Nat) : ∀ c ∈ formatNat n, IsDigit c := by
  intro c hc
  rcases formatBits_digits _ _ _ c hc with h | h
  · simp at h
  · exact h

theorem formatNat_parse (n : Nat) : parseDigits (formatNat n) 0 = some n := by
  unfold formatNat
  rw [formatBits_parse _ _ _ (by omega)]
  rfl

/-- `Atoi` inverts `Itoa`. -/
theorem Atoi_Itoa (i : Int) : Atoi (Itoa i) = some i := by
  cases i with
  | ofNat n =>
    have hne := formatNat_ne_nil n
    have hdig := formatNat_digits n
    have hp := formatNat_parse n
    simp only [Itoa]
    cases hf : formatNat n with
    | nil => exact absurd hf hne
    | cons c cs =>
      rw [hf] at hdig hp
      have hc := hdig c (List.mem_cons_self _ _)
      have h1 : c ≠ '-' := by intro h; subst h; exact absurd hc (by decide)
      have h2 : c ≠ '+' := by intro h; subst h; exact absurd hc (by decide)
      unfold Atoi
      split
      · simp at *
      · rename_i heq; simp only [List.cons.injEq] at heq; exact absurd heq.1 h1
      · rename_i heq; simp only [List.cons.injEq] at heq; exact absurd heq.1 h2
      · rw [hp]; rfl
  | negSucc n =>
    have hne := formatNat_ne_nil (n + 1)
    have hp := formatNat_parse (n + 1)
    simp only [Itoa, Atoi, hne, if_false, hp, Option.map_some']
    rfl

theorem Itoa_chars (i : Int) : ∀ c ∈ Itoa i, c = '-' ∨ IsDigit c := by
  intro c hc
  cases i with
  | ofNat n => exact Or.inr (formatNat_digits n c hc)
  | negSucc n =>
    simp only [Itoa] at hc
    rcases List.mem_cons.mp hc with h | h
    · exact Or.inl h
    · exact Or.inr (formatNat_digits _ c h)

theorem Itoa_ne_nil (i : Int) : Itoa i ≠ [] := by
  cases i with
  | ofNat n => exact formatNat_ne_nil n
  | negSucc n => simp [Itoa]

theorem Itoa_plainElem (i : Int) : PlainElem (Itoa i) := by
  refine ⟨Itoa_ne_nil i, ?_, ?_⟩
  · intro c hc h
    subst h
    rcases Itoa_chars i _ hc with h | h
    · exact absurd h (by decide)
    · exact absurd h (by decide)
  · intro h
    have hmem : '.' ∈ Itoa i := by
      cases hi : Itoa i with
      | nil => rw [hi] at h; simp at h
      | cons c cs =>
        rw [hi] at h
        simp only [List.head?_cons, Option.some.injEq] at h
        simp [h]
    rcases Itoa_chars i _ hmem with h | h
    · exact absurd h (by decide)
    · exact absurd h (by decide)

/-- C4, as stated, fails: for the location `/tsa/` (an absolute directory path
with a trailing separator) and dbid 5 the function returns `/tsa/5`, not
`/tsa/` followed by `/` and `5`; and for the empty location it returns `5`. -/
theorem GetTablespaceLocationForDbId_cleans_location :
    GetTablespaceLocationForDbId ⟨"/tsa/".toList, true⟩ 5 = "/tsa/5".toList ∧
    GetTablespaceLocationForDbId ⟨"/tsa/".toList, true⟩ 5 ≠
      "/tsa/".toList ++ "/".toList ++ Itoa 5 ∧
    GetTablespaceLocationForDbId ⟨"".toList, true⟩ 5 = "5".toList ∧
    GetTablespaceLocationForDbId ⟨"".toList, true⟩ 5 ≠ "".toList ++ "/".toList ++ Itoa 5 := by
  decide

/-- C4 (amended): for every tablespace info whose location `L` is a clean
path (`filepath.Clean` leaves it unchanged) other than `/` and `.`, and every
dbid, `GetTablespaceLocationForDbId` returns `L` followed by `/` followed by
the base-10 rendering of dbid (which `Atoi` reads back as dbid). -/
theorem GetTablespaceLocationForDbId_of_clean (t : IdlTablespaceInfo) (dbId : Int)
    (hclean : Clean t.Location = t.Location) (hroot : t.Location ≠ "/".toList)
    (hdot : t.Location ≠ ".".toList) :
    GetTablespaceLocationForDbId t dbId = t.Location ++ "/".toList ++ Itoa dbId ∧
    Atoi (Itoa dbId) = some dbId := by
  refine ⟨?_, Atoi_Itoa dbId⟩
  have hne : t.Location ≠ [] := by
    intro h
    rw [h] at hclean
    simp [Clean] at hclean
  unfold GetTablespaceLocationForDbId Join
  rw [if_pos hne]
  simp only [stringsJoin]
  have := Clean_append_elem t.Location (Itoa dbId) hclean hroot hdot (Itoa_plainElem dbId)
  simpa using this

/-- Witness for C4 (amended): location `/tsa`, dbid 2. -/
theorem GetTablespaceLocationForDbId_of_clean_witness :
    (Clean "/tsa".toList = "/tsa".toList ∧ "/tsa".toList ≠ "/".toList ∧
      "/tsa".toList ≠ ".".toList) ∧
    (GetTablespaceLocationForDbId ⟨"/tsa".toList, true⟩ 2 =
        "/tsa".toList ++ "/".toList ++ Itoa 2 ∧
      Atoi (Itoa 2) = some 2) :=
  ⟨by decide, GetTablespaceLocationForDbId_of_clean ⟨"/tsa".toList, true⟩ 2 (by decide)
    (by decide) (by decide)⟩

/-- C5, as stated, fails: for the base path `/state/` and oid 16385, with
coordinator dbid 1, the function returns `/state/16385/1`, not `/state/`
followed by `/`, `16385`, `/` and `1`; and for the empty base path it returns
the relative path `16385/1`. -/
theorem GetMasterTablespaceLocation_cleans_basePath :
    GetMasterTablespaceLocation 1 "/state/".toList 16385 = "/state/16385/1".toList ∧
    GetMasterTablespaceLocation 1 "/state/".toList 16385 ≠
      "/state/".toList ++ "/".toList ++ Itoa 16385 ++ "/".toList ++ Itoa 1 ∧
    GetMasterTablespaceLocation 1 "".toList 16385 = "16385/1".toList ∧
    GetMasterTablespaceLocation 1 "".toList 16385 ≠
      "".toList ++ "/".toList ++ Itoa 16385 ++ "/".toList ++ Itoa 1 := by
  decide

/-- C5 (amended): for every base path `B` that is a clean path other than `/`
and `.`, every oid and every value of the coordinator dbid constant,
`GetMasterTablespaceLocation` returns `B` followed by `/`, the base-10
rendering of oid, `/`, and the base-10 rendering of the coordinator dbid. -/
theorem GetMasterTablespaceLocation_of_clean (MasterDbid : Int) (basePath : GoString)
    (oid : Int) (hclean : Clean basePath = basePath) (hroot : basePath ≠ "/".toList)
    (hdot : basePath ≠ ".".toList) :
    GetMasterTablespaceLocation MasterDbid basePath oid =
      basePath ++ "/".toList ++ Itoa oid ++ "/".toList ++ Itoa MasterDbid := by
  have hne : basePath ≠ [] := by
    intro h
    rw [h] at hclean
    simp [Clean] at hclean
  have h1 := Clean_append_elem basePath (Itoa oid) hclean hroot hdot (Itoa_plainElem oid)
  have hlen : 2 ≤ (basePath ++ '/' :: Itoa oid).length := by
    have := List.length_pos.mpr hne
    simp only [List.length_append, List.length_cons]
    omega
  have h2 := Clean_append_elem (basePath ++ '/' :: Itoa oid) (Itoa MasterDbid) h1
    (by intro h; rw [h] at hlen; simp at hlen) (by intro h; rw [h] at hlen; simp at hlen)
    (Itoa_plainElem MasterDbid)
  unfold GetMasterTablespaceLocation Join
  rw [if_pos hne]
  simp only [stringsJoin]
  simpa using h2

/-- Witness for C5 (amended): base path `/state`, oid 16385, coordinator dbid 1. -/
theorem GetMasterTablespaceLocation_of_clean_witness :
    (Clean "/state".toList = "/state".toList ∧ "/state".toList ≠ "/".toList ∧
      "/state".toList ≠ ".".toList) ∧
    GetMasterTablespaceLocation 1 "/state".toList 16385 =
      "/state".toList ++ "/".toList ++ Itoa 16385 ++ "/".toList ++ Itoa 1 :=
  ⟨by decide, GetMasterTablespaceLocation_of_clean 1 "/state".toList 16385 (by decide)
    (by decide) (by decide)⟩



/-! ## The CSV writer -/

section Writer

variable {ω : Type}

theorem Flush_spec (w : IoWriter ω) (b : BufioWriter) (st : ω × GoString) (hb : b.err = none) :
    csvStream (BufioWriter.Flush w.recorded b st).2.1 (BufioWriter.Flush w.recorded b st).2.2 =
      csvStream b st ∧
    (BufioWriter.Flush w.recorded b st).1 = (BufioWriter.Flush w.recorded b st).2.1.err ∧
    ((BufioWriter.Flush w.recorded b st).1 = none →
      (BufioWriter.Flush w.recorded b st).2.1.buf = []) ∧
    (w.Reliable → (BufioWriter.Flush w.recorded b st).1 = none) := by
  by_cases h0 : b.buf.length = 0
  · have hf : BufioWriter.Flush w.recorded b st = (none, b, st) := by
      simp only [BufioWriter.Flush, hb, h0, if_true]
    rw [hf]
    exact ⟨rfl, hb.symm, fun _ => List.length_eq_zero.mp h0, fun _ => rfl⟩
  · rcases hw : w.Write b.buf st.1 with ⟨⟨n, err⟩, s1⟩
    have hrec : w.recorded.Write b.buf st = ((n, err), (s1, st.2 ++ b.buf.take n)) := by
      simp [IoWriter.recorded, hw]
    by_cases hn : n < b.buf.length ∧ err.isNone = true
    · have hf : BufioWriter.Flush w.recorded b st =
          (some ErrShortWrite, { buf := b.buf.drop n, err := some ErrShortWrite },
            (s1, st.2 ++ b.buf.take n)) := by
        simp only [BufioWriter.Flush, hb, h0, if_false, hrec, hn, and_self, if_true]
      rw [hf]
      refine ⟨by simp [csvStream], rfl, by simp, ?_⟩
      intro hr
      have := hr b.buf st.1
      rw [hw] at this
      simp only [Prod.mk.injEq] at this
      omega
    · cases err with
      | some e =>
        have hf : BufioWriter.Flush w.recorded b st =
            (some e, { buf := b.buf.drop n, err := some e }, (s1, st.2 ++ b.buf.take n)) := by
          simp only [BufioWriter.Flush, hb, h0, if_false, hrec, hn]
        rw [hf]
        refine ⟨by simp [csvStream], rfl, by simp, ?_⟩
        intro hr
        have := hr b.buf st.1
        rw [hw] at this
        simp at this
      | none =>
        have hge : b.buf.length ≤ n := by
          by_contra hlt
          exact hn ⟨by omega, rfl⟩
        have hf : BufioWriter.Flush w.recorded b st =
            (none, { buf := [], err := none }, (s1, st.2 ++ b.buf.take n)) := by
          simp only [BufioWriter.Flush, hb, h0, if_false, hrec, hn]
        rw [hf]
        simp [csvStream, List.take_of_length_le hge]

theorem WriteString_loop_spec (w : IoWriter ω) :
    ∀ (fuel : Nat) (str : GoString) (b : BufioWriter) (st : ω × GoString),
      csvStream (BufioWriter.WriteString.loop w.recorded fuel str b st).2.1
          (BufioWriter.WriteString.loop w.recorded fuel str b st).2.2 ++
        (BufioWriter.WriteString.loop w.recorded fuel str b st).1 = csvStream b st ++ str ∧
      (b.err = none → w.Reliable →
        (BufioWriter.WriteString.loop w.recorded fuel str b st).2.1.err = none) := by
  intro fuel
  induction fuel with
  | zero => intro str b st; exact ⟨rfl, fun h _ => h⟩
  | succ fuel ih =>
    intro str b st
    by_cases hc : b.Available < str.length ∧ b.err.isNone = true
    · have hb : b.err = none := by simpa using hc.2
      have hb1 : ({ b with buf := b.buf ++ str.take b.Available } : BufioWriter).err = none := hb
      have hF := Flush_spec w { b with buf := b.buf ++ str.take b.Available } st hb1
      rcases hfl : BufioWriter.Flush w.recorded { b with buf := b.buf ++ str.take b.Available } st
        with ⟨r, b1, s1⟩
      rw [hfl] at hF
      simp only at hF
      have hl : BufioWriter.WriteString.loop w.recorded (fuel + 1) str b st =
          BufioWriter.WriteString.loop w.recorded fuel (str.drop b.Available) b1 s1 := by
        simp only [BufioWriter.WriteString.loop, hc, and_self, if_true, hfl]
      rw [hl]
      obtain ⟨ih1, ih2⟩ := ih (str.drop b.Available) b1 s1
      refine ⟨?_, ?_⟩
      · rw [ih1, hF.1]
        simp [csvStream]
      · intro _ hr
        apply ih2 _ hr
        rw [← hF.2.1]
        exact hF.2.2.2 hr
    · have hl : BufioWriter.WriteString.loop w.recorded (fuel + 1) str b st = (str, b, st) := by
        simp only [BufioWriter.WriteString.loop, hc, if_false]
      rw [hl]
      exact ⟨rfl, fun h _ => h⟩

theorem Appends.step {w : IoWriter ω}
    {op : BufioWriter → ω × GoString → Option Error × BufioWriter × (ω × GoString)}
    {piece : GoString} (h : Appends w op piece) (b : BufioWriter) (st : ω × GoString)
    (hb : b.err = none) (r : Option Error) (b1 : BufioWriter) (s1 : ω × GoString)
    (heq : op b st = (r, b1, s1)) :
    (r = none → b1.err = none ∧ csvStream b1 s1 = csvStream b st ++ piece) ∧
    (w.Reliable → r = none) := by
  have := h b st hb
  rw [heq] at this
  exact this

theorem WriteString_appends (w : IoWriter ω) (str : GoString) :
    Appends w (BufioWriter.WriteString w.recorded str) str := by
  intro b st hb
  have hL := WriteString_loop_spec w (str.length + 2) str b st
  rcases hl : BufioWriter.WriteString.loop w.recorded (str.length + 2) str b st with ⟨str1, b1, s1⟩
  rw [hl] at hL
  simp only at hL
  cases he : b1.err with
  | some e =>
    have hf : BufioWriter.WriteString w.recorded str b st = (some e, b1, s1) := by
      simp only [BufioWriter.WriteString, hl, he]
    rw [hf]
    refine ⟨by simp, ?_⟩
    intro hr
    have := hL.2 hb hr
    rw [he] at this
    exact absurd this (by simp)
  | none =>
    have hf : BufioWriter.WriteString w.recorded str b st =
        (none, { b1 with buf := b1.buf ++ str1 }, s1) := by
      simp only [BufioWriter.WriteString, hl, he]
    rw [hf]
    refine ⟨fun _ => ⟨he, ?_⟩, fun _ => rfl⟩
    rw [← hL.1]
    simp [csvStream]

theorem WriteByte_appends (w : IoWriter ω) (c : Char) :
    Appends w (BufioWriter.WriteByte w.recorded c) [c] := by
  intro b st hb
  by_cases ha : b.Available ≤ 0
  · have hF := Flush_spec w b st hb
    rcases hfl : BufioWriter.Flush w.recorded b st with ⟨r, b1, s1⟩
    rw [hfl] at hF
    simp only at hF
    cases r with
    | some e =>
      have hf : BufioWriter.WriteByte w.recorded c b st = (b1.err, b1, s1) := by
        simp only [BufioWriter.WriteByte, hb, ha, if_true, hfl]
      rw [hf]
      refine ⟨?_, ?_⟩
      · intro h
        rw [← hF.2.1] at h
        exact absurd h (by simp)
      · intro hr
        exact absurd (hF.2.2.2 hr) (by simp)
    | none =>
      have hf : BufioWriter.WriteByte w.recorded c b st =
          (none, { b1 with buf := b1.buf ++ [c] }, s1) := by
        simp only [BufioWriter.WriteByte, hb, ha, if_true, hfl]
      rw [hf]
      refine ⟨fun _ => ⟨hF.2.1.symm, ?_⟩, fun _ => rfl⟩
      rw [← hF.1]
      simp [csvStream]
  · have hf : BufioWriter.WriteByte w.recorded c b st =
        (none, { b with buf := b.buf ++ [c] }, st) := by
      simp only [BufioWriter.WriteByte, hb, ha, if_false]
    rw [hf]
    exact ⟨fun _ => ⟨hb, by simp [csvStream]⟩, fun _ => rfl⟩

theorem csvQuote_append (a b : GoString) : csvQuote (a ++ b) = csvQuote a ++ csvQuote b := by
  induction a with
  | nil => rfl
  | cons c a ih =>
    simp only [List.cons_append, csvQuote]
    split <;> simp [ih]

theorem csvQuote_of_no_quote (a : GoString) (h : ∀ c ∈ a, c ≠ '"') : csvQuote a = a := by
  induction a with
  | nil => rfl
  | cons c a ih =>
    have hc := h c (List.mem_cons_self _ _)
    simp only [csvQuote, if_neg hc]
    rw [ih (fun x hx => h x (List.mem_cons_of_mem _ hx))]

theorem dropWhile_head_false {α : Type} (f : α → Bool) (l : List α) (c : α) (rest : List α)
    (h : l.dropWhile f = c :: rest) : f c = false := by
  induction l with
  | nil => simp at h
  | cons a l ih =>
    simp only [List.dropWhile_cons] at h
    split at h
    · exact ih h
    · rename_i hfa
      simp only [List.cons.injEq] at h
      rw [← h.1]
      simpa using hfa

theorem takeWhile_forall {α : Type} (f : α → Bool) (l : List α) :
    ∀ x ∈ l.takeWhile f, f x = true := by
  induction l with
  | nil => simp
  | cons a l ih =>
    intro x hx
    simp only [List.takeWhile_cons] at hx
    split at hx
    · rcases List.mem_cons.mp hx with h | h
      · subst h; assumption
      · exact ih x h
    · simp at hx

theorem csvWriteQuoted_appends (w : IoWriter ω) :
    ∀ (fuel : Nat) (field : GoString), field.length < fuel →
      Appends w (csvWriteQuoted w.recorded fuel field) (csvQuote field) := by
  intro fuel
  induction fuel with
  | zero => intro field h; omega
  | succ fuel ih =>
    intro field hlen b st hb
    by_cases h0 : 0 < field.length
    · have htd := List.takeWhile_append_dropWhile (fun c => !isQuoteSpecial c) field
      have htw : csvQuote (field.takeWhile (fun c => !isQuoteSpecial c)) =
          field.takeWhile (fun c => !isQuoteSpecial c) := by
        apply csvQuote_of_no_quote
        intro c hc h
        have := takeWhile_forall _ _ c hc
        subst h
        simp [isQuoteSpecial] at this
      rcases h1 : BufioWriter.WriteString w.recorded
        (field.takeWhile (fun c => !isQuoteSpecial c)) b st with ⟨r1, b1, s1⟩
      have hs1 := (WriteString_appends w _).step b st hb r1 b1 s1 h1
      cases r1 with
      | some e =>
        have hf : csvWriteQuoted w.recorded (fuel + 1) field b st = (some e, b1, s1) := by
          simp only [csvWriteQuoted, h0, if_true, h1]
        rw [hf]
        exact ⟨by simp, fun hr => absurd (hs1.2 hr) (by simp)⟩
      | none =>
        obtain ⟨hb1, hst1⟩ := hs1.1 rfl
        cases hd : field.dropWhile (fun c => !isQuoteSpecial c) with
        | nil =>
          have hf : csvWriteQuoted w.recorded (fuel + 1) field b st =
              csvWriteQuoted w.recorded fuel [] b1 s1 := by
            simp only [csvWriteQuoted, h0, if_true, h1, hd]
          have hq : csvQuote field = field.takeWhile (fun c => !isQuoteSpecial c) := by
            rw [hd, List.append_nil] at htd
            rw [htd] at htw
            rw [htw, htd]
          have hnil : csvWriteQuoted w.recorded fuel [] b1 s1 = (none, b1, s1) := by
            cases fuel <;> simp [csvWriteQuoted]
          rw [hf, hnil, hq]
          exact ⟨fun _ => ⟨hb1, hst1⟩, fun _ => rfl⟩
        | cons c rest =>
          have hc := dropWhile_head_false _ _ _ _ hd
          have hrest : rest.length < fuel := by
            have := congrArg List.length htd
            rw [hd] at this
            simp only [List.length_append, List.length_cons] at this
            omega
          have hq : csvQuote field = field.takeWhile (fun c => !isQuoteSpecial c) ++
              ((if c = '"' then ['"', '"'] else [c]) ++ csvQuote rest) := by
            conv_lhs => rw [← htd, hd, csvQuote_append, htw]
            simp only [csvQuote]
            split <;> simp
          have hspecial : c = '"' ∨ c = '\r' ∨ c = '\n' := by
            have hc1 : ¬c = '"' → ¬c = '\r' → c = '\n' := by simpa [isQuoteSpecial] using hc
            by_cases q1 : c = '"'
            · exact Or.inl q1
            · by_cases q2 : c = '\r'
              · exact Or.inr (Or.inl q2)
              · exact Or.inr (Or.inr (hc1 q1 q2))
          have hop : Appends w (fun b st =>
              if c = '"' then BufioWriter.WriteString w.recorded ['"', '"'] b st
              else if c = '\r' then BufioWriter.WriteByte w.recorded '\r' b st
              else if c = '\n' then BufioWriter.WriteByte w.recorded '\n' b st
              else (none, b, st)) (if c = '"' then ['"', '"'] else [c]) := by
            rcases hspecial with h | h | h
            · subst h
              simpa using WriteString_appends w ['"', '"']
            · subst h
              simpa using WriteByte_appends w '\r'
            · subst h
              simpa using WriteByte_appends w '\n'
          rcases h2 : (if c = '"' then BufioWriter.WriteString w.recorded ['"', '"'] b1 s1
              else if c = '\r' then BufioWriter.WriteByte w.recorded '\r' b1 s1
              else if c = '\n' then BufioWriter.WriteByte w.recorded '\n' b1 s1
              else (none, b1, s1)) with ⟨r2, b2, s2⟩
          have hs2 := hop.step b1 s1 hb1 r2 b2 s2 h2
          cases r2 with
          | some e =>
            have hf : csvWriteQuoted w.recorded (fuel + 1) field b st = (some e, b2, s2) := by
              simp only [csvWriteQuoted, h0, if_true, h1, hd, h2]
            rw [hf]
            exact ⟨by simp, fun hr => absurd (hs2.2 hr) (by simp)⟩
          | none =>
            obtain ⟨hb2, hst2⟩ := hs2.1 rfl
            have hf : csvWriteQuoted w.recorded (fuel + 1) field b st =
                csvWriteQuoted w.recorded fuel rest b2 s2 := by
              simp only [csvWriteQuoted, h0, if_true, h1, hd, h2]
            rw [hf, hq]
            have hrec := ih rest hrest b2 s2 hb2
            refine ⟨fun hr => ⟨(hrec.1 hr).1, ?_⟩, hrec.2⟩
            rw [(hrec.1 hr).2, hst2, hst1]
            simp
    · have hnil : field = [] := List.length_eq_zero.mp (by omega)
      subst hnil
      have hf : csvWriteQuoted w.recorded (fuel + 1) [] b st = (none, b, st) := by
        simp [csvWriteQuoted]
      rw [hf]
      exact ⟨fun _ => ⟨hb, by simp [csvQuote]⟩, fun _ => rfl⟩

theorem csvFieldsFrom_succ (n : Nat) (record : List GoString) :
    csvFieldsFrom (n + 1) record = csvFieldsFrom 1 record := by
  induction record generalizing n with
  | nil => rfl
  | cons f rest ih => simp only [csvFieldsFrom, Nat.zero_lt_succ, if_true, ih (n + 1), ih 1]

theorem csvFields_eq_from (record : List GoString) : csvFields record = csvFieldsFrom 0 record := by
  induction record with
  | nil => rfl
  | cons f rest ih =>
    cases rest with
    | nil => simp [csvFields, csvFieldsFrom]
    | cons g rest =>
      simp only [csvFields] at ih ⊢
      rw [ih]
      simp only [csvFieldsFrom, Nat.lt_irrefl, if_false, List.nil_append, Nat.zero_lt_succ,
        if_true, List.append_assoc, List.singleton_append, List.cons_append]
      rw [csvFieldsFrom_succ 1, csvFieldsFrom_succ 0]

theorem csvWriteFields_appends (w : IoWriter ω) :
    ∀ (record : List GoString) (n : Nat),
      Appends w (csvWriteFields w.recorded n record) (csvFieldsFrom n record) := by
  intro record
  induction record with
  | nil =>
    intro n b st hb
    have hf : csvWriteFields w.recorded n [] b st = (none, b, st) := by simp [csvWriteFields]
    rw [hf]
    exact ⟨fun _ => ⟨hb, by simp [csvFieldsFrom]⟩, fun _ => rfl⟩
  | cons field rest ih =>
    intro n b st hb
    have hop0 : Appends w (fun b st =>
        if 0 < n then BufioWriter.WriteByte w.recorded ',' b st else (none, b, st))
        (if 0 < n then [','] else []) := by
      by_cases hn : 0 < n
      · simpa [hn] using WriteByte_appends w ','
      · simp only [hn, if_false]
        intro b st hb
        exact ⟨fun _ => ⟨hb, by simp⟩, fun _ => rfl⟩
    rcases h0 : (if 0 < n then BufioWriter.WriteByte w.recorded ',' b st else (none, b, st))
      with ⟨r0, b1, s1⟩
    have hs0 := hop0.step b st hb r0 b1 s1 h0
    cases r0 with
    | some e =>
      have hf : csvWriteFields w.recorded n (field :: rest) b st = (some e, b1, s1) := by
        simp only [csvWriteFields, h0]
      rw [hf]
      exact ⟨by simp, fun hr => absurd (hs0.2 hr) (by simp)⟩
    | none =>
      obtain ⟨hb1, hst1⟩ := hs0.1 rfl
      by_cases hq : fieldNeedsQuotes field = false
      · have hcf : csvField field = field := by simp [csvField, hq]
        rcases h1 : BufioWriter.WriteString w.recorded field b1 s1 with ⟨r1, b2, s2⟩
        have hs1 := (WriteString_appends w field).step b1 s1 hb1 r1 b2 s2 h1
        cases r1 with
        | some e =>
          have hf : csvWriteFields w.recorded n (field :: rest) b st = (some e, b2, s2) := by
            simp only [csvWriteFields, h0, hq, if_true, h1]
          rw [hf]
          exact ⟨by simp, fun hr => absurd (hs1.2 hr) (by simp)⟩
        | none =>
          obtain ⟨hb2, hst2⟩ := hs1.1 rfl
          have hf : csvWriteFields w.recorded n (field :: rest) b st =
              csvWriteFields w.recorded (n + 1) rest b2 s2 := by
            simp only [csvWriteFields, h0, hq, if_true, h1]
          rw [hf]
          have hrec := ih (n + 1) b2 s2 hb2
          refine ⟨fun hr => ⟨(hrec.1 hr).1, ?_⟩, hrec.2⟩
          rw [(hrec.1 hr).2, hst2, hst1]
          simp [csvFieldsFrom, hcf]
      · have hq1 : fieldNeedsQuotes field = true := by simpa using hq
        have hcf : csvField field = '"' :: csvQuote field ++ ['"'] := by simp [csvField, hq1]
        rcases h1 : BufioWriter.WriteByte w.recorded '"' b1 s1 with ⟨r1, b2, s2⟩
        have hs1 := (WriteByte_appends w '"').step b1 s1 hb1 r1 b2 s2 h1
        cases r1 with
        | some e =>
          have hf : csvWriteFields w.recorded n (field :: rest) b st = (some e, b2, s2) := by
            simp only [csvWriteFields, h0, hq1, reduceCtorEq, if_false, h1]
          rw [hf]
          exact ⟨by simp, fun hr => absurd (hs1.2 hr) (by simp)⟩
        | none =>
          obtain ⟨hb2, hst2⟩ := hs1.1 rfl
          rcases h2 : csvWriteQuoted w.recorded (field.length + 1) field b2 s2 with ⟨r2, b3, s3⟩
          have hs2 := (csvWriteQuoted_appends w (field.length + 1) field (by omega)).step
            b2 s2 hb2 r2 b3 s3 h2
          cases r2 with
          | some e =>
            have hf : csvWriteFields w.recorded n (field :: rest) b st = (some e, b3, s3) := by
              simp only [csvWriteFields, h0, hq1, reduceCtorEq, if_false, h1, h2]
            rw [hf]
            exact ⟨by simp, fun hr => absurd (hs2.2 hr) (by simp)⟩
          | none =>
            obtain ⟨hb3, hst3⟩ := hs2.1 rfl
            rcases h3 : BufioWriter.WriteByte w.recorded '"' b3 s3 with ⟨r3, b4, s4⟩
            have hs3 := (WriteByte_appends w '"').step b3 s3 hb3 r3 b4 s4 h3
            cases r3 with
            | some e =>
              have hf : csvWriteFields w.recorded n (field :: rest) b st = (some e, b4, s4) := by
                simp only [csvWriteFields, h0, hq1, reduceCtorEq, if_false, h1, h2, h3]
              rw [hf]
              exact ⟨by simp, fun hr => absurd (hs3.2 hr) (by simp)⟩
            | none =>
              obtain ⟨hb4, hst4⟩ := hs3.1 rfl
              have hf : csvWriteFields w.recorded n (field :: rest) b st =
                  csvWriteFields w.recorded (n + 1) rest b4 s4 := by
                simp only [csvWriteFields, h0, hq1, reduceCtorEq, if_false, h1, h2, h3]
              rw [hf]
              have hrec := ih (n + 1) b4 s4 hb4
              refine ⟨fun hr => ⟨(hrec.1 hr).1, ?_⟩, hrec.2⟩
              rw [(hrec.1 hr).2, hst4, hst3, hst2, hst1]
              simp [csvFieldsFrom, hcf]

theorem csvWrite_appends (w : IoWriter ω) (record : List GoString) :
    Appends w (csvWrite w.recorded record) (csvRecord record) := by
  intro b st hb
  rcases h0 : csvWriteFields w.recorded 0 record b st with ⟨r0, b1, s1⟩
  have hs0 := (csvWriteFields_appends w record 0).step b st hb r0 b1 s1 h0
  cases r0 with
  | some e =>
    have hf : csvWrite w.recorded record b st = (some e, b1, s1) := by
      simp only [csvWrite, h0]
    rw [hf]
    exact ⟨by simp, fun hr => absurd (hs0.2 hr) (by simp)⟩
  | none =>
    obtain ⟨hb1, hst1⟩ := hs0.1 rfl
    have hf : csvWrite w.recorded record b st = BufioWriter.WriteByte w.recorded '\n' b1 s1 := by
      simp only [csvWrite, h0]
    rw [hf]
    have hrec := WriteByte_appends w '\n' b1 s1 hb1
    refine ⟨fun hr => ⟨(hrec.1 hr).1, ?_⟩, hrec.2⟩
    rw [(hrec.1 hr).2, hst1, csvRecord, csvFields_eq_from]
    simp

theorem Write_loop_appends (w : IoWriter ω) (t : TablespaceTuples) :
    Appends w (TablespaceTuples.Write.loop w.recorded t) (csvText t) := by
  induction t with
  | nil =>
    intro b st hb
    have hf : TablespaceTuples.Write.loop w.recorded [] b st = (none, b, st) := rfl
    rw [hf]
    exact ⟨fun _ => ⟨hb, by simp [csvText]⟩, fun _ => rfl⟩
  | cons tablespace rest ih =>
    intro b st hb
    rcases h0 : csvWrite w.recorded tablespace.line b st with ⟨r0, b1, s1⟩
    have hs0 := (csvWrite_appends w tablespace.line).step b st hb r0 b1 s1 h0
    cases r0 with
    | some e =>
      have hf : TablespaceTuples.Write.loop w.recorded (tablespace :: rest) b st =
          (some (Error.Wrapf e "write record %q" [Arg.strs tablespace.line]), b1, s1) := by
        simp only [TablespaceTuples.Write.loop, h0]
      rw [hf]
      exact ⟨by simp, fun hr => absurd (hs0.2 hr) (by simp)⟩
    | none =>
      obtain ⟨hb1, hst1⟩ := hs0.1 rfl
      have hf : TablespaceTuples.Write.loop w.recorded (tablespace :: rest) b st =
          TablespaceTuples.Write.loop w.recorded rest b1 s1 := by
        simp only [TablespaceTuples.Write.loop, h0]
      rw [hf]
      have hrec := ih b1 s1 hb1
      refine ⟨fun hr => ⟨(hrec.1 hr).1, ?_⟩, hrec.2⟩
      rw [(hrec.1 hr).2, hst1]
      simp [csvText]

/-- What `TablespaceTuples.Write` leaves behind when it returns nil: the bytes
accepted by the underlying writer followed by the bytes still buffered are the
CSV text of the tuples; if the buffered writer has no sticky error, nothing is
still buffered; and on a reliable writer it returns nil with no sticky error. -/
theorem Write_run_spec (w : IoWriter ω) (t : TablespaceTuples) (s : ω) :
    ((TablespaceTuples.Write.run w.recorded t (s, [])).1 = none →
      (TablespaceTuples.Write.run w.recorded t (s, [])).2.2.2 ++
          (TablespaceTuples.Write.run w.recorded t (s, [])).2.1.buf = csvText t ∧
      ((TablespaceTuples.Write.run w.recorded t (s, [])).2.1.err = none →
        (TablespaceTuples.Write.run w.recorded t (s, [])).2.1.buf = [])) ∧
    (w.Reliable → (TablespaceTuples.Write.run w.recorded t (s, [])).1 = none ∧
      (TablespaceTuples.Write.run w.recorded t (s, [])).2.1.err = none) := by
  have hb0 : ({ buf := [], err := none } : BufioWriter).err = none := rfl
  rcases h0 : TablespaceTuples.Write.loop w.recorded t { buf := [], err := none } (s, [])
    with ⟨r0, b1, s1⟩
  have hs0 := (Write_loop_appends w t).step _ _ hb0 r0 b1 s1 h0
  cases r0 with
  | some e =>
    have hf : TablespaceTuples.Write.run w.recorded t (s, []) = (some e, b1, s1) := by
      simp only [TablespaceTuples.Write.run, h0]
    rw [hf]
    exact ⟨by simp, fun hr => absurd (hs0.2 hr) (by simp)⟩
  | none =>
    obtain ⟨hb1, hst1⟩ := hs0.1 rfl
    have hF := Flush_spec w b1 s1 hb1
    rcases h1 : BufioWriter.Flush w.recorded b1 s1 with ⟨r1, b2, s2⟩
    rw [h1] at hF
    simp only at hF
    have hf : TablespaceTuples.Write.run w.recorded t (s, []) = (none, b2, s2) := by
      simp only [TablespaceTuples.Write.run, h0, h1]
    rw [hf]
    refine ⟨fun _ => ⟨?_, ?_⟩, fun hr => ⟨rfl, ?_⟩⟩
    · have := hF.1
      simp only [csvStream] at this hst1
      rw [this, hst1]
      simp
    · intro he
      exact hF.2.2.1 (hF.2.1.trans he)
    · exact hF.2.1.symm.trans (hF.2.2.2 hr)

end Writer

/-! ## The CSV reader -/

theorem CrlfSafe.nil : CrlfSafe [] := ⟨rfl, by simp⟩

theorem CrlfSafe.tail {c : Char} {s : GoString} (h : CrlfSafe (c :: s)) : CrlfSafe s := by
  obtain ⟨h1, h2⟩ := h
  refine ⟨?_, ?_⟩
  · simp only [hasCRLF, Bool.or_eq_false_iff] at h1
    exact h1.2
  · cases s with
    | nil => simp
    | cons d s => simpa [List.getLast?_cons_cons] using h2

theorem csvNormalize_cons_ne (c : Char) (rest : GoString) (hc : c ≠ '\r') :
    csvNormalize (c :: rest) = c :: csvNormalize rest := by
  rw [csvNormalize]
  simp [hc]

theorem csvNormalize_cons_cr (d : Char) (rest : GoString) (hd : d ≠ '\n') :
    csvNormalize ('\r' :: d :: rest) = '\r' :: csvNormalize (d :: rest) := by
  rw [csvNormalize]
  simp [hd]

theorem csvNormalize_append (a b : GoString) (h : CrlfSafe a) :
    csvNormalize (a ++ b) = a ++ csvNormalize b := by
  induction a with
  | nil => rfl
  | cons c a ih =>
    have ih1 := ih h.tail
    by_cases hc : c = '\r'
    · subst hc
      cases a with
      | nil => exact absurd rfl h.2
      | cons d a =>
        have hd : d ≠ '\n' := by
          intro hd
          have := h.1
          simp [hasCRLF, hd] at this
        rw [List.cons_append, List.cons_append, csvNormalize_cons_cr _ _ hd,
          ← List.cons_append, ih1]
        rfl
    · rw [List.cons_append, csvNormalize_cons_ne _ _ hc, ih1]
      rfl

theorem CrlfSafe.append {a b : GoString} (ha : CrlfSafe a) (hb : CrlfSafe b) :
    CrlfSafe (a ++ b) := by
  induction a with
  | nil => exact hb
  | cons c a ih =>
    have ih1 := ih ha.tail
    have hfirst : ¬ (c = '\r' ∧ (a ++ b).head? = some '\n') := by
      cases a with
      | nil =>
        intro hc
        exact ha.2 (by simp [hc.1])
      | cons d a =>
        have := ha.1
        simp only [hasCRLF, Bool.or_eq_false_iff, decide_eq_false_iff_not] at this
        simpa using this.1
    refine ⟨?_, ?_⟩
    · show (decide (c = '\r' ∧ (a ++ b).head? = some '\n') || hasCRLF (a ++ b)) = false
      rw [ih1.1]
      simpa using hfirst
    · rw [List.cons_append]
      cases hab : a ++ b with
      | nil =>
        have ha' : a = [] := (List.append_eq_nil.mp hab).1
        subst ha'
        exact ha.2
      | cons d r =>
        rw [List.getLast?_cons_cons, ← hab]
        exact ih1.2

theorem CrlfSafe.of_no_cr (s : GoString) (h : ∀ c ∈ s, c ≠ '\r') : CrlfSafe s := by
  induction s with
  | nil => exact CrlfSafe.nil
  | cons c s ih =>
    have hc := h c (List.mem_cons_self _ _)
    have ih1 := ih (fun x hx => h x (List.mem_cons_of_mem _ hx))
    refine ⟨by simp [hasCRLF, hc, ih1.1], ?_⟩
    cases s with
    | nil => simpa using hc
    | cons d s => simpa [List.getLast?_cons_cons] using ih1.2

theorem hasCRLF_csvQuote (f : GoString) (h : hasCRLF f = false) :
    hasCRLF (csvQuote f ++ ['"']) = false := by
  induction f with
  | nil => decide
  | cons c f ih =>
    simp only [hasCRLF, Bool.or_eq_false_iff] at h
    have ih1 := ih h.2
    by_cases hc : c = '"'
    · subst hc
      simp [csvQuote, hasCRLF, ih1]
    · simp only [csvQuote, if_neg hc, List.cons_append, hasCRLF, Bool.or_eq_false_iff, ih1,
        and_true]
      cases f with
      | nil => simp [csvQuote]
      | cons d f =>
        have h1 := h.1
        simp only [List.head?_cons, Option.some.injEq, decide_eq_false_iff_not, not_and] at h1
        by_cases hd : d = '"'
        · subst hd
          simp [csvQuote]
        · simp only [csvQuote, if_neg hd, List.cons_append, List.head?_cons, Option.some.injEq,
            decide_eq_false_iff_not, not_and]
          exact h1

theorem fieldNeedsQuotes_false (f : GoString) (h : fieldNeedsQuotes f = false) :
    ∀ c ∈ f, c ≠ ',' ∧ c ≠ '"' ∧ c ≠ '\r' ∧ c ≠ '\n' := by
  cases f with
  | nil => simp
  | cons r1 f =>
    simp only [fieldNeedsQuotes] at h
    split at h
    · simp at h
    · rename_i hn
      simp only [not_or] at hn
      intro c hc
      refine ⟨?_, ?_, ?_, ?_⟩ <;> intro hcc <;> subst hcc
      · exact hn.2.1 hc
      · exact hn.2.2.1 hc
      · exact hn.2.2.2.1 hc
      · exact hn.2.2.2.2 hc

theorem crlfSafe_of_csvField (f : GoString) (h : hasCRLF f = false) : CrlfSafe (csvField f) := by
  unfold csvField
  by_cases hq : fieldNeedsQuotes f = true
  · rw [if_pos hq]
    refine ⟨?_, ?_⟩
    · have := hasCRLF_csvQuote f h
      simp [hasCRLF, this]
    · rw [List.getLast?_concat]
      simp
  · rw [if_neg hq]
    apply CrlfSafe.of_no_cr
    intro c hc
    exact (fieldNeedsQuotes_false f (by simpa using hq) c hc).2.2.1

theorem csvUnquotedField_spec (f tail : GoString) (sep : Char) (hsep : sep = ',' ∨ sep = '\n')
    (hf : ∀ c ∈ f, c ≠ ',' ∧ c ≠ '"' ∧ c ≠ '\r' ∧ c ≠ '\n') :
    ∀ acc, csvUnquotedField (f ++ sep :: tail) acc =
      Except.ok (acc ++ f, decide (sep = ','), tail) := by
  induction f with
  | nil =>
    intro acc
    rcases hsep with h | h <;> subst h <;> simp [csvUnquotedField]
  | cons c f ih =>
    intro acc
    obtain ⟨h1, h2, _, h4⟩ := hf c (List.mem_cons_self _ _)
    rw [List.cons_append, csvUnquotedField, if_neg h1, if_neg h4, if_neg h2,
      ih (fun x hx => hf x (List.mem_cons_of_mem _ hx))]
    simp

theorem csvQuotedField_cons_ne (c : Char) (rest acc : GoString) (hc : c ≠ '"') :
    csvQuotedField (c :: rest) acc = csvQuotedField rest (acc ++ [c]) := by
  conv_lhs => unfold csvQuotedField
  simp [hc]

theorem csvQuotedField_quote_quote (rest acc : GoString) :
    csvQuotedField ('"' :: '"' :: rest) acc = csvQuotedField rest (acc ++ ['"']) := by
  conv_lhs => unfold csvQuotedField
  simp

theorem csvQuotedField_quote_comma (rest acc : GoString) :
    csvQuotedField ('"' :: ',' :: rest) acc = Except.ok (acc, true, rest) := by
  conv_lhs => unfold csvQuotedField
  simp

theorem csvQuotedField_spec (f tail : GoString) :
    ∀ acc, csvQuotedField (csvQuote f ++ '"' :: ',' :: tail) acc =
      Except.ok (acc ++ f, true, tail) := by
  induction f with
  | nil =>
    intro acc
    show csvQuotedField ('"' :: ',' :: tail) acc = _
    rw [csvQuotedField_quote_comma]
    simp
  | cons c f ih =>
    intro acc
    by_cases hc : c = '"'
    · subst hc
      have : csvQuote ('"' :: f) ++ '"' :: ',' :: tail =
          '"' :: '"' :: (csvQuote f ++ '"' :: ',' :: tail) := by simp [csvQuote]
      rw [this, csvQuotedField_quote_quote, ih]
      simp
    · have : csvQuote (c :: f) ++ '"' :: ',' :: tail =
          c :: (csvQuote f ++ '"' :: ',' :: tail) := by simp [csvQuote, hc]
      rw [this, csvQuotedField_cons_ne _ _ _ hc, ih]
      simp

theorem csvParseFields_succ (fuel : Nat) (input : GoString) :
    csvParseFields (fuel + 1) input =
      match csvNextField input with
      | Except.error e => Except.error e
      | Except.ok (f, true, rest) =>
        match csvParseFields fuel rest with
        | Except.error e => Except.error e
        | Except.ok (fs, rest1) => Except.ok (f :: fs, rest1)
      | Except.ok (f, false, rest) => Except.ok ([f], rest) := by
  cases input <;> rfl

/-- A field written by `csv.Writer` and followed by a comma is read back as
written: quoted fields always, unquoted ones because they hold no special
byte. -/
theorem csvNextField_csvField (f tail : GoString) :
    csvNextField (csvField f ++ ',' :: tail) = Except.ok (f, true, tail) := by
  unfold csvField
  by_cases hq : fieldNeedsQuotes f = true
  · rw [if_pos hq]
    have : '"' :: csvQuote f ++ ['"'] ++ ',' :: tail =
        '"' :: (csvQuote f ++ '"' :: ',' :: tail) := by simp
    rw [this]
    simp only [csvNextField, if_true]
    rw [csvQuotedField_spec]
    rfl
  · rw [if_neg hq]
    have hf := fieldNeedsQuotes_false f (by simpa using hq)
    have hu := csvUnquotedField_spec f tail ',' (Or.inl rfl) hf []
    cases f with
    | nil => simp [csvNextField, csvUnquotedField]
    | cons c f =>
      have hc := (hf c (List.mem_cons_self _ _)).2.1
      simp only [List.cons_append, csvNextField, if_neg hc]
      simpa using hu

theorem Itoa_no_special (i : Int) : ∀ c ∈ Itoa i, c ≠ ',' ∧ c ≠ '"' ∧ c ≠ '\r' ∧ c ≠ '\n' := by
  intro c hc
  rcases Itoa_chars i c hc with h | h
  · subst h; decide
  · refine ⟨?_, ?_, ?_, ?_⟩ <;> intro hcc <;> subst hcc <;> exact absurd h (by decide)

theorem fieldNeedsQuotes_Itoa (i : Int) : fieldNeedsQuotes (Itoa i) = false := by
  have hs := Itoa_no_special i
  have hch := Itoa_chars i
  cases hi : Itoa i with
  | nil => rfl
  | cons c cs =>
    rw [hi] at hs hch
    have hc := hch c (List.mem_cons_self _ _)
    have hne : c :: cs ≠ ['\\', '.'] := by
      intro h
      simp only [List.cons.injEq] at h
      rcases hc with hc | hc
      · rw [h.1] at hc; exact absurd hc (by decide)
      · rw [h.1] at hc; exact absurd hc (by decide)
    have hsp : unicodeIsSpace (DecodeRuneInString (c :: cs)) = false := by
      rcases hc with hc | hc
      · subst hc; rfl
      · obtain ⟨h1, h2⟩ := hc
        have h1' : 48 ≤ c.toNat := h1
        have h2' : c.toNat ≤ 57 := h2
        have hdec : DecodeRuneInString (c :: cs) = c.toNat := by
          simp only [DecodeRuneInString]
          rw [if_pos (by omega)]
        rw [hdec]
        simp only [unicodeIsSpace, decide_eq_false_iff_not, Bool.decide_or, Bool.decide_and,
          Bool.or_eq_false_iff, Bool.and_eq_false_imp, decide_eq_true_eq]
        omega
    simp only [fieldNeedsQuotes, hne, false_or]
    rw [if_neg]
    · exact hsp
    · simp only [not_or]
      exact ⟨fun h => (hs _ h).1 rfl, fun h => (hs _ h).2.1 rfl, fun h => (hs _ h).2.2.1 rfl,
        fun h => (hs _ h).2.2.2 rfl⟩

theorem csvField_Itoa (i : Int) : csvField (Itoa i) = Itoa i := by
  simp [csvField, fieldNeedsQuotes_Itoa]

/-- The last field of a line of `TablespaceTuples.Write`, an integer followed
by the newline, is read back as written and ends the record. -/
theorem csvNextField_Itoa_newline (i : Int) (tail : GoString) :
    csvNextField (Itoa i ++ '\n' :: tail) = Except.ok (Itoa i, false, tail) := by
  have hf := Itoa_no_special i
  have hu := csvUnquotedField_spec (Itoa i) tail '\n' (Or.inr rfl) hf []
  cases hi : Itoa i with
  | nil => exact absurd hi (Itoa_ne_nil i)
  | cons c cs =>
    rw [hi] at hu hf
    have hc := (hf c (List.mem_cons_self _ _)).2.1
    simp only [List.cons_append, csvNextField, if_neg hc]
    simpa using hu

/-- The text of the line of a tuple. -/
theorem csvRecord_line (t : Tablespace) :
    csvRecord t.line = Itoa t.DbId ++ ',' :: (Itoa t.Oid ++ ',' :: (csvField t.Name ++
      ',' :: (csvField t.Location ++ ',' :: (Itoa t.UserDefined ++ ['\n'])))) := by
  simp [csvRecord, Tablespace.line, csvFields, csvField_Itoa]

theorem csvParseFields_line (t : Tablespace) (tail : GoString) (fuel : Nat) (h : 5 ≤ fuel) :
    csvParseFields fuel (csvRecord t.line ++ tail) = Except.ok (t.line, tail) := by
  obtain ⟨k, rfl⟩ : ∃ k, fuel = k + 5 := ⟨fuel - 5, by omega⟩
  have h1 := csvNextField_csvField (Itoa t.DbId)
  have h2 := csvNextField_csvField (Itoa t.Oid)
  simp only [csvField_Itoa] at h1 h2
  rw [csvRecord_line]
  simp only [List.append_assoc, List.cons_append, List.nil_append]
  rw [csvParseFields_succ, h1]
  simp only
  rw [csvParseFields_succ, h2]
  simp only
  rw [csvParseFields_succ, csvNextField_csvField]
  simp only
  rw [csvParseFields_succ, csvNextField_csvField]
  simp only
  rw [csvParseFields_succ, csvNextField_Itoa_newline]
  rfl

theorem csvReadRecords_succ (fuel : Nat) (fieldsPerRecord : Option Nat) (input : GoString)
    (hne : input ≠ []) (hhead : input.head? ≠ some '\n') :
    csvReadRecords (fuel + 1) fieldsPerRecord input =
      match csvParseFields (input.length + 1) input with
      | Except.error e => Except.error e
      | Except.ok (record, rest1) =>
        if fieldsPerRecord.isSome = true ∧ fieldsPerRecord ≠ some record.length then
          Except.error CsvError.ErrFieldCount
        else
          match csvReadRecords fuel (some record.length) rest1 with
          | Except.error e => Except.error e
          | Except.ok records => Except.ok (record :: records) := by
  cases input with
  | nil => exact absurd rfl hne
  | cons c rest =>
    have hc : c ≠ '\n' := by simpa using hhead
    simp only [csvReadRecords, if_neg hc]

theorem csvRecord_line_head (t : Tablespace) (tail : GoString) :
    csvRecord t.line ++ tail ≠ [] ∧ (csvRecord t.line ++ tail).head? ≠ some '\n' ∧
      5 ≤ (csvRecord t.line ++ tail).length := by
  rw [csvRecord_line]
  have hs := Itoa_no_special t.DbId
  cases hi : Itoa t.DbId with
  | nil => exact absurd hi (Itoa_ne_nil _)
  | cons c cs =>
    rw [hi] at hs
    have hc := (hs c (List.mem_cons_self _ _)).2.2.2
    refine ⟨by simp, by simpa using hc, ?_⟩
    simp only [List.cons_append, List.length_cons, List.length_append, List.length_nil]
    omega

theorem csvReadRecords_csvText (T : TablespaceTuples) :
    ∀ (fuel : Nat) (fieldsPerRecord : Option Nat), T.length < fuel →
      (fieldsPerRecord = none ∨ fieldsPerRecord = some 5) →
      csvReadRecords fuel fieldsPerRecord (csvText T) =
        Except.ok (T.map Tablespace.line) := by
  induction T with
  | nil =>
    intro fuel fpr hfuel _
    cases fuel with
    | zero => simp at hfuel
    | succ k => rfl
  | cons t rest ih =>
    intro fuel fpr hfuel hfpr
    cases fuel with
    | zero => simp at hfuel
    | succ k =>
      have htext : csvText (t :: rest) = csvRecord t.line ++ csvText rest := by
        simp [csvText]
      obtain ⟨hne, hhead, hlen⟩ := csvRecord_line_head t (csvText rest)
      rw [htext, csvReadRecords_succ k fpr _ hne hhead,
        csvParseFields_line t (csvText rest) _ (by omega)]
      have hcount : t.line.length = 5 := rfl
      have hcheck : ¬ (fpr.isSome = true ∧ fpr ≠ some t.line.length) := by
        rcases hfpr with h | h <;> subst h <;> simp [hcount]
      rw [hcount] at hcheck
      simp only [hcount]
      rw [ih k (some 5) (by simpa using hfuel) (Or.inr rfl), if_neg hcheck]
      rfl

theorem crlfSafe_of_line (t : Tablespace) (hn : hasCRLF t.Name = false)
    (hl : hasCRLF t.Location = false) : CrlfSafe (csvRecord t.line) := by
  rw [csvRecord_line]
  have hI := fun i => CrlfSafe.of_no_cr (Itoa i) (fun c hc => (Itoa_no_special i c hc).2.2.1)
  have hcomma : CrlfSafe [','] := CrlfSafe.of_no_cr _ (by simp)
  have hnl : CrlfSafe ['\n'] := CrlfSafe.of_no_cr _ (by simp)
  have key : ∀ (a b : GoString), CrlfSafe a → CrlfSafe b → CrlfSafe (a ++ ',' :: b) := by
    intro a b ha hb
    have := ha.append (hcomma.append hb)
    simpa using this
  exact key _ _ (hI _) (key _ _ (hI _) (key _ _ (crlfSafe_of_csvField _ hn)
    (key _ _ (crlfSafe_of_csvField _ hl) ((hI _).append hnl))))

theorem csvNormalize_csvText (T : TablespaceTuples) (h : CrlfFree T) :
    csvNormalize (csvText T) = csvText T := by
  induction T with
  | nil => rfl
  | cons t rest ih =>
    have htext : csvText (t :: rest) = csvRecord t.line ++ csvText rest := by
      simp [csvText]
    have ht := h t (List.mem_cons_self _ _)
    rw [htext, csvNormalize_append _ _ (crlfSafe_of_line t ht.1 ht.2),
      ih (fun x hx => h x (List.mem_cons_of_mem _ hx))]

theorem length_le_csvText (T : TablespaceTuples) : T.length ≤ (csvText T).length := by
  induction T with
  | nil => simp
  | cons t rest ih =>
    have htext : csvText (t :: rest) = csvRecord t.line ++ csvText rest := by
      simp [csvText]
    have := (csvRecord_line_head t []).2.2
    rw [htext]
    simp only [List.append_nil] at this
    simp only [List.length_cons, List.length_append]
    omega

theorem ofRecord_line (t : Tablespace) : Tablespace.ofRecord t.line = some t := by
  simp [Tablespace.ofRecord, Tablespace.line, Atoi_Itoa]

theorem mapM_ofRecord_line (T : TablespaceTuples) :
    (T.map Tablespace.line).mapM Tablespace.ofRecord = some T := by
  induction T with
  | nil => rfl
  | cons t rest ih =>
    simp only [List.map_cons, List.mapM_cons, ofRecord_line, ih]
    rfl

/-- Re-parsing the CSV text of a sequence whose names and locations are free
of `\r\n` yields the sequence. -/
theorem parseTablespaceTuples_csvText (T : TablespaceTuples) (h : CrlfFree T) :
    parseTablespaceTuples (csvText T) = some T := by
  unfold parseTablespaceTuples csvReadAll
  rw [csvNormalize_csvText T h,
    csvReadRecords_csvText T _ none (by have := length_le_csvText T; omega) (Or.inl rfl)]
  exact mapM_ofRecord_line T

/-! ## Claims on the mapping file -/

theorem formatNat_head_zero (n : Nat) (h : (formatNat n).head? = some '0') :
    formatNat n = ['0'] := by
  by_cases hn : n = 0
  · subst hn; rfl
  · obtain ⟨c, cs, hf, _, hc⟩ := formatBits_head (n + 1) n [] (by omega) hn
    unfold formatNat at h
    rw [hf] at h
    simp only [List.head?_cons, Option.some.injEq] at h
    exact absurd h hc

theorem Itoa_isDecimal (i : Int) : IsDecimal (Itoa i) := by
  cases i with
  | ofNat n =>
    exact ⟨formatNat n, Or.inl rfl, formatNat_ne_nil n, formatNat_digits n, formatNat_head_zero n⟩
  | negSucc n =>
    exact ⟨formatNat (n + 1), Or.inr rfl, formatNat_ne_nil _, formatNat_digits _,
      formatNat_head_zero _⟩

section WriterClaims

variable {ω : Type}

/-- C2, as stated, fails: for a tuple whose name is `ts\r\na`, `Write` to an
in-memory writer returns nil and produces the text `1,16385,"ts\r\na",/tsa,1`
(the name quoted, its bytes unchanged), and the reader gives back the name
`ts\na`: it removes the carriage return before the newline. -/
theorem Write_then_parse_loses_carriage_return :
    (TablespaceTuples.Write memWriter crlfTuples []).1.isNone = true ∧
    (TablespaceTuples.Write memWriter crlfTuples []).2 =
      "1,16385,\"ts\r\na\",/tsa,1\n".toList ∧
    parseTablespaceTuples (TablespaceTuples.Write memWriter crlfTuples []).2 =
      some [⟨1, 16385, "ts\na".toList, "/tsa".toList, 1⟩] ∧
    parseTablespaceTuples (TablespaceTuples.Write memWriter crlfTuples []).2 ≠
      some crlfTuples := by
  decide

/-- C2 (amended): for every tuple sequence `T` (any integers) whose names and
locations hold no carriage return immediately followed by a newline, written
to a writer that accepts every write, `Write` returns nil, and parsing the
text the writer received with the CSV reader and converting the integer
fields back yields exactly `T`, in the same order. -/
theorem Write_then_parse_roundtrip (w : IoWriter ω) (T : TablespaceTuples) (s : ω)
    (hw : w.Reliable) (hT : CrlfFree T) :
    (TablespaceTuples.Write w.recorded T (s, [])).1 = none ∧
    parseTablespaceTuples (TablespaceTuples.Write w.recorded T (s, [])).2.2 = some T := by
  have hspec := Write_run_spec w T s
  obtain ⟨hret, herr⟩ := hspec.2 hw
  obtain ⟨hstream, hbuf⟩ := hspec.1 hret
  have hout : (TablespaceTuples.Write w.recorded T (s, [])).2.2 = csvText T := by
    have := hbuf herr
    rw [this, List.append_nil] at hstream
    exact hstream
  exact ⟨hret, by rw [hout]; exact parseTablespaceTuples_csvText T hT⟩

/-- Witness for C2 (amended): the three tuples of the round-trip scenario,
written to an in-memory writer. -/
theorem Write_then_parse_roundtrip_witness :
    (memWriter.Reliable ∧ CrlfFree scenarioTuples) ∧
    ((TablespaceTuples.Write memWriter.recorded scenarioTuples ([], [])).1 = none ∧
      parseTablespaceTuples
        (TablespaceTuples.Write memWriter.recorded scenarioTuples ([], [])).2.2 =
          some scenarioTuples) :=
  ⟨⟨fun _ _ => rfl, by unfold CrlfFree; decide⟩,
    Write_then_parse_roundtrip memWriter scenarioTuples [] (fun _ _ => rfl)
      (by unfold CrlfFree; decide)⟩

/-- The records of `Write`: for every tuple sequence on which `Write` returns
nil, the bytes the underlying writer received, followed by those the
buffered writer still holds, are exactly one CSV record per tuple, in the
order of the sequence, and nothing is still held unless a write to the
underlying writer failed (the buffered writer then has recorded the error).  Each record is the five fields dbid, oid, name,
location, user-defined in that order, separated by commas and ended by a
newline; dbid, oid and user-defined are printed as base-10 integers without
leading zeros, which read back as the same integers. -/
theorem Write_output_one_record_per_tuple (w : IoWriter ω) (T : TablespaceTuples) (s : ω)
    (hret : (TablespaceTuples.Write w.recorded T (s, [])).1 = none) :
    (TablespaceTuples.Write w.recorded T (s, [])).2.2 ++
        (TablespaceTuples.Write.run w.recorded T (s, [])).2.1.buf =
      (T.map (fun t => csvRecord t.line)).flatten ∧
    ((TablespaceTuples.Write.run w.recorded T (s, [])).2.1.err = none →
      (TablespaceTuples.Write w.recorded T (s, [])).2.2 =
        (T.map (fun t => csvRecord t.line)).flatten) ∧
    (∀ t : Tablespace, csvRecord t.line =
      Itoa t.DbId ++ ",".toList ++ Itoa t.Oid ++ ",".toList ++ csvField t.Name ++ ",".toList ++
        csvField t.Location ++ ",".toList ++ Itoa t.UserDefined ++ "\n".toList) ∧
    (∀ i : Int, IsDecimal (Itoa i) ∧ Atoi (Itoa i) = some i) := by
  have hspec := Write_run_spec w T s
  obtain ⟨hstream, hbuf⟩ := hspec.1 hret
  refine ⟨hstream, ?_, ?_, fun i => ⟨Itoa_isDecimal i, Atoi_Itoa i⟩⟩
  · intro hflush
    have := hbuf hflush
    rw [this, List.append_nil] at hstream
    exact hstream
  · intro t
    rw [csvRecord_line]
    simp

/-- The three tuples of the round-trip scenario, written to an in-memory
writer, give three lines in insertion order. -/
theorem Write_output_one_record_per_tuple_example :
    (TablespaceTuples.Write memWriter.recorded scenarioTuples ([], [])).1 = none ∧
    (TablespaceTuples.Write memWriter.recorded scenarioTuples ([], [])).2.2 =
      "1,16385,ts_a,/tsa,1\n2,16385,ts_a,/tsa,1\n1,1663,pg_default,/d,0\n".toList :=
  ⟨rfl, ((Write_output_one_record_per_tuple memWriter scenarioTuples [] rfl).2.1 rfl).trans
    (by decide)⟩

end WriterClaims

/-! ## The calls of the worker -/

section WorkerCalls

variable {σ : Type}

theorem traced_call_eq (sys : System σ) (c : Call) (s : σ) (tr : List Call) :
    sys.traced.call c (s, tr) = ((sys.call c s).1, ((sys.call c s).2, tr ++ [c])) := rfl

/-- The result of `reCreateSymLink` and the calls it makes, by the outcome of
each call. -/
theorem reCreateSymLink_traced (sys : System σ) (sourceDir symLinkName : GoString) (s : σ)
    (tr : List Call) :
    reCreateSymLink sys.traced sourceDir symLinkName (s, tr) =
      match sys.call (Call.Lstat symLinkName) s with
      | (none, s1) =>
        match sys.call (Call.Remove symLinkName) s1 with
        | (some err, s2) =>
          (some (Error.Wrapf err "failed to unlink %q" [Arg.str symLinkName]),
            (s2, tr ++ [Call.Lstat symLinkName, Call.Remove symLinkName]))
        | (none, s2) =>
          match sys.call (Call.Symlink sourceDir symLinkName) s2 with
          | (some err, s3) =>
            (some (Error.Wrapf err "create symbolic link %q to directory %q"
              [Arg.str symLinkName, Arg.str sourceDir]),
              (s3, tr ++ [Call.Lstat symLinkName, Call.Remove symLinkName,
                Call.Symlink sourceDir symLinkName]))
          | (none, s3) =>
            (none, (s3, tr ++ [Call.Lstat symLinkName, Call.Remove symLinkName,
              Call.Symlink sourceDir symLinkName]))
      | (some err, s1) =>
        if sys.IsNotExist err = false then
          (some (Error.Wrapf err "stat symbolic link %q" [Arg.str symLinkName]),
            (s1, tr ++ [Call.Lstat symLinkName]))
        else
          match sys.call (Call.Symlink sourceDir symLinkName) s1 with
          | (some err, s3) =>
            (some (Error.Wrapf err "create symbolic link %q to directory %q"
              [Arg.str symLinkName, Arg.str sourceDir]),
              (s3, tr ++ [Call.Lstat symLinkName, Call.Symlink sourceDir symLinkName]))
          | (none, s3) =>
            (none, (s3, tr ++ [Call.Lstat symLinkName, Call.Symlink sourceDir symLinkName])) := by
  unfold reCreateSymLink
  simp only [traced_call_eq]
  rcases hl : sys.call (Call.Lstat symLinkName) s with ⟨r1, s1⟩
  cases r1 with
  | none =>
    simp only [traced_call_eq]
    rcases hr : sys.call (Call.Remove symLinkName) s1 with ⟨r2, s2⟩
    cases r2 with
    | some e => simp
    | none =>
      simp only [traced_call_eq]
      rcases hs : sys.call (Call.Symlink sourceDir symLinkName) s2 with ⟨r3, s3⟩
      cases r3 <;> simp
  | some e =>
    simp only
    have hne : sys.traced.IsNotExist e = sys.IsNotExist e := rfl
    rw [hne]
    by_cases hn : sys.IsNotExist e = false
    · simp only [hn, if_true]
    · rw [if_neg hn, if_neg hn]
      simp only [traced_call_eq]
      rcases hs : sys.call (Call.Symlink sourceDir symLinkName) s1 with ⟨r3, s3⟩
      cases r3 <;> simp

theorem reCreateSymLink_calls_of_success (sys : System σ) (sourceDir symLinkName : GoString)
    (s : σ) (tr : List Call)
    (h : (reCreateSymLink sys.traced sourceDir symLinkName (s, tr)).1 = none) :
    ∃ removed : Bool, (reCreateSymLink sys.traced sourceDir symLinkName (s, tr)).2.2 =
      tr ++ ([Call.Lstat symLinkName] ++
        (if removed = true then [Call.Remove symLinkName] else []) ++
        [Call.Symlink sourceDir symLinkName]) := by
  rw [reCreateSymLink_traced] at h ⊢
  rcases hl : sys.call (Call.Lstat symLinkName) s with ⟨r1, s1⟩
  rw [hl] at h
  cases r1 with
  | none =>
    simp only at h ⊢
    rcases hr : sys.call (Call.Remove symLinkName) s1 with ⟨r2, s2⟩
    rw [hr] at h
    cases r2 with
    | some e => simp at h
    | none =>
      simp only at h ⊢
      rcases hs : sys.call (Call.Symlink sourceDir symLinkName) s2 with ⟨r3, s3⟩
      rw [hs] at h
      cases r3 with
      | some e => simp at h
      | none => exact ⟨true, by simp⟩
  | some e =>
    simp only at h ⊢
    by_cases hn : sys.IsNotExist e = false
    · rw [if_pos hn] at h
      simp at h
    · rw [if_neg hn] at h ⊢
      rcases hs : sys.call (Call.Symlink sourceDir symLinkName) s1 with ⟨r3, s3⟩
      rw [hs] at h
      cases r3 with
      | some e => simp at h
      | none => exact ⟨false, by simp⟩

theorem RestoreTablespaces_loop_calls (sys : System σ) (MasterDbid : Int)
    (request : UpgradePrimariesRequest) (segment : Segment) :
    ∀ (entries : List (Int × IdlTablespaceInfo)) (st : σ × List Call),
      (RestoreTablespaces.loop sys.traced MasterDbid request segment entries st).1 = none →
      ∃ removes : List Bool,
        removes.length = (entries.filter (fun e => e.2.UserDefined)).length ∧
        (RestoreTablespaces.loop sys.traced MasterDbid request segment entries st).2.2 =
          st.2 ++ (List.zipWith (restoreTablespaceCalls MasterDbid request segment)
            (entries.filter (fun e => e.2.UserDefined)) removes).flatten := by
  intro entries
  induction entries with
  | nil =>
    intro st _
    exact ⟨[], rfl, by simp [RestoreTablespaces.loop]⟩
  | cons e rest ih =>
    intro st h
    obtain ⟨oid, tablespace⟩ := e
    obtain ⟨s, tr⟩ := st
    by_cases hu : tablespace.UserDefined = false
    · have hstep : RestoreTablespaces.loop sys.traced MasterDbid request segment
          ((oid, tablespace) :: rest) (s, tr) =
          RestoreTablespaces.loop sys.traced MasterDbid request segment rest (s, tr) := by
        simp only [RestoreTablespaces.loop, hu, if_true]
      rw [hstep] at h ⊢
      obtain ⟨removes, hlen, htr⟩ := ih (s, tr) h
      exact ⟨removes, by simpa [List.filter_cons, hu] using hlen,
        by simpa [List.filter_cons, hu] using htr⟩
    · have hu1 : tablespace.UserDefined = true := by simpa using hu
      rcases hc : sys.call
        (Call.Rsync (GetMasterTablespaceLocation MasterDbid
          (Dir request.TablespacesMappingFilePath) oid)
          (GetTablespaceLocationForDbId tablespace segment.DBID) []) s with ⟨r1, s1⟩
      cases r1 with
      | some err =>
        simp only [RestoreTablespaces.loop, hu1, reduceCtorEq, if_false, traced_call_eq,
          hc] at h
      | none =>
        rcases hr : reCreateSymLink sys.traced
          (GetTablespaceLocationForDbId tablespace segment.DBID)
          (segment.TargetDataDir ++ "/pg_tblspc/".toList ++ Itoa oid)
          (s1, tr ++ [Call.Rsync (GetMasterTablespaceLocation MasterDbid
            (Dir request.TablespacesMappingFilePath) oid)
            (GetTablespaceLocationForDbId tablespace segment.DBID) []]) with ⟨r2, s2⟩
        cases r2 with
        | some err =>
          simp only [RestoreTablespaces.loop, hu1, reduceCtorEq, if_false, traced_call_eq,
            hc, ReCreateSymLink, hr] at h
        | none =>
          have hstep : RestoreTablespaces.loop sys.traced MasterDbid request segment
              ((oid, tablespace) :: rest) (s, tr) =
              RestoreTablespaces.loop sys.traced MasterDbid request segment rest s2 := by
            simp only [RestoreTablespaces.loop, hu1, reduceCtorEq, if_false, traced_call_eq,
              hc, ReCreateSymLink, hr]
          rw [hstep] at h ⊢
          obtain ⟨removes, hlen, htr⟩ := ih s2 h
          obtain ⟨removed, hrm⟩ := reCreateSymLink_calls_of_success sys _ _ s1 _
            (by rw [hr])
          rw [hr] at hrm
          simp only at hrm
          refine ⟨removed :: removes, by simp [List.filter_cons, hu1, hlen], ?_⟩
          rw [htr, hrm]
          simp [List.filter_cons, hu1, restoreTablespaceCalls]

/-- The calls of `RestoreTablespaces` when it succeeds, for a non-check-only
request: for each entry of the segment's tablespace map whose user-defined
flag is set, in the order in which the map is visited, and for no other
entry, one `Rsync` from the path that `GetMasterTablespaceLocation` gives for
the directory of the mapping file path to the path that
`GetTablespaceLocationForDbId` gives for the segment's dbid, with the nil
list, followed by the recreation of the symlink named
`<target data dir>/pg_tblspc/<oid>` pointing at the latter path: a status
lookup of the link name, its removal when `removed` says so, and the
creation of the link. -/
theorem RestoreTablespaces_calls_of_success (sys : System σ) (MasterDbid : Int)
    (request : UpgradePrimariesRequest) (segment : Segment) (s : σ)
    (hmode : request.CheckOnly = false)
    (hok : (RestoreTablespaces sys.traced MasterDbid request segment (s, [])).1 = none) :
    ∃ removes : List Bool,
      removes.length = (segment.Tablespaces.entries.filter (fun e => e.2.UserDefined)).length ∧
      (RestoreTablespaces sys.traced MasterDbid request segment (s, [])).2.2 =
        (List.zipWith
          (fun (entry : Int × IdlTablespaceInfo) (removed : Bool) =>
            [Call.Rsync
                (GetMasterTablespaceLocation MasterDbid
                  (Dir request.TablespacesMappingFilePath) entry.1)
                (GetTablespaceLocationForDbId entry.2 segment.DBID) [],
              Call.Lstat (segment.TargetDataDir ++ "/pg_tblspc/".toList ++ Itoa entry.1)] ++
            (if removed = true then
              [Call.Remove (segment.TargetDataDir ++ "/pg_tblspc/".toList ++ Itoa entry.1)]
              else []) ++
            [Call.Symlink (GetTablespaceLocationForDbId entry.2 segment.DBID)
              (segment.TargetDataDir ++ "/pg_tblspc/".toList ++ Itoa entry.1)])
          (segment.Tablespaces.entries.filter (fun e => e.2.UserDefined)) removes).flatten := by
  have hdef : RestoreTablespaces sys.traced MasterDbid request segment (s, []) =
      RestoreTablespaces.loop sys.traced MasterDbid request segment
        segment.Tablespaces.entries (s, []) := by
    simp [RestoreTablespaces, hmode]
  rw [hdef] at hok ⊢
  obtain ⟨removes, hlen, htr⟩ := RestoreTablespaces_loop_calls sys MasterDbid request segment
    _ _ hok
  refine ⟨removes, hlen, ?_⟩
  rw [htr]
  simp only [List.nil_append]
  rfl

/-- For every non-check-only request and segment, `restoreBackup` makes
exactly one call, `Rsync` from the request's coordinator backup directory to
the segment's target data directory with the list of the seven names
`internal.auto.conf`, `postgresql.conf`, `pg_hba.conf`, `postmaster.opts`,
`gp_dbid`, `gpssh.conf`, `gpperfmon`, and returns the result of that call.
Which files `Rsync` copies for this list is decided by `Rsync`, which is not
among the listed sources. -/
theorem restoreBackup_call (sys : System σ) (request : UpgradePrimariesRequest)
    (segment : Segment) (s : σ) (tr : List Call) (hmode : request.CheckOnly = false) :
    restoreBackup sys.traced request segment (s, tr) =
      ((sys.call (Call.Rsync request.MasterBackupDir segment.TargetDataDir
          ["internal.auto.conf".toList, "postgresql.conf".toList, "pg_hba.conf".toList,
           "postmaster.opts".toList, "gp_dbid".toList, "gpssh.conf".toList,
           "gpperfmon".toList]) s).1,
       ((sys.call (Call.Rsync request.MasterBackupDir segment.TargetDataDir
          ["internal.auto.conf".toList, "postgresql.conf".toList, "pg_hba.conf".toList,
           "postmaster.opts".toList, "gp_dbid".toList, "gpssh.conf".toList,
           "gpperfmon".toList]) s).2,
        tr ++ [Call.Rsync request.MasterBackupDir segment.TargetDataDir
          ["internal.auto.conf".toList, "postgresql.conf".toList, "pg_hba.conf".toList,
           "postmaster.opts".toList, "gp_dbid".toList, "gpssh.conf".toList,
           "gpperfmon".toList]])) := by
  simp only [restoreBackup, hmode, reduceCtorEq, if_false]
  rfl

/-- The call of `restoreBackup` for a non-check-only request in an environment
where the copy fails. -/
theorem restoreBackup_call_example :
    (sampleRequest false true).CheckOnly = false ∧
    (restoreBackup (failingOn (fun _ => true)).traced (sampleRequest false true)
        sampleSegment ((), [])).2.2 =
      [Call.Rsync "/backup".toList "/data/new/seg1".toList
        ["internal.auto.conf".toList, "postgresql.conf".toList, "pg_hba.conf".toList,
         "postmaster.opts".toList, "gp_dbid".toList, "gpssh.conf".toList,
         "gpperfmon".toList]] :=
  ⟨rfl, congrArg (fun r => r.2.2) (restoreBackup_call (failingOn (fun _ => true))
    (sampleRequest false true) sampleSegment () [] rfl)⟩

/-- C15: for every target and link name: when the status lookup of the link
name fails with an error that is not not-exists, `reCreateSymLink` returns
that error wrapped, and the lookup is its only call (no removal, no symlink
creation); when the lookup reports not-exists, its calls are the lookup and
the creation of the link, without a removal, and it returns nil exactly when
the creation does; when the lookup succeeds, its calls are the lookup, the
removal of the link name and then, if the removal succeeded, the creation of
the link. -/
theorem reCreateSymLink_stat_policy (sys : System σ) (sourceDir symLinkName : GoString)
    (s : σ) :
    (∀ e, (sys.call (Call.Lstat symLinkName) s).1 = some e → sys.IsNotExist e = false →
      reCreateSymLink sys.traced sourceDir symLinkName (s, []) =
        (some (Error.Wrapf e "stat symbolic link %q" [Arg.str symLinkName]),
          ((sys.call (Call.Lstat symLinkName) s).2, [Call.Lstat symLinkName]))) ∧
    (∀ e, (sys.call (Call.Lstat symLinkName) s).1 = some e → sys.IsNotExist e = true →
      (reCreateSymLink sys.traced sourceDir symLinkName (s, [])).2.2 =
        [Call.Lstat symLinkName, Call.Symlink sourceDir symLinkName] ∧
      ((reCreateSymLink sys.traced sourceDir symLinkName (s, [])).1 = none ↔
        (sys.call (Call.Symlink sourceDir symLinkName)
          (sys.call (Call.Lstat symLinkName) s).2).1 = none)) ∧
    ((sys.call (Call.Lstat symLinkName) s).1 = none →
      (reCreateSymLink sys.traced sourceDir symLinkName (s, [])).2.2 =
        [Call.Lstat symLinkName, Call.Remove symLinkName] ++
          (if (sys.call (Call.Remove symLinkName)
              (sys.call (Call.Lstat symLinkName) s).2).1.isNone = true
            then [Call.Symlink sourceDir symLinkName] else []) ∧
      ((reCreateSymLink sys.traced sourceDir symLinkName (s, [])).1 = none ↔
        (sys.call (Call.Remove symLinkName) (sys.call (Call.Lstat symLinkName) s).2).1 = none ∧
        (sys.call (Call.Symlink sourceDir symLinkName)
          (sys.call (Call.Remove symLinkName)
            (sys.call (Call.Lstat symLinkName) s).2).2).1 = none)) := by
  rw [reCreateSymLink_traced]
  rcases hl : sys.call (Call.Lstat symLinkName) s with ⟨r1, s1⟩
  cases r1 with
  | some e =>
    by_cases hn : sys.IsNotExist e = false
    · simp [hn]
    · have hn1 : sys.IsNotExist e = true := by simpa using hn
      rcases hs : sys.call (Call.Symlink sourceDir symLinkName) s1 with ⟨r3, s3⟩
      cases r3 <;> simp [hn1, hs]
  | none =>
    rcases hr : sys.call (Call.Remove symLinkName) s1 with ⟨r2, s2⟩
    cases r2 with
    | some e => simp [hr]
    | none =>
      rcases hs : sys.call (Call.Symlink sourceDir symLinkName) s2 with ⟨r3, s3⟩
      cases r3 <;> simp [hr, hs]

/-- Witness for C15: the status lookup fails with "permission denied". -/
theorem reCreateSymLink_stat_policy_witness :
    reCreateSymLink statDenied.traced "/tsa/2".toList "/data/new/seg1/pg_tblspc/16385".toList
        ((), []) =
      (some (Error.Wrapf (Error.New "permission denied".toList) "stat symbolic link %q"
        [Arg.str "/data/new/seg1/pg_tblspc/16385".toList]),
        ((), [Call.Lstat "/data/new/seg1/pg_tblspc/16385".toList])) :=
  (reCreateSymLink_stat_policy statDenied "/tsa/2".toList
    "/data/new/seg1/pg_tblspc/16385".toList ()).1 (Error.New "permission denied".toList) rfl rfl

end WorkerCalls

/-! ## Failures of the writer -/

section WriterFailure

variable {ω : Type}

theorem Write_loop_append (w : IoWriter ω) (pre rest : TablespaceTuples) (b : BufioWriter)
    (s : ω) (h : (TablespaceTuples.Write.loop w pre b s).1 = none) :
    TablespaceTuples.Write.loop w (pre ++ rest) b s =
      TablespaceTuples.Write.loop w rest (TablespaceTuples.Write.loop w pre b s).2.1
        (TablespaceTuples.Write.loop w pre b s).2.2 := by
  induction pre generalizing b s with
  | nil => rfl
  | cons t pre ih =>
    rcases hc : csvWrite w t.line b s with ⟨r, b1, s1⟩
    cases r with
    | some e =>
      simp only [TablespaceTuples.Write.loop, hc] at h
      exact absurd h (by simp)
    | none =>
      simp only [TablespaceTuples.Write.loop, hc, List.cons_append] at h ⊢
      exact ih b1 s1 h

/-- C14: for every tuple sequence `pre ++ t :: post` in which the records of
`pre` are written without error and writing the record of `t` fails, `Write`
returns the error of that write wrapped with the message `write record %q`
naming the five fields of `t`, and it stops there: the buffered writer and the
underlying writer are left as the failing write left them, whatever `post`
is, so no later record is attempted (and the deferred flush is not reached). -/
theorem Write_aborts_at_first_failing_record (w : IoWriter ω) (pre post : TablespaceTuples)
    (t : Tablespace) (s : ω)
    (hpre : (TablespaceTuples.Write.loop w pre { buf := [], err := none } s).1 = none)
    (hfail : (csvWrite w [Itoa t.DbId, Itoa t.Oid, t.Name, t.Location, Itoa t.UserDefined]
      (TablespaceTuples.Write.loop w pre { buf := [], err := none } s).2.1
      (TablespaceTuples.Write.loop w pre { buf := [], err := none } s).2.2).1.isSome = true) :
    ∃ err,
      (csvWrite w [Itoa t.DbId, Itoa t.Oid, t.Name, t.Location, Itoa t.UserDefined]
        (TablespaceTuples.Write.loop w pre { buf := [], err := none } s).2.1
        (TablespaceTuples.Write.loop w pre { buf := [], err := none } s).2.2).1 = some err ∧
      TablespaceTuples.Write.run w (pre ++ t :: post) s =
        (some (Error.Wrapf err "write record %q"
          [Arg.strs [Itoa t.DbId, Itoa t.Oid, t.Name, t.Location, Itoa t.UserDefined]]),
         (csvWrite w [Itoa t.DbId, Itoa t.Oid, t.Name, t.Location, Itoa t.UserDefined]
          (TablespaceTuples.Write.loop w pre { buf := [], err := none } s).2.1
          (TablespaceTuples.Write.loop w pre { buf := [], err := none } s).2.2).2) := by
  rcases hc : csvWrite w [Itoa t.DbId, Itoa t.Oid, t.Name, t.Location, Itoa t.UserDefined]
    (TablespaceTuples.Write.loop w pre { buf := [], err := none } s).2.1
    (TablespaceTuples.Write.loop w pre { buf := [], err := none } s).2.2 with ⟨r, b1, s1⟩
  rw [hc] at hfail
  cases r with
  | none => exact absurd hfail (by simp)
  | some err =>
    refine ⟨err, rfl, ?_⟩
    have hline : t.line = [Itoa t.DbId, Itoa t.Oid, t.Name, t.Location, Itoa t.UserDefined] := rfl
    simp only [TablespaceTuples.Write.run, Write_loop_append w pre (t :: post) _ s hpre,
      TablespaceTuples.Write.loop, hline, hc]

/-- Witness for C14: two tuples on a writer on which every write fails.  The
name of the first is 2100 letters of two bytes each, 4200 bytes, which do
not fit into the 4096 bytes of the buffered writer: the write of the first
record fails, the error names its five fields (dbid 7), and the second tuple
is not attempted. -/
theorem Write_aborts_at_first_failing_record_witness :
    ((TablespaceTuples.Write.loop brokenWriter.recorded [] { buf := [], err := none }
        ((), [])).1 = none ∧
      (csvWrite brokenWriter.recorded
        [Itoa accentedNameTuple.DbId, Itoa accentedNameTuple.Oid, accentedNameTuple.Name,
          accentedNameTuple.Location, Itoa accentedNameTuple.UserDefined]
        (TablespaceTuples.Write.loop brokenWriter.recorded [] { buf := [], err := none }
          ((), [])).2.1
        (TablespaceTuples.Write.loop brokenWriter.recorded [] { buf := [], err := none }
          ((), [])).2.2).1.isSome = true) ∧
    ∃ err,
      (csvWrite brokenWriter.recorded
        [Itoa accentedNameTuple.DbId, Itoa accentedNameTuple.Oid, accentedNameTuple.Name,
          accentedNameTuple.Location, Itoa accentedNameTuple.UserDefined]
        (TablespaceTuples.Write.loop brokenWriter.recorded [] { buf := [], err := none }
          ((), [])).2.1
        (TablespaceTuples.Write.loop brokenWriter.recorded [] { buf := [], err := none }
          ((), [])).2.2).1 = some err ∧
      TablespaceTuples.Write.run brokenWriter.recorded ([] ++ accentedNameTuple :: [longNameTuple])
          ((), []) =
        (some (Error.Wrapf err "write record %q"
          [Arg.strs [Itoa accentedNameTuple.DbId, Itoa accentedNameTuple.Oid, accentedNameTuple.Name,
            accentedNameTuple.Location, Itoa accentedNameTuple.UserDefined]]),
         (csvWrite brokenWriter.recorded
          [Itoa accentedNameTuple.DbId, Itoa accentedNameTuple.Oid, accentedNameTuple.Name,
            accentedNameTuple.Location, Itoa accentedNameTuple.UserDefined]
          (TablespaceTuples.Write.loop brokenWriter.recorded [] { buf := [], err := none }
            ((), [])).2.1
          (TablespaceTuples.Write.loop brokenWriter.recorded [] { buf := [], err := none }
            ((), [])).2.2).2) :=
  ⟨⟨rfl, by decide!⟩,
    Write_aborts_at_first_failing_record brokenWriter.recorded [] [longNameTuple] accentedNameTuple
      ((), []) rfl (by decide!)⟩

/-- C13 fails on the code: on a writer on which every write fails, `Write`
of the three tuples of the round-trip scenario returns nil although the
underlying writer has received nothing: the rows are still in the buffer
when the loop ends, the deferred `Flush` fails, and its error, recorded in
the buffered writer, is not looked at. -/
theorem Write_returns_nil_when_flush_fails :
    (TablespaceTuples.Write brokenWriter.recorded scenarioTuples ((), [])).1 = none ∧
    (TablespaceTuples.Write brokenWriter.recorded scenarioTuples ((), [])).2.2 = [] ∧
    (TablespaceTuples.Write.run brokenWriter.recorded scenarioTuples ((), [])).2.1.buf =
      "1,16385,ts_a,/tsa,1\n2,16385,ts_a,/tsa,1\n1,1663,pg_default,/d,0\n".toList ∧
    (TablespaceTuples.Write.run brokenWriter.recorded scenarioTuples ((), [])).2.1.err =
      some (Error.New "no space left on device".toList) :=
  ⟨rfl, by decide, by decide, rfl⟩

/-- C3 fails on the code: on a disk with room for ten bytes, `Write` of the
three tuples of the round-trip scenario returns nil, and the output is the
ten bytes `1,16385,ts`, not one record per tuple; the 63 bytes of the three
records are in the buffer when the loop ends, the deferred `Flush` delivers
ten of them and fails, and its error, kept by the buffered writer, is not
looked at.  The defect is that of C13. -/
theorem Write_returns_nil_with_truncated_output :
    (TablespaceTuples.Write smallDisk.recorded scenarioTuples (10, [])).1 = none ∧
    (TablespaceTuples.Write smallDisk.recorded scenarioTuples (10, [])).2.2 =
      "1,16385,ts".toList ∧
    (TablespaceTuples.Write smallDisk.recorded scenarioTuples (10, [])).2.2 ≠
      (scenarioTuples.map (fun t => csvRecord t.line)).flatten ∧
    (scenarioTuples.map (fun t => csvRecord t.line)).flatten =
      "1,16385,ts_a,/tsa,1\n2,16385,ts_a,/tsa,1\n1,1663,pg_default,/d,0\n".toList ∧
    (TablespaceTuples.Write.run smallDisk.recorded scenarioTuples (10, [])).2.1.err =
      some ErrNoSpace :=
  ⟨rfl, by decide, by decide, by decide, rfl⟩

end WriterFailure

/-! ## The filesystem model -/

theorem reCreateSymLink_fileSystem (fs : FileSystem) (sourceDir symLinkName : GoString) :
    reCreateSymLink fileSystem sourceDir symLinkName fs =
      (none, fs.withSymlink symLinkName sourceDir) := by
  have hset : (fun p => if p = symLinkName then some (FileNode.symlink sourceDir)
      else (if p = symLinkName then none else fs p)) = fs.withSymlink symLinkName sourceDir := by
    funext p
    by_cases hp : p = symLinkName <;> simp [FileSystem.withSymlink, hp]
  by_cases h : (fs symLinkName).isSome = true
  · simp only [reCreateSymLink, fileSystem, h, if_true, if_false]
    simp [hset]
  · simp only [reCreateSymLink, fileSystem, h, if_false]
    simp [ErrNotExist, h]
    rfl

/-- C16: in the filesystem model, for every initial state, target directory
and link name, `reCreateSymLink` succeeds, a second call with the same
arguments succeeds too and leaves the state the first call left, and in that
state the link name is a symlink pointing at the target (every other path
being as it was before the first call). -/
theorem reCreateSymLink_twice (fs : FileSystem) (sourceDir symLinkName : GoString) :
    (reCreateSymLink fileSystem sourceDir symLinkName fs).1 = none ∧
    (reCreateSymLink fileSystem sourceDir symLinkName
      (reCreateSymLink fileSystem sourceDir symLinkName fs).2).1 = none ∧
    (reCreateSymLink fileSystem sourceDir symLinkName
      (reCreateSymLink fileSystem sourceDir symLinkName fs).2).2 =
        (reCreateSymLink fileSystem sourceDir symLinkName fs).2 ∧
    (reCreateSymLink fileSystem sourceDir symLinkName fs).2 symLinkName =
      some (FileNode.symlink sourceDir) ∧
    (∀ p, p ≠ symLinkName →
      (reCreateSymLink fileSystem sourceDir symLinkName fs).2 p = fs p) := by
  rw [reCreateSymLink_fileSystem, reCreateSymLink_fileSystem]
  refine ⟨rfl, rfl, ?_, by simp [FileSystem.withSymlink], ?_⟩
  · funext p
    by_cases hp : p = symLinkName <;> simp [FileSystem.withSymlink, hp]
  · intro p hp
    simp [FileSystem.withSymlink, hp]

/-! ## The rendering of the fields -/

theorem fieldNeedsQuotes_iff (field : GoString) :
    fieldNeedsQuotes field = true ↔ QuotedField field := by
  cases field with
  | nil => simp [fieldNeedsQuotes, QuotedField]
  | cons r1 rest =>
    have hne : r1 :: rest ≠ [] := by simp
    simp only [fieldNeedsQuotes, QuotedField]
    by_cases h : (r1 :: rest = ['\\', '.'] ∨ ',' ∈ r1 :: rest ∨ '"' ∈ r1 :: rest ∨
        '\r' ∈ r1 :: rest ∨ '\n' ∈ r1 :: rest)
    · rw [if_pos h]
      exact ⟨fun _ => ⟨hne, by tauto⟩, fun _ => rfl⟩
    · rw [if_neg h]
      exact ⟨fun hs => ⟨hne, by tauto⟩, fun hq => by tauto⟩

section FieldClaims

variable {ω : Type}

/-- C17, counterexample: a tuple of which neither the name nor the location
holds a comma, and yet `Write` puts both in quotes (the name holds a double
quote, which is doubled, and the location begins with a space). -/
theorem Write_quotes_field_without_comma :
    ',' ∉ quotedTuple.Name ∧ ',' ∉ quotedTuple.Location ∧
    (TablespaceTuples.Write memWriter.recorded [quotedTuple] ([], [])).1 = none ∧
    (TablespaceTuples.Write memWriter.recorded [quotedTuple] ([], [])).2.2 =
      "1,2,\"a\"\"b\",\" /x\",1\n".toList :=
  ⟨by decide, by decide, rfl, by decide⟩

/-- C17, amended: when `Write` returns nil, its output is one row per tuple,
the five fields separated by commas and ended by a newline; the integer
fields dbid, oid and user-defined are rendered in base 10 without leading
zeros; a name or location is written between double quotes, every double
quote inside it doubled, exactly when it is not empty and contains a comma,
a double quote, a carriage return or a line feed, or begins with a
white-space character, or is a backslash followed by a dot; in particular a
field that holds a comma is quoted, and every field that is not quoted
appears byte-for-byte. -/
theorem Write_field_rendering (w : IoWriter ω) (T : TablespaceTuples) (s : ω)
    (hret : (TablespaceTuples.Write w.recorded T (s, [])).1 = none) :
    (TablespaceTuples.Write w.recorded T (s, [])).2.2 ++
        (TablespaceTuples.Write.run w.recorded T (s, [])).2.1.buf =
      (T.map (fun t => Itoa t.DbId ++ ",".toList ++ Itoa t.Oid ++ ",".toList ++
        csvField t.Name ++ ",".toList ++ csvField t.Location ++ ",".toList ++
        Itoa t.UserDefined ++ "\n".toList)).flatten ∧
    (∀ i : Int, IsDecimal (Itoa i)) ∧
    (∀ field : GoString, QuotedField field →
      csvField field = "\"".toList ++ csvQuote field ++ "\"".toList) ∧
    (∀ field : GoString, ¬ QuotedField field → csvField field = field) ∧
    (∀ field : GoString, ',' ∈ field → QuotedField field) := by
  have hspec := Write_run_spec w T s
  obtain ⟨hstream, _⟩ := hspec.1 hret
  refine ⟨?_, Itoa_isDecimal, ?_, ?_, ?_⟩
  · have hrows : (fun t : Tablespace => Itoa t.DbId ++ ",".toList ++ Itoa t.Oid ++ ",".toList ++
        csvField t.Name ++ ",".toList ++ csvField t.Location ++ ",".toList ++
        Itoa t.UserDefined ++ "\n".toList) = fun t => csvRecord t.line := by
      funext t
      rw [csvRecord_line]
      simp
    rw [hrows]
    exact hstream
  · intro field hq
    have := (fieldNeedsQuotes_iff field).2 hq
    simp [csvField, this]
  · intro field hq
    have : fieldNeedsQuotes field = false := by
      cases h : fieldNeedsQuotes field with
      | false => rfl
      | true => exact absurd ((fieldNeedsQuotes_iff field).1 h) hq
    simp [csvField, this]
  · intro field hc
    refine ⟨?_, Or.inr (Or.inl hc)⟩
    rintro rfl
    simp at hc

/-- Witness for C17: a tuple whose name holds a comma, written to an in-memory
writer: the name is quoted, the other fields are not. -/
theorem Write_field_rendering_witness :
    (TablespaceTuples.Write memWriter.recorded [commaTuple] ([], [])).1 = none ∧
    (TablespaceTuples.Write memWriter.recorded [commaTuple] ([], [])).2.2 ++
        (TablespaceTuples.Write.run memWriter.recorded [commaTuple] ([], [])).2.1.buf =
      "1,16385,\"ts,a\",/tsa,1\n".toList :=
  ⟨rfl, (Write_field_rendering memWriter [commaTuple] [] rfl).1.trans (by decide)⟩

end FieldClaims

/-! ## The fan-out of the hub and the composite error -/

theorem hostsOf_mem (segs : List SegConfig) (host : GoString) :
    host ∈ hostsOf segs ↔ ∃ seg ∈ segs, seg.Hostname = host := by
  induction segs with
  | nil => simp [hostsOf]
  | cons seg rest ih =>
    simp only [hostsOf, List.mem_cons, List.mem_filter, ih, decide_eq_true_eq, exists_eq_or_imp]
    constructor
    · rintro (h | ⟨h, _⟩)
      · exact Or.inl h.symm
      · exact Or.inr h
    · rintro (h | h)
      · exact Or.inl h.symm
      · by_cases hh : host = seg.Hostname
        · exact Or.inl hh
        · exact Or.inr ⟨h, hh⟩

theorem hostsOf_nodup (segs : List SegConfig) : (hostsOf segs).Nodup := by
  induction segs with
  | nil => simp [hostsOf]
  | cons seg rest ih =>
    simp only [hostsOf, List.nodup_cons, List.mem_filter, decide_eq_true_eq]
    exact ⟨fun h => h.2 rfl, ih.filter _⟩

theorem groupByHost_filter (segs : List SegConfig) :
    (groupByHost segs).filter (fun group => !group.2.isEmpty) = groupByHost segs := by
  rw [List.filter_eq_self]
  intro group hg
  simp only [groupByHost, List.mem_map] at hg
  obtain ⟨host, hh, rfl⟩ := hg
  obtain ⟨seg, hs, hseg⟩ := (hostsOf_mem segs host).1 hh
  have : seg ∈ segs.filter (fun seg => decide (seg.Hostname = host)) := by
    simp [List.mem_filter, hs, hseg]
  cases hf : segs.filter (fun seg => decide (seg.Hostname = host)) with
  | nil => rw [hf] at this; simp at this
  | cons a l => simp

theorem calls_hosts (segs : List SegConfig) :
    (deleteDataDirectories.calls segs).map (fun call => call.Hostname) = hostsOf segs := by
  rw [deleteDataDirectories.calls, groupByHost_filter]
  simp [groupByHost, Function.comp_def]

theorem calls_request (segs : List SegConfig) (call : AgentCall)
    (h : call ∈ deleteDataDirectories.calls segs) :
    call.Request.Datadirs =
      (segs.filter (fun seg => decide (seg.Hostname = call.Hostname))).map
        (fun seg => seg.DataDir) := by
  rw [deleteDataDirectories.calls, groupByHost_filter] at h
  simp only [groupByHost, List.mem_map] at h
  obtain ⟨group, ⟨host, _, hg⟩, hc⟩ := h
  subst hg
  subst hc
  rfl

theorem ErrorOrNil_eq_none (errs : List Error) :
    MultiError.ErrorOrNil errs = none ↔ errs = [] := by
  cases errs <;> simp [MultiError.ErrorOrNil]

theorem ErrorOrNil_eq_some (errs : List Error) (m : MultiError)
    (h : MultiError.ErrorOrNil errs = some m) : m.Errors = errs ∧ errs ≠ [] := by
  cases errs with
  | nil => simp [MultiError.ErrorOrNil] at h
  | cons e l =>
    simp only [MultiError.ErrorOrNil, Option.some.injEq] at h
    subst h
    exact ⟨rfl, by simp⟩

theorem RenameDirectories_loop_results {σ : Type}
    (ArchiveSource : GoString → GoString → Bool → σ → Option Error × σ)
    (dirs : List IdlRenameDirectories) (mErr : List Error) (s : σ) :
    (RenameDirectories.loop ArchiveSource dirs mErr s).1 =
      mErr ++ (RenameDirectories.results ArchiveSource dirs s).filterMap id := by
  induction dirs generalizing mErr s with
  | nil => simp [RenameDirectories.loop, RenameDirectories.results]
  | cons dir rest ih =>
    rcases h : ArchiveSource dir.Source dir.Target dir.RenameTarget s with ⟨r, s1⟩
    cases r with
    | none => simp [RenameDirectories.loop, RenameDirectories.results, h, ih]
    | some err => simp [RenameDirectories.loop, RenameDirectories.results, h, ih]

theorem RenameDirectories_results_length {σ : Type}
    (ArchiveSource : GoString → GoString → Bool → σ → Option Error × σ)
    (dirs : List IdlRenameDirectories) (s : σ) :
    (RenameDirectories.results ArchiveSource dirs s).length = dirs.length := by
  induction dirs generalizing s with
  | nil => rfl
  | cons dir rest ih => simp [RenameDirectories.results, ih]

theorem RenameDirectories_results_mem {σ : Type}
    (ArchiveSource : GoString → GoString → Bool → σ → Option Error × σ)
    (dirs : List IdlRenameDirectories) (s : σ) (r : Option Error)
    (h : r ∈ RenameDirectories.results ArchiveSource dirs s) :
    ∃ dir ∈ dirs, ∃ s1, r = (ArchiveSource dir.Source dir.Target dir.RenameTarget s1).1 := by
  induction dirs generalizing s with
  | nil => simp [RenameDirectories.results] at h
  | cons dir rest ih =>
    simp only [RenameDirectories.results, List.mem_cons] at h
    rcases h with h | h
    · exact ⟨dir, by simp, s, h⟩
    · obtain ⟨d, hd, s1, hr⟩ := ih _ h
      exact ⟨d, by simp [hd], s1, hr⟩

/-- C18: for every cluster and every assignment of agent clients to hosts,
`DeleteMirrorAndStandbyDataDirectories` sends its requests to pairwise
different hosts, a host receives a request exactly when the cluster has a
segment of role mirror on it (the standby is such a segment), and the request
to a host lists the data directories of the mirror segments of that host in
cluster order.  On the ten-segment cluster of the test, with clients that
succeed, the result is nil and three requests are sent: to standby with
/data/standby, to sdw1 and to sdw2 with their two mirror directories each;
none goes to the host of the coordinator. -/
theorem DeleteMirrorAndStandbyDataDirectories_requests (agentConns : GoString → AgentClient)
    (c : Cluster) :
    ((DeleteMirrorAndStandbyDataDirectories agentConns c).2.map
      (fun call => call.Hostname)).Nodup ∧
    (∀ host : GoString,
      host ∈ (DeleteMirrorAndStandbyDataDirectories agentConns c).2.map
          (fun call => call.Hostname) ↔
        ∃ seg ∈ c, seg.Role = SegmentRole.MirrorRole ∧ seg.Hostname = host) ∧
    (∀ call ∈ (DeleteMirrorAndStandbyDataDirectories agentConns c).2,
      call.Request.Datadirs =
        (c.filter (fun seg =>
          decide (seg.Role = SegmentRole.MirrorRole ∧ seg.Hostname = call.Hostname))).map
          (fun seg => seg.DataDir)) ∧
    (DeleteMirrorAndStandbyDataDirectories succeedingConns testCluster).1 = none ∧
    (DeleteMirrorAndStandbyDataDirectories succeedingConns testCluster).2 =
      [⟨"standby".toList, ⟨["/data/standby".toList]⟩⟩,
       ⟨"sdw1".toList,
         ⟨["/data/dbfast_mirror1/seg1".toList, "/data/dbfast_mirror1/seg3".toList]⟩⟩,
       ⟨"sdw2".toList,
         ⟨["/data/dbfast_mirror2/seg2".toList, "/data/dbfast_mirror2/seg4".toList]⟩⟩] ∧
    "master".toList ∉ (DeleteMirrorAndStandbyDataDirectories succeedingConns testCluster).2.map
      (fun call => call.Hostname) := by
  refine ⟨?_, ?_, ?_, rfl, ?_, ?_⟩
  · simp only [DeleteMirrorAndStandbyDataDirectories, deleteDataDirectories, calls_hosts]
    exact hostsOf_nodup _
  · intro host
    simp only [DeleteMirrorAndStandbyDataDirectories, deleteDataDirectories, calls_hosts,
      hostsOf_mem, Cluster.mirrorsAndStandby, List.mem_filter, decide_eq_true_eq]
    constructor
    · rintro ⟨seg, ⟨hs, hr⟩, hh⟩
      exact ⟨seg, hs, hr, hh⟩
    · rintro ⟨seg, hs, hr, hh⟩
      exact ⟨seg, ⟨hs, hr⟩, hh⟩
  · intro call hcall
    rw [calls_request _ call hcall, Cluster.mirrorsAndStandby, List.filter_filter]
    congr 1
    apply List.filter_congr
    intro seg _
    by_cases h1 : seg.Role = SegmentRole.MirrorRole <;>
      by_cases h2 : seg.Hostname = call.Hostname <;> simp [h1, h2]
  · decide
  · decide

/-- C19: for every cluster and every assignment of agent clients to hosts,
`DeletePrimaryDataDirectories` returns nil when every request it sends
succeeds; otherwise it returns a composite error whose constituents are, as
a multiset, the errors of the failing requests, and this in whatever order
the results of the hosts arrive.  With sdw1 succeeding and sdw2 failing with
"permission denied" on the cluster of the test, the result is a composite
with exactly one constituent, that error. -/
theorem DeletePrimaryDataDirectories_collects_failures (agentConns : GoString → AgentClient)
    (c : Cluster) :
    ((∀ call ∈ (DeletePrimaryDataDirectories agentConns c).2,
        (agentConns call.Hostname).DeleteDataDirectories call.Request = none) →
      (DeletePrimaryDataDirectories agentConns c).1 = none) ∧
    ((∃ call ∈ (DeletePrimaryDataDirectories agentConns c).2,
        ((agentConns call.Hostname).DeleteDataDirectories call.Request).isSome = true) →
      ∃ m : MultiError, (DeletePrimaryDataDirectories agentConns c).1 = some m ∧
        m.Errors ≠ [] ∧
        m.Errors.Perm ((DeletePrimaryDataDirectories agentConns c).2.filterMap
          (fun call => (agentConns call.Hostname).DeleteDataDirectories call.Request))) ∧
    (∀ arrival : List AgentCall, arrival.Perm (DeletePrimaryDataDirectories agentConns c).2 →
      (deleteDataDirectories.collect agentConns arrival = none ↔
        ∀ call ∈ (DeletePrimaryDataDirectories agentConns c).2,
          (agentConns call.Hostname).DeleteDataDirectories call.Request = none) ∧
      ∀ m : MultiError, deleteDataDirectories.collect agentConns arrival = some m →
        m.Errors.Perm ((DeletePrimaryDataDirectories agentConns c).2.filterMap
          (fun call => (agentConns call.Hostname).DeleteDataDirectories call.Request))) ∧
    (DeletePrimaryDataDirectories sdw2FailingConns testCluster).1 =
      some ⟨[Error.New "permission denied".toList]⟩ ∧
    (DeletePrimaryDataDirectories sdw2FailingConns testCluster).2.map (fun call => call.Hostname) =
      ["sdw1".toList, "sdw2".toList] := by
  have hall : ∀ arrival : List AgentCall,
      arrival.Perm (DeletePrimaryDataDirectories agentConns c).2 →
      (deleteDataDirectories.collect agentConns arrival = none ↔
        ∀ call ∈ (DeletePrimaryDataDirectories agentConns c).2,
          (agentConns call.Hostname).DeleteDataDirectories call.Request = none) ∧
      ∀ m : MultiError, deleteDataDirectories.collect agentConns arrival = some m →
        m.Errors.Perm ((DeletePrimaryDataDirectories agentConns c).2.filterMap
          (fun call => (agentConns call.Hostname).DeleteDataDirectories call.Request)) := by
    intro arrival hperm
    constructor
    · rw [deleteDataDirectories.collect, ErrorOrNil_eq_none, List.filterMap_eq_nil_iff]
      constructor
      · intro h call hc
        exact h call (hperm.mem_iff.2 hc)
      · intro h call hc
        exact h call (hperm.mem_iff.1 hc)
    · intro m hm
      rw [(ErrorOrNil_eq_some _ m hm).1]
      exact hperm.filterMap _
  have hself := hall (DeletePrimaryDataDirectories agentConns c).2 (List.Perm.refl _)
  have hres : (DeletePrimaryDataDirectories agentConns c).1 =
      deleteDataDirectories.collect agentConns (DeletePrimaryDataDirectories agentConns c).2 := rfl
  refine ⟨?_, ?_, hall, rfl, by decide⟩
  · intro h
    rw [hres]
    exact hself.1.2 h
  · rintro ⟨call, hc, hfail⟩
    cases hr : (DeletePrimaryDataDirectories agentConns c).1 with
    | none =>
      rw [hres] at hr
      have := hself.1.1 hr call hc
      rw [this] at hfail
      simp at hfail
    | some m =>
      rw [hres] at hr
      refine ⟨m, rfl, ?_, hself.2 m hr⟩
      rw [deleteDataDirectories.collect] at hr
      have := ErrorOrNil_eq_some _ m hr
      rw [this.1]
      exact this.2

/-- C20: the agent's `RenameDirectories` fails exactly when the call of
`ArchiveSource` failed for at least one pair, and the constituents of the
composite error it then returns are the errors of the failed pairs; for a
non-empty list of pairs, if `ArchiveSource` fails for every pair with an
error that wraps E, the call fails with a composite error that has one
constituent per pair, each of which wraps E.  In the scenario of the test,
one pair and an `ArchiveSource` that returns "permission denied", the result
is the composite of that one error. -/
theorem RenameDirectories_fails_iff_a_pair_failed {σ : Type}
    (ArchiveSource : GoString → GoString → Bool → σ → Option Error × σ)
    (request : RenameDirectoriesRequest) (s : σ) :
    ((RenameDirectories ArchiveSource request s).1.isSome = true ↔
      ∃ r ∈ RenameDirectories.results ArchiveSource request.Dirs s, r.isSome = true) ∧
    (∀ m : MultiError, (RenameDirectories ArchiveSource request s).1 = some m →
      m.Errors = (RenameDirectories.results ArchiveSource request.Dirs s).filterMap id) ∧
    (∀ E : Error, request.Dirs ≠ [] →
      (∀ source target renameTarget s1, ∃ err,
        (ArchiveSource source target renameTarget s1).1 = some err ∧ Error.Is err E) →
      ∃ m : MultiError, (RenameDirectories ArchiveSource request s).1 = some m ∧
        m.Errors.length = request.Dirs.length ∧ ∀ err ∈ m.Errors, Error.Is err E) ∧
    RenameDirectories deniedArchiveSource ⟨[⟨[], [], false⟩]⟩ () =
      (some ⟨[Error.New "permission denied".toList]⟩, ()) := by
  have hloop := RenameDirectories_loop_results ArchiveSource request.Dirs [] s
  rw [List.nil_append] at hloop
  have hres : (RenameDirectories ArchiveSource request s).1 = MultiError.ErrorOrNil
      ((RenameDirectories.results ArchiveSource request.Dirs s).filterMap id) := by
    rw [← hloop]; rfl
  refine ⟨?_, ?_, ?_, rfl⟩
  · rw [hres]
    cases hf : (RenameDirectories.results ArchiveSource request.Dirs s).filterMap id with
    | nil =>
      rw [List.filterMap_eq_nil_iff] at hf
      simp only [MultiError.ErrorOrNil, Option.isSome_none, Bool.false_eq_true, false_iff,
        not_exists, not_and]
      intro r hr
      have := hf r hr
      simp only [id] at this
      rw [this]
      simp
    | cons e l =>
      simp only [MultiError.ErrorOrNil, Option.isSome_some, true_iff]
      have he : e ∈ (RenameDirectories.results ArchiveSource request.Dirs s).filterMap id := by
        rw [hf]; simp
      rw [List.mem_filterMap] at he
      obtain ⟨r, hr, hre⟩ := he
      exact ⟨r, hr, by simp only [id] at hre; rw [hre]; rfl⟩
  · intro m hm
    rw [hres] at hm
    exact (ErrorOrNil_eq_some _ m hm).1
  · intro E hne hfail
    have hsome : ∀ r ∈ RenameDirectories.results ArchiveSource request.Dirs s,
        ∃ err, r = some err ∧ Error.Is err E := by
      intro r hr
      obtain ⟨dir, _, s1, hrd⟩ := RenameDirectories_results_mem ArchiveSource _ s r hr
      obtain ⟨err, he, his⟩ := hfail dir.Source dir.Target dir.RenameTarget s1
      exact ⟨err, hrd.trans he, his⟩
    have hlen : ((RenameDirectories.results ArchiveSource request.Dirs s).filterMap id).length =
        request.Dirs.length := by
      rw [← RenameDirectories_results_length ArchiveSource request.Dirs s]
      generalize RenameDirectories.results ArchiveSource request.Dirs s = rs at hsome
      induction rs with
      | nil => rfl
      | cons r rest ih =>
        obtain ⟨err, he, _⟩ := hsome r (by simp)
        subst he
        simp only [List.filterMap_cons, id, List.length_cons]
        rw [ih (fun r hr => hsome r (by simp [hr]))]
    cases hf : (RenameDirectories.results ArchiveSource request.Dirs s).filterMap id with
    | nil =>
      rw [hf] at hlen
      have : request.Dirs = [] := List.length_eq_zero.1 hlen.symm
      exact absurd this hne
    | cons e l =>
      refine ⟨⟨e :: l⟩, ?_, ?_, ?_⟩
      · rw [hres, hf]; rfl
      · rw [← hf]; exact hlen
      · intro err herr
        have : err ∈ (RenameDirectories.results ArchiveSource request.Dirs s).filterMap id := by
          rw [hf]; exact herr
        rw [List.mem_filterMap] at this
        obtain ⟨r, hr, hre⟩ := this
        obtain ⟨err2, he2, his⟩ := hsome r hr
        simp only [id] at hre
        rw [he2] at hre
        cases hre
        exact his

/-! ## The entries of the tablespace map -/

theorem get?_step_isSome (m : Tablespaces) (t : Tablespace) (d : Int) :
    ((NewTablespaces.step m t).get? d).isSome = true ↔
      t.DbId = d ∨ (m.get? d).isSome = true := by
  unfold NewTablespaces.step
  cases hm : m.get? t.DbId with
  | none =>
    by_cases hd : t.DbId = d
    · simp [GoMap.get?_set, hd]
    · simp [GoMap.get?_set, hd]
  | some seg =>
    by_cases hd : t.DbId = d
    · simp [GoMap.get?_set, hd]
    · simp [GoMap.get?_set, hd]

theorem NewTablespaces_get?_isSome (T : TablespaceTuples) (d : Int) :
    ((NewTablespaces T).get? d).isSome = true ↔ ∃ t ∈ T, t.DbId = d := by
  induction T using List.reverseRecOn with
  | nil => simp [NewTablespaces, GoMap.get?_empty]
  | append_singleton T t ih =>
    rw [NewTablespaces_append, get?_step_isSome, ih]
    constructor
    · rintro (h | ⟨u, hu, hd⟩)
      · exact ⟨t, by simp, h⟩
      · exact ⟨u, by simp [hu], hd⟩
    · rintro ⟨u, hu, hd⟩
      rw [List.mem_append, List.mem_singleton] at hu
      rcases hu with hu | hu
      · exact Or.inr ⟨u, hu, hd⟩
      · exact Or.inl (hu ▸ hd)

theorem step_withName (m : Tablespaces) (t : Tablespace) (name : GoString) :
    NewTablespaces.step m (t.withName name) = NewTablespaces.step m t := rfl

theorem NewTablespaces_map_withName (rename : Tablespace → GoString) (T : TablespaceTuples) :
    NewTablespaces (T.map (fun t => t.withName (rename t))) = NewTablespaces T := by
  induction T using List.reverseRecOn with
  | nil => rfl
  | append_singleton T t ih =>
    rw [List.map_append, List.map_singleton, NewTablespaces_append, NewTablespaces_append, ih,
      step_withName]

/-- C21: for every tuple sequence `T`, dbid `d` and oid `o`: the result of
`NewTablespaces` has an entry for `d` exactly when some tuple of `T` has dbid
`d`; the segment map of that entry has an entry for `o` exactly when some
tuple of `T` has dbid `d` and oid `o`; and this entry is the location and the
user-defined flag of the last such tuple of `T`, whatever the earlier tuples
with the same dbid and oid carry.  The name of a tuple plays no part: the
result is the same whatever the names are.  For three tuples of which the
first and the last have dbid 1 and oid 5, the result is
`{1:{5:(/y,0)}, 2:{7:(/z,1)}}`, with the location and flag of the last. -/
theorem NewTablespaces_entries_last_wins (T : TablespaceTuples) (d o : Int) :
    (((NewTablespaces T).get? d).isSome = true ↔ ∃ t ∈ T, t.DbId = d) ∧
    (∀ seg, (NewTablespaces T).get? d = some seg →
      ((seg.get? o).isSome = true ↔ ∃ t ∈ T, t.DbId = d ∧ t.Oid = o)) ∧
    (∀ pre post t, T = pre ++ t :: post → t.DbId = d → t.Oid = o →
      (∀ u ∈ post, ¬ (u.DbId = d ∧ u.Oid = o)) →
      ∃ seg, (NewTablespaces T).get? d = some seg ∧
        seg.get? o = some ⟨t.Location, t.UserDefined⟩) ∧
    (∀ rename : Tablespace → GoString,
      NewTablespaces (T.map (fun t => t.withName (rename t))) = NewTablespaces T) ∧
    NewTablespaces overwritingTuples =
      ⟨[(1, ⟨[(5, ⟨"/y".toList, 0⟩)]⟩), (2, ⟨[(7, ⟨"/z".toList, 1⟩)]⟩)]⟩ := by
  refine ⟨NewTablespaces_get?_isSome T d, ?_, ?_,
    fun rename => NewTablespaces_map_withName rename T, by decide⟩
  · intro seg hseg
    have hfind : (NewTablespaces T).find d o = seg.get? o := by
      simp [Tablespaces.find, hseg]
    rw [← hfind, NewTablespaces_find, Option.isSome_map', List.find?_isSome]
    constructor
    · rintro ⟨t, ht, hp⟩
      exact ⟨t, List.mem_reverse.1 ht, of_decide_eq_true hp⟩
    · rintro ⟨t, ht, hp⟩
      exact ⟨t, List.mem_reverse.2 ht, decide_eq_true hp⟩
  · intro pre post t hT hd ho hpost
    rw [← Tablespaces.find_eq_some_iff, NewTablespaces_find,
      (find?_reverse_eq_some_iff T d o t).2 ⟨pre, post, hT, hd, ho, hpost⟩]
    rfl

/-! ## The first rune of a string -/

/-- The rune that `DecodeRuneInString` finds at the start of some strings:
an ASCII byte, encodings of two, three and four bytes, and byte sequences
that are not valid encodings; a field that begins with the two bytes of a
no-break space is quoted, one that begins with the byte 0xA0 alone or with
an accented letter is not. -/
theorem DecodeRuneInString_examples :
    DecodeRuneInString "a".toList = 0x61 ∧
    DecodeRuneInString ['\xc3', '\xa9'] = 0xE9 ∧
    DecodeRuneInString ['\xc2', '\xa0', 'x'] = 0xA0 ∧
    DecodeRuneInString ['\xe1', '\x9a', '\x80'] = 0x1680 ∧
    DecodeRuneInString ['\xe3', '\x80', '\x80'] = 0x3000 ∧
    DecodeRuneInString ['\xf0', '\x9f', '\x98', '\x80'] = 0x1F600 ∧
    DecodeRuneInString ['\xa0'] = RuneError ∧
    DecodeRuneInString ['\xc0', '\xa0'] = RuneError ∧
    DecodeRuneInString ['\xed', '\xa0', '\x80'] = RuneError ∧
    DecodeRuneInString ['\xe2', '\x80'] = RuneError ∧
    fieldNeedsQuotes ['\xc2', '\xa0', 'x'] = true ∧
    fieldNeedsQuotes ['\xa0', 'x'] = false ∧
    fieldNeedsQuotes ['\xc3', '\xa9'] = false := by
  decide

/-! ## The paths of the tablespace calls -/

theorem Join_pair_of_cleanBase (L d : GoString) (hL : CleanBase L) (hd : PlainElem d) :
    Join [L, d] = L ++ "/".toList ++ d := by
  obtain ⟨hclean, hroot, hdot⟩ := hL
  have hne : L ≠ [] := by
    intro h
    rw [h] at hclean
    simp [Clean] at hclean
  have h1 := Clean_append_elem L d hclean hroot hdot hd
  unfold Join
  rw [if_pos hne]
  simp only [stringsJoin]
  simpa using h1

theorem Join_triple_of_cleanBase (B d e : GoString) (hB : CleanBase B) (hd : PlainElem d)
    (he : PlainElem e) :
    Join [B, d, e] = B ++ "/".toList ++ d ++ "/".toList ++ e := by
  obtain ⟨hclean, hroot, hdot⟩ := hB
  have hne : B ≠ [] := by
    intro h
    rw [h] at hclean
    simp [Clean] at hclean
  have h1 := Clean_append_elem B d hclean hroot hdot hd
  have hlen : 2 ≤ (B ++ '/' :: d).length := by
    have := List.length_pos.mpr hne
    simp only [List.length_append, List.length_cons]
    omega
  have h2 := Clean_append_elem (B ++ '/' :: d) e h1
    (by intro h; rw [h] at hlen; simp at hlen) (by intro h; rw [h] at hlen; simp at hlen) he
  unfold Join
  rw [if_pos hne]
  simp only [stringsJoin]
  simpa using h2

theorem zipWith_congr_of_mem {α β γ : Type} (f g : α → β → γ) (l : List α) (r : List β)
    (h : ∀ a ∈ l, ∀ b, f a b = g a b) : List.zipWith f l r = List.zipWith g l r := by
  induction l generalizing r with
  | nil => simp
  | cons a l ih =>
    cases r with
    | nil => simp
    | cons b r =>
      simp only [List.zipWith_cons_cons]
      rw [h a (by simp) b, ih r (fun a2 ha2 => h a2 (by simp [ha2]))]

section WorkerPaths

variable {σ : Type}

/-- C11, counterexample: with a tablespace location that ends in a separator
and a mapping file in the root directory, the copy goes from `/16385/1` to
`/tsa/2` and the link points at `/tsa/2`, not from `//16385/1` to `/tsa//2`
as the paths of the claim read: `filepath.Join` cleans them. -/
theorem RestoreTablespaces_cleans_paths :
    rootMappingRequest.CheckOnly = false ∧
    (RestoreTablespaces (failingOn (fun _ => false)).traced 1 rootMappingRequest
      trailingSlashSegment ((), [])).1 = none ∧
    (RestoreTablespaces (failingOn (fun _ => false)).traced 1 rootMappingRequest
      trailingSlashSegment ((), [])).2.2 =
      [Call.Rsync "/16385/1".toList "/tsa/2".toList [],
       Call.Lstat "/data/new/seg1/pg_tblspc/16385".toList,
       Call.Remove "/data/new/seg1/pg_tblspc/16385".toList,
       Call.Symlink "/tsa/2".toList "/data/new/seg1/pg_tblspc/16385".toList] ∧
    Dir rootMappingRequest.TablespacesMappingFilePath ++ "/".toList ++ Itoa 16385 ++
      "/".toList ++ Itoa 1 = "//16385/1".toList ∧
    "/tsa/".toList ++ "/".toList ++ Itoa trailingSlashSegment.DBID = "/tsa//2".toList ∧
    Call.Rsync
        (Dir rootMappingRequest.TablespacesMappingFilePath ++ "/".toList ++ Itoa 16385 ++
          "/".toList ++ Itoa 1)
        ("/tsa/".toList ++ "/".toList ++ Itoa trailingSlashSegment.DBID) [] ∉
      (RestoreTablespaces (failingOn (fun _ => false)).traced 1 rootMappingRequest
        trailingSlashSegment ((), [])).2.2 := by
  refine ⟨rfl, rfl, by decide, by decide, by decide, by decide⟩

/-- C11, amended: for every non-check-only request whose mapping file lies in
a directory other than `/` and `.`, and every segment whose user-defined
tablespace locations are clean paths other than `/` and `.`, if
`RestoreTablespaces` succeeds (every copy and every symlink recreation
returns nil), then the calls it makes are, for each entry of the segment's
tablespace map whose user-defined flag is set, in the order in which the map
is visited, and for no other entry: one copy from
`<directory of the mapping file path>/<oid>/<coordinator dbid>` to
`<tablespace location>/<segment dbid>`, with no restriction of names,
followed by one recreation of the symlink named
`<target data dir>/pg_tblspc/<oid>` pointing at
`<tablespace location>/<segment dbid>`: a status lookup of the link name, its
removal when `removed` says so, and the creation of the link. -/
theorem RestoreTablespaces_literal_paths (sys : System σ) (MasterDbid : Int)
    (request : UpgradePrimariesRequest) (segment : Segment) (s : σ)
    (hmode : request.CheckOnly = false)
    (hok : (RestoreTablespaces sys.traced MasterDbid request segment (s, [])).1 = none)
    (hdir : CleanBase (Dir request.TablespacesMappingFilePath))
    (hloc : ∀ entry ∈ segment.Tablespaces.entries, entry.2.UserDefined = true →
      CleanBase entry.2.Location) :
    ∃ removes : List Bool,
      removes.length = (segment.Tablespaces.entries.filter (fun e => e.2.UserDefined)).length ∧
      (RestoreTablespaces sys.traced MasterDbid request segment (s, [])).2.2 =
        (List.zipWith
          (fun (entry : Int × IdlTablespaceInfo) (removed : Bool) =>
            [Call.Rsync
                (Dir request.TablespacesMappingFilePath ++ "/".toList ++ Itoa entry.1 ++
                  "/".toList ++ Itoa MasterDbid)
                (entry.2.Location ++ "/".toList ++ Itoa segment.DBID) [],
              Call.Lstat (segment.TargetDataDir ++ "/pg_tblspc/".toList ++ Itoa entry.1)] ++
            (if removed = true then
              [Call.Remove (segment.TargetDataDir ++ "/pg_tblspc/".toList ++ Itoa entry.1)]
              else []) ++
            [Call.Symlink (entry.2.Location ++ "/".toList ++ Itoa segment.DBID)
              (segment.TargetDataDir ++ "/pg_tblspc/".toList ++ Itoa entry.1)])
          (segment.Tablespaces.entries.filter (fun e => e.2.UserDefined)) removes).flatten := by
  obtain ⟨removes, hlen, htr⟩ :=
    RestoreTablespaces_calls_of_success sys MasterDbid request segment s hmode hok
  refine ⟨removes, hlen, ?_⟩
  rw [htr]
  congr 1
  apply zipWith_congr_of_mem
  intro entry hentry removed
  rw [List.mem_filter] at hentry
  have hL := hloc entry hentry.1 hentry.2
  have h1 : GetMasterTablespaceLocation MasterDbid (Dir request.TablespacesMappingFilePath)
      entry.1 = Dir request.TablespacesMappingFilePath ++ "/".toList ++ Itoa entry.1 ++
        "/".toList ++ Itoa MasterDbid :=
    Join_triple_of_cleanBase _ _ _ hdir (Itoa_plainElem _) (Itoa_plainElem _)
  have h2 : GetTablespaceLocationForDbId entry.2 segment.DBID =
      entry.2.Location ++ "/".toList ++ Itoa segment.DBID :=
    Join_pair_of_cleanBase _ _ hL (Itoa_plainElem _)
  rw [h1, h2]

/-- Witness for C11 (amended): a segment with the default tablespace and one
user-defined tablespace at `/tsa`, the mapping file in `/state`, in an
environment where every call succeeds: one copy and one symlink recreation,
for the user-defined tablespace only. -/
theorem RestoreTablespaces_literal_paths_witness :
    ((sampleRequest false false).CheckOnly = false ∧
      (RestoreTablespaces (failingOn (fun _ => false)).traced 1 (sampleRequest false false)
        twoTablespaceSegment ((), [])).1 = none ∧
      CleanBase (Dir (sampleRequest false false).TablespacesMappingFilePath) ∧
      (∀ entry ∈ twoTablespaceSegment.Tablespaces.entries, entry.2.UserDefined = true →
        CleanBase entry.2.Location)) ∧
    (RestoreTablespaces (failingOn (fun _ => false)).traced 1 (sampleRequest false false)
        twoTablespaceSegment ((), [])).2.2 =
      [Call.Rsync "/state/16385/1".toList "/tsa/2".toList [],
       Call.Lstat "/data/new/seg1/pg_tblspc/16385".toList,
       Call.Remove "/data/new/seg1/pg_tblspc/16385".toList,
       Call.Symlink "/tsa/2".toList "/data/new/seg1/pg_tblspc/16385".toList] :=
  ⟨⟨rfl, rfl, by decide, by decide⟩,
    (RestoreTablespaces_literal_paths (failingOn (fun _ => false)) 1
      (sampleRequest false false) twoTablespaceSegment () rfl rfl (by decide) (by decide)).elim
      (fun _ _ => by decide)⟩

end WorkerPaths

end Gpupgrade
